import Mathlib

/-!
# cloudpan: remote directory listing, path resolution, tree walk, directory
creation and upload session

A shallow embedding of `cloudpan/app_file_directory.go`, `cloudpan/mkdir.go`
and `cloudpan/app_file_upload.go`.

* Go strings are Lean strings; the byte-level operations used by the code
  (`strings.Index(s, "-") == 0`, `strings.Split(s, "/")`,
  `strings.ReplaceAll(s, "//", "/")`, `path.Clean`) only look at the ASCII
  bytes `/`, `.` and `-`, so they are written over the character list.
* `int` and `uint` are the 64-bit types of the usual build targets: `Int` and
  `Nat`, with the conversions between them and `float64` written out.
* The HTTP layer (URL, signature, `p.client.Fetch`, `xml.Unmarshal`) is the
  field of a `PanClient`: it maps the request parameters, together with the
  history of everything the client did before, to the decoded response.  The
  history is threaded through every operation as a `Trace`, so that the
  requests an operation issues can be counted and ordered.
* `time.Sleep` pacing has no effect on any result and is left out.
-/

namespace Cloudpan

/-! ## Package `apierror` -/

/-- Modelled from the spec: the error kinds of package `apierror`, whose source
is not among the source files; one constructor per `apierror.ApiCode...` constant
the call sites name, `ApiCodeFileNotFoundCode` being the spec's `NotFound`. -/
inductive ApiCode where
  | ApiCodeOk
  | ApiCodeFailed
  | ApiCodeFileNotFoundCode
  | ApiCodeFileAlreadyExisted
  | ApiCodeUploadOffsetVerifyFailed
  | ApiCodeUploadFileStatusVerifyFailed
  | ApiCodeUploadFileNotFound
  deriving DecidableEq

/-- Modelled from the spec: `apierror.ApiError`, a structured error value made
of an error kind and a message. -/
structure ApiError where
  Code : ApiCode
  Err : String
  deriving DecidableEq

/-- Modelled from the spec: `apierror.NewApiError(code, msg)`. -/
def NewApiError (code : ApiCode) (msg : String) : ApiError :=
  { Code := code, Err := msg }

/-- Modelled from the spec: `apierror.NewFailedApiError(msg)`, an error of the
generic failure kind. -/
def NewFailedApiError (msg : String) : ApiError :=
  NewApiError ApiCode.ApiCodeFailed msg

/-- Modelled from the spec: `apierror.NewApiErrorWithError(err)` for a non-nil
`err`, the translation of a transport or parse failure, whose text is kept. -/
def NewApiErrorWithError (msg : String) : ApiError :=
  NewApiError ApiCode.ApiCodeFailed msg

deriving instance DecidableEq for Except

/-! ## Data model -/

/-- The Go struct `AppGetFileInfoParam`. -/
structure AppGetFileInfoParam where
  FamilyId : Int := 0
  FileId : String := ""
  FilePath : String := ""
  deriving DecidableEq

/-- The Go struct `appGetFolderInfoNode`. -/
structure appGetFolderInfoNode where
  Fid : String := ""
  Fname : String := ""
  deriving DecidableEq

/-- The Go struct `AppGetFileInfoResult`; `ParentFolderList` is the folder list
of the `parentFolderListNode`. -/
structure AppGetFileInfoResult where
  FileId : String := ""
  ParentId : String := ""
  FileName : String := ""
  CreateDate : String := ""
  LastOpTime : String := ""
  Path : String := ""
  Rev : String := ""
  ParentFolderList : List appGetFolderInfoNode := []
  GroupSpaceId : String := ""
  deriving DecidableEq

/-- The Go struct `AppFileListParam`; `OrderBy` and `OrderSort` are the
integer-valued enumerations of the listing package. -/
structure AppFileListParam where
  FamilyId : Int := 0
  FileId : String := ""
  OrderBy : Int := 0
  OrderSort : Int := 0
  PageNum : Nat := 0
  PageSize : Nat := 0
  ConstructPath : Bool := false
  deriving DecidableEq

/-- The Go struct `AppFileEntity`. -/
structure AppFileEntity where
  FileId : String := ""
  ParentId : String := ""
  FileMd5 : String := ""
  FileName : String := ""
  FileSize : Int := 0
  LastOpTime : String := ""
  CreateTime : String := ""
  Path : String := ""
  MediaType : Int := 0
  IsFolder : Bool := false
  SubFileCount : Nat := 0
  StartLabel : Int := 0
  FavoriteLabel : Int := 0
  Orientation : Int := 0
  Rev : String := ""
  FileCata : Int := 0
  deriving DecidableEq

/-- The Go struct `AppFileListResult`; the Go slice type `AppFileList` is
`List AppFileEntity`. -/
structure AppFileListResult where
  LastRev : String := ""
  Count : Int := 0
  FileList : (List AppFileEntity) := []
  deriving DecidableEq

/-- The local Go struct `appFileListResultInternal` of `AppFileList`: what
`xml.Unmarshal` decodes a listing response into. -/
structure appFileListResultInternal where
  LastRev : String := ""
  Count : Int := 0
  FolderList : (List AppFileEntity) := []
  FileList : (List AppFileEntity) := []
  deriving DecidableEq

/-! ## Transport -/

/-- What the client has done so far: a listing request (`AppFileList`, with the
parameters as sent), a metadata request (`AppGetBasicFileInfo`), or a call of
the walk callback with its arguments and the value it returned. -/
inductive Event where
  | listFiles (param : AppFileListParam)
  | getFolderInfo (param : AppGetFileInfoParam)
  | callback (depth : Int) (fdPath : String) (fd : Option AppFileEntity)
      (apierr : Option ApiError) (ret : Bool)
  deriving DecidableEq

/-- The history of a run, oldest event first. -/
abbrev Trace := List Event

/-- The body of a listing response as `AppFileList` reads it: the outcome of
`apierror.ParseAppCommonApiError`, the `Code` of the body decoded as an error
envelope (empty when it does not decode or carries none), and the body decoded
as a listing (or the decoder's failure). -/
structure ListFilesBody where
  commonErr : Option ApiError := none
  code : String := ""
  decoded : Except String appFileListResultInternal := Except.ok {}

/-- The body of a metadata response as `AppGetBasicFileInfo` reads it. -/
structure FolderInfoBody where
  code : String := ""
  decoded : Except String AppGetFileInfoResult := Except.ok {}

/-- The remote side of a `PanClient`: `p.client.Fetch` on the listing and on the
metadata endpoint, returning the transport failure or the response body.  The
answer may depend on the whole history. -/
structure PanClient where
  listFiles : Trace → AppFileListParam → Except String ListFilesBody
  getFolderInfo : Trace → AppGetFileInfoParam → Except String FolderInfoBody

/-- The Go type `HandleAppFileDirectoryFunc`; a Go closure may keep state, so the
callback also sees the history. -/
abbrev HandleAppFileDirectoryFunc :=
  Trace → Int → String → Option AppFileEntity → Option ApiError → Bool

/-! ## 64-bit integers and `float64` -/

/-- The Go conversion `int(u)` of a `uint` on a 64-bit target. -/
def intOfUint (u : Nat) : Int :=
  if u % 2 ^ 64 < 2 ^ 63 then ((u % 2 ^ 64 : Nat) : Int)
  else ((u % 2 ^ 64 : Nat) : Int) - 2 ^ 64

/-- The position of the leading binary digit: `log2Aux fuel n` halves `n` at most
`fuel` times. -/
def log2Aux : Nat → Nat → Nat
  | 0, _ => 0
  | fuel + 1, n => if 2 ≤ n then log2Aux fuel (n / 2) + 1 else 0

/-- The integer `k` with `2 ^ k ≤ n < 2 ^ (k + 1)`, for positive `n`. -/
def log2 (n : Nat) : Nat := log2Aux n n

/-- Round the fraction `n / d` to the nearest integer, ties to even. -/
def roundHalfEven (n d : Nat) : Nat :=
  if 2 * (n % d) < d then n / d
  else if d < 2 * (n % d) then n / d + 1
  else if (n / d) % 2 = 0 then n / d else n / d + 1

/-- The Go conversion `float64(n)` of a non-negative integer below `2 ^ 64`:
the nearest value with a 53-bit significand, which is again an integer. -/
def float64OfNat (n : Nat) : Nat :=
  if n < 2 ^ 53 then n
  else roundHalfEven n (2 ^ (log2 n - 52)) * 2 ^ (log2 n - 52)

/-- The binary exponent of `a / b` for positive `a` and `b`: the integer
`e` with `2 ^ e ≤ a / b < 2 ^ (e + 1)`. -/
def quotExp (a b : Nat) : Int :=
  let l : Int := (log2 a : Int) - (log2 b : Int)
  if 0 ≤ l then (if b * 2 ^ l.toNat ≤ a then l else l - 1)
  else (if b ≤ a * 2 ^ (-l).toNat then l else l - 1)

/-- The `float64` quotient `a / b` of two non-negative integer-valued floats,
`b` positive, as a fraction `(num, den)`: the exact quotient rounded to a
53-bit significand (all quotients formed here lie in the normal range). -/
def float64Div (a b : Nat) : Nat × Nat :=
  if a = 0 then (0, 1)
  else
    let sh : Int := 52 - quotExp a b
    if 0 ≤ sh then (roundHalfEven (a * 2 ^ sh.toNat) b, 2 ^ sh.toNat)
    else (roundHalfEven a (b * 2 ^ (-sh).toNat) * 2 ^ (-sh).toNat, 1)

/-- The Go expression `int(math.Ceil(float64(count) / float64(pageSize)))` for
an `int` count and a positive `uint` page size.  A negative count gives a
quotient in `(-∞, 0]`, whose ceiling is minus the floor of its magnitude; the
one quotient outside the `int` range, `2 ^ 63`, converts to `-2 ^ 63` (the
amd64 result). -/
def pageCountOf (count : Int) (pageSize : Nat) : Int :=
  let q := float64Div (float64OfNat count.natAbs) (float64OfNat pageSize)
  if count < 0 then -((q.1 / q.2 : Nat) : Int)
  else
    let c := (q.1 + q.2 - 1) / q.2
    if c < 2 ^ 63 then (c : Int) else -(2 ^ 63)

/-! ## Strings and paths (Go standard library) -/

/-- The Go test `strings.Index(s, "-") == 0`: `s` starts with a minus sign. -/
def startsWithDash (s : String) : Bool :=
  match s.data with
  | c :: _ => c == '-'
  | [] => false

/-- The Go function `path.IsAbs`: the path starts with a slash. -/
def pathIsAbs (s : String) : Bool :=
  match s.data with
  | c :: _ => c == '/'
  | [] => false

/-- Split a character list at every slash, given the element read so far. -/
def splitSlashAux : List Char → List Char → List (List Char)
  | [], cur => [cur.reverse]
  | c :: cs, cur =>
    if c = '/' then cur.reverse :: splitSlashAux cs [] else splitSlashAux cs (c :: cur)

/-- Modelled from the spec: the separator constant `PathSeparator`, declared in
a file that is not among the source files; paths are slash-delimited.  With it
`strings.Split(s, PathSeparator)` cuts `s` at every slash and keeps the empty
pieces. -/
def stringsSplit (s : String) : List String :=
  (splitSlashAux s.data []).map String.mk

/-- The Go call `strings.ReplaceAll(s, "//", "/")` on a character list: the
non-overlapping occurrences of two slashes, found left to right, each become
one slash. -/
def replaceDoubleSlash : List Char → List Char
  | [] => []
  | [c] => [c]
  | c :: d :: rest =>
    if c = '/' ∧ d = '/' then '/' :: replaceDoubleSlash rest
    else c :: replaceDoubleSlash (d :: rest)

/-- The Go call `strings.ReplaceAll(s, "//", "/")`. -/
def stringsReplaceAll (s : String) : String :=
  String.mk (replaceDoubleSlash s.data)

/-- The main loop of the Go function `path.Clean` over the elements between
slashes.  `out` holds the elements written so far, last one first, and
`dotdot` how many of them a `..` must not remove (the leading `..` elements of
a relative path).  Empty and `.` elements are dropped, `..` removes the last
element written when it may, and is itself written at the front of a relative
path. -/
def cleanElems (rooted : Bool) : List (List Char) → List (List Char) → Nat → List (List Char)
  | [], out, _ => out.reverse
  | e :: es, out, dotdot =>
    if e = [] ∨ e = ['.'] then cleanElems rooted es out dotdot
    else if e = ['.', '.'] then
      if dotdot < out.length then cleanElems rooted es out.tail dotdot
      else if rooted then cleanElems rooted es out dotdot
      else cleanElems rooted es (e :: out) (out.length + 1)
    else cleanElems rooted es (e :: out) dotdot

/-- Join elements with a slash between neighbours. -/
def joinSlash : List (List Char) → List Char
  | [] => []
  | [e] => e
  | e :: e2 :: es => e ++ '/' :: joinSlash (e2 :: es)

/-- The Go function `path.Clean`: the shortest path equivalent to the given one
by purely lexical processing.  A rooted path keeps its leading slash; an empty
result is written `.`. -/
def pathClean (s : String) : String :=
  if s.data = [] then "."
  else if pathIsAbs s then
    String.mk ('/' :: joinSlash (cleanElems true (splitSlashAux s.data []) [] 0))
  else if joinSlash (cleanElems false (splitSlashAux s.data []) [] 0) = [] then "."
  else String.mk (joinSlash (cleanElems false (splitSlashAux s.data []) [] 0))

/-! ## Listing (`AppFileList`, `AppGetAllFileList`) -/

/-- Modelled from the spec: the sort key `OrderByName`, a constant of a file
that is not among the source files; only its being one fixed value matters. -/
def OrderByName : Int := 1

/-- Modelled from the spec: the sort direction `OrderAsc`, a constant of a file
that is not among the source files; only its being one fixed value matters. -/
def OrderAsc : Int := 1

/-- The Go function `NewAppFileListParam`. -/
def NewAppFileListParam : AppFileListParam :=
  { FamilyId := 0, FileId := "-11", OrderBy := OrderByName, OrderSort := OrderAsc,
    PageNum := 1, PageSize := 200 }

/-- The Go function `NewAppFileEntityForRootDir`: the root sentinel. -/
def NewAppFileEntityForRootDir : AppFileEntity :=
  { FileId := "-11", IsFolder := true, FileName := "/", ParentId := "" }

/-- The Go method `AppGetBasicFileInfo`: one metadata request.  The result is
`ok item` for `(item, nil)` and `error e` for `(nil, e)`.  In the shared
(family) realm an empty id fails before any request, and the decoded record
keeps neither the path nor the parent folder list. -/
def AppGetBasicFileInfo (p : PanClient) (param : AppGetFileInfoParam) (tr : Trace) :
    Except ApiError AppGetFileInfoResult × Trace :=
  if 0 < param.FamilyId ∧ param.FileId = "" then
    (Except.error (NewFailedApiError "FileId为空"), tr)
  else
    let tr1 := tr ++ [Event.getFolderInfo param]
    match p.getFolderInfo tr param with
    | Except.error err1 => (Except.error (NewApiErrorWithError err1), tr1)
    | Except.ok body =>
      if body.code ≠ "" then
        if body.code = "FileNotFound" then
          (Except.error (NewApiError ApiCode.ApiCodeFileNotFoundCode "文件不存在"), tr1)
        else (Except.error (NewFailedApiError "请求出错"), tr1)
      else
        match body.decoded with
        | Except.error err => (Except.error (NewApiErrorWithError err), tr1)
        | Except.ok item =>
          if param.FamilyId ≤ 0 then (Except.ok item, tr1)
          else
            (Except.ok
              { FileId := item.FileId, ParentId := item.ParentId, FileName := item.FileName,
                CreateDate := item.CreateDate, LastOpTime := item.LastOpTime, Rev := item.Rev },
             tr1)

/-- The parameters `AppFileList` sends: in the shared realm the root id `-11`
goes out as the empty id. -/
def sentListParam (param : AppFileListParam) : AppFileListParam :=
  if 0 < param.FamilyId ∧ param.FileId = "-11" then { param with FileId := "" } else param

/-- The Go method `AppFileList`: one page request.  A page is the folder
sequence, every entry marked a folder, followed by the file sequence, every
entry marked a file. -/
def AppFileList (p : PanClient) (param : AppFileListParam) (tr : Trace) :
    Except ApiError AppFileListResult × Trace :=
  let tr1 := tr ++ [Event.listFiles (sentListParam param)]
  match p.listFiles tr (sentListParam param) with
  | Except.error err1 => (Except.error (NewApiErrorWithError err1), tr1)
  | Except.ok body =>
    match body.commonErr with
    | some apiErr => (Except.error apiErr, tr1)
    | none =>
      if body.code = "FileNotFound" then
        (Except.error (NewApiError ApiCode.ApiCodeFileNotFoundCode "文件不存在"), tr1)
      else
        match body.decoded with
        | Except.error err => (Except.error (NewApiErrorWithError err), tr1)
        | Except.ok itemResult =>
          (Except.ok
            { LastRev := itemResult.LastRev, Count := itemResult.Count,
              FileList :=
                itemResult.FolderList.map (fun item => { item with IsFolder := true }) ++
                itemResult.FileList.map (fun item => { item with IsFolder := false }) },
           tr1)

/-- The loop of the Go method `AppFilePathById`, `fuel` bounding its rounds
(`none`: not finished within `fuel` rounds).  The result is `ok path` for
`(path, nil)` and `error e` for `("", e)`. -/
def AppFilePathByIdLoop (p : PanClient) (familyId : Int) :
    Nat → String → String → Trace → Option (Except ApiError String) × Trace
  | 0, _, _, tr => (none, tr)
  | fuel + 1, fileId, fullPath, tr =>
    match AppGetBasicFileInfo p { FamilyId := familyId, FileId := fileId } tr with
    | (Except.error err, tr1) => (some (Except.error err), tr1)
    | (Except.ok fi, tr1) =>
      if fi.Path ≠ "" then (some (Except.ok fi.Path), tr1)
      else if startsWithDash fi.FileId || startsWithDash fi.ParentId then
        (some (Except.ok ("/" ++ fullPath)), tr1)
      else
        AppFilePathByIdLoop p familyId fuel fi.ParentId
          (if fullPath = "" then fi.FileName else fi.FileName ++ "/" ++ fullPath) tr1

/-- The Go method `AppFilePathById`. -/
def AppFilePathById (fuel : Nat) (p : PanClient) (familyId : Int) (fileId : String)
    (tr : Trace) : Option (Except ApiError String) × Trace :=
  AppFilePathByIdLoop p familyId fuel fileId "" tr

/-- The page loop of `AppGetAllFileList`: `for page := 2; page <= pageCount;
page++`, entered at `page` with `n` pages left; a failing page ends the loop
and keeps what was collected. -/
def morePages (p : PanClient) (internalParam : AppFileListParam) :
    Nat → Nat → (List AppFileEntity) → Trace → (List AppFileEntity) × Trace
  | 0, _, acc, tr => (acc, tr)
  | n + 1, page, acc, tr =>
    match AppFileList p { internalParam with PageNum := page } tr with
    | (Except.error _, tr1) => (acc, tr1)
    | (Except.ok fileResult, tr1) =>
      morePages p internalParam n (page + 1) (acc ++ fileResult.FileList) tr1

/-- The parameters of the page requests of `AppGetAllFileList`. -/
def internalParamOf (param : AppFileListParam) : AppFileListParam :=
  sentListParam
    { FamilyId := param.FamilyId, FileId := param.FileId, OrderBy := param.OrderBy,
      OrderSort := param.OrderSort, PageNum := 1,
      PageSize := if param.PageSize ≤ 0 then 200 else param.PageSize }

/-- The Go method `AppGetAllFileList`.  The outer `Option` is `none` when the
path construction did not finish within `fuel` rounds; `ok r` is `(r, nil)`
and `error e` is `(nil, e)`. -/
def AppGetAllFileList (fuel : Nat) (p : PanClient) (param : AppFileListParam) (tr : Trace) :
    Option (Except ApiError AppFileListResult) × Trace :=
  let internalParam := internalParamOf param
  match AppFileList p internalParam tr with
  | (Except.error err, tr1) => (some (Except.error err), tr1)
  | (Except.ok fileResult, tr1) =>
    let more : (List AppFileEntity) × Trace :=
      if fileResult.Count > intOfUint internalParam.PageSize then
        morePages p internalParam
          (pageCountOf fileResult.Count internalParam.PageSize - 1).toNat 2
          fileResult.FileList tr1
      else (fileResult.FileList, tr1)
    let withParent : (List AppFileEntity) := more.1.map (fun fi => { fi with ParentId := param.FileId })
    if param.ConstructPath then
      match AppFilePathById fuel p param.FamilyId param.FileId more.2 with
      | (none, tr3) => (none, tr3)
      | (some (Except.ok parentFullPath), tr3) =>
        (some (Except.ok
          { LastRev := fileResult.LastRev, Count := fileResult.Count,
            FileList := withParent.map (fun fi =>
              { fi with Path := parentFullPath ++ "/" ++ fi.FileName,
                        ParentId := param.FileId }) }), tr3)
      | (some (Except.error _), tr3) =>
        (some (Except.ok
          { LastRev := fileResult.LastRev, Count := fileResult.Count, FileList := withParent }),
         tr3)
    else
      (some (Except.ok
        { LastRev := fileResult.LastRev, Count := fileResult.Count, FileList := withParent }),
       more.2)

/-! ## Path to node (`AppFileInfoByPath`) -/

/-- The Go function `getPath`: the path made of the elements `0..index` of the
slice, each preceded by a slash, with doubled slashes merged. -/
def getPath (index : Nat) (pathSlice : List String) : String :=
  stringsReplaceAll
    ((pathSlice.take (index + 1)).foldl (fun fullPath str => fullPath ++ "/" ++ str) "")

/-- The listing request `searchPath` that `getAppFileInfoByPath` makes for the
folder `parentFileInfo`. -/
def searchPathOf (familyId : Int) (parentFileInfo : AppFileEntity) : AppFileListParam :=
  { NewAppFileListParam with FileId := parentFileInfo.FileId, FamilyId := familyId }

/-- The Go method `getAppFileInfoByPath`.  `steps` bounds the depth of the
recursion, which `index` makes finite: `AppFileInfoByPath` passes one more than
the length of the slice.  The listing of `parentFileInfo` is searched, in
order, for the first entry whose name is the element at `index`. -/
def getAppFileInfoByPath (fuel : Nat) (p : PanClient) (familyId : Int)
    (pathSlice : List String) :
    Nat → Nat → Option AppFileEntity → Trace →
      Option (Except ApiError AppFileEntity) × Trace
  | 0, _, _, tr => (none, tr)
  | steps + 1, index, none, tr =>
    if index = 0 ∧ pathSlice.length = 1 then (some (Except.ok NewAppFileEntityForRootDir), tr)
    else
      getAppFileInfoByPath fuel p familyId pathSlice steps (index + 1)
        (some NewAppFileEntityForRootDir) tr
  | steps + 1, index, some parentFileInfo, tr =>
    if pathSlice.length ≤ index then (some (Except.ok parentFileInfo), tr)
    else
      match AppGetAllFileList fuel p (searchPathOf familyId parentFileInfo) tr with
      | (none, tr1) => (none, tr1)
      | (some (Except.error err), tr1) => (some (Except.error err), tr1)
      | (some (Except.ok fileResult), tr1) =>
        if fileResult.FileList.length = 0 then
          (some (Except.error (NewApiError ApiCode.ApiCodeFileNotFoundCode "文件不存在")), tr1)
        else
          match fileResult.FileList.find?
              (fun fileEntity => fileEntity.FileName == pathSlice.getD index "") with
          | some fileEntity =>
            getAppFileInfoByPath fuel p familyId pathSlice steps (index + 1)
              (some { fileEntity with ParentId := parentFileInfo.FileId,
                                      Path := getPath index pathSlice }) tr1
          | none =>
            (some (Except.error (NewApiError ApiCode.ApiCodeFileNotFoundCode "文件不存在")),
             tr1)

/-- The slice `AppFileInfoByPath` walks: one empty element for the root path,
the slash-separated elements otherwise. -/
def pathSliceOf (pathStr : String) : List String :=
  if pathStr = "/" then [""] else stringsSplit pathStr

/-- The Go method `AppFileInfoByPath`; `len(pathStr)` is the length in bytes. -/
def AppFileInfoByPath (fuel : Nat) (p : PanClient) (familyId : Int) (pathStr : String)
    (tr : Trace) : Option (Except ApiError AppFileEntity) × Trace :=
  let pathStr1 := if pathStr = "" then "/" else pathStr
  if !pathIsAbs pathStr1 then
    (some (Except.error (NewFailedApiError "pathStr必须是绝对路径")), tr)
  else
    let pathStr2 := if 1 < pathStr1.utf8ByteSize then pathClean pathStr1 else pathStr1
    let pathSlice := pathSliceOf pathStr2
    if pathStr2 ≠ "/" ∧ pathSlice.headD "" ≠ "" then
      (some (Except.error (NewFailedApiError "pathStr必须是绝对路径")), tr)
    else
      getAppFileInfoByPath fuel p familyId pathSlice (pathSlice.length + 1) 0 none tr

/-! ## Tree walk (`AppFilesDirectoriesRecurseList`) -/

/-- One round of the loop `for _, fi := range r.FileList` of `appRecurseList`,
the recursive call on a folder being `recurse`: the entry is appended to `fld`;
a folder is walked one level deeper, a file is handed to the callback (without
a callback `ok` keeps its value `true`).  The first component is the flag `ok`
after the round, `none` when the walk below ran out of fuel. -/
def recurseStep
    (recurse : AppFileEntity → Int → List AppFileEntity → Trace →
      Option Bool × List AppFileEntity × Trace)
    (handleAppFileDirectoryFunc : Option HandleAppFileDirectoryFunc) (depth : Int)
    (fi : AppFileEntity) (fld : List AppFileEntity) (tr : Trace) :
    Option Bool × List AppFileEntity × Trace :=
  if fi.IsFolder then recurse fi (depth + 1) (fld ++ [fi]) tr
  else
    match handleAppFileDirectoryFunc with
    | some f =>
      (some (f tr depth fi.Path (some fi) none), fld ++ [fi],
       tr ++ [Event.callback depth fi.Path (some fi) none (f tr depth fi.Path (some fi) none)])
    | none => (some true, fld ++ [fi], tr)

/-- The loop `for _, fi := range r.FileList` of `appRecurseList`: the rounds
follow each other in listing order until one leaves `ok` false. -/
def recurseItems
    (recurse : AppFileEntity → Int → List AppFileEntity → Trace →
      Option Bool × List AppFileEntity × Trace)
    (handleAppFileDirectoryFunc : Option HandleAppFileDirectoryFunc) (depth : Int) :
    List AppFileEntity → List AppFileEntity → Trace →
      Option Bool × List AppFileEntity × Trace
  | [], fld, tr => (some true, fld, tr)
  | fi :: rest, fld, tr =>
    match recurseStep recurse handleAppFileDirectoryFunc depth fi fld tr with
    | (none, fld2, tr2) => (none, fld2, tr2)
    | (some false, fld2, tr2) => (some false, fld2, tr2)
    | (some true, fld2, tr2) =>
      recurseItems recurse handleAppFileDirectoryFunc depth rest fld2 tr2

/-- The listing request `flp` that `appRecurseList` makes for the folder
`folderInfo`: the default parameters with path construction switched on. -/
def flpOf (familyId : Int) (folderInfo : AppFileEntity) : AppFileListParam :=
  { NewAppFileListParam with
      FileId := folderInfo.FileId, FamilyId := familyId, ConstructPath := true }

/-- The Go method `appRecurseList`, `fuel` bounding the depth of the recursion
and the rounds of the path construction inside each listing.  It returns the
flag `ok` (`none`: out of fuel), the list `*fld` and the history. -/
def appRecurseList (p : PanClient) (familyId : Int)
    (handleAppFileDirectoryFunc : Option HandleAppFileDirectoryFunc) :
    Nat → AppFileEntity → Int → List AppFileEntity → Trace →
      Option Bool × List AppFileEntity × Trace
  | 0, _, _, fld, tr => (none, fld, tr)
  | fuel + 1, folderInfo, depth, fld, tr =>
    match AppGetAllFileList (fuel + 1) p (flpOf familyId folderInfo) tr with
    | (none, tr1) => (none, fld, tr1)
    | (some (Except.error apiError), tr1) =>
      match handleAppFileDirectoryFunc with
      | some f =>
        (some false, fld,
         tr1 ++ [Event.callback depth folderInfo.Path none (some apiError)
           (f tr1 depth folderInfo.Path none (some apiError))])
      | none => (some false, fld, tr1)
    | (some (Except.ok r), tr1) =>
      recurseItems (appRecurseList p familyId handleAppFileDirectoryFunc fuel)
        handleAppFileDirectoryFunc depth r.FileList fld tr1

/-- The Go method `AppFilesDirectoriesRecurseList`.  The outer `Option` is
`none` when the walk ran out of fuel; the inner one is the returned slice,
`none` standing for `nil`. -/
def AppFilesDirectoriesRecurseList (fuel : Nat) (p : PanClient) (familyId : Int)
    (path : String) (handleAppFileDirectoryFunc : Option HandleAppFileDirectoryFunc)
    (tr : Trace) : Option (Option (List AppFileEntity)) × Trace :=
  match AppFileInfoByPath fuel p familyId path tr with
  | (none, tr1) => (none, tr1)
  | (some (Except.error er), tr1) =>
    match handleAppFileDirectoryFunc with
    | some f =>
      (some none, tr1 ++ [Event.callback 0 path none (some er) (f tr1 0 path none (some er))])
    | none => (some none, tr1)
  | (some (Except.ok targetFileInfo), tr1) =>
    if !targetFileInfo.IsFolder then
      match handleAppFileDirectoryFunc with
      | some f =>
        (some (some [targetFileInfo]),
         tr1 ++ [Event.callback 0 path (some targetFileInfo) none
           (f tr1 0 path (some targetFileInfo) none)])
      | none => (some (some [targetFileInfo]), tr1)
    else
      match appRecurseList p familyId handleAppFileDirectoryFunc fuel targetFileInfo 1 [] tr1 with
      | (none, _, tr2) => (none, tr2)
      | (some false, _, tr2) => (some none, tr2)
      | (some true, fld, tr2) => (some (some fld), tr2)

/-! ## Vocabulary of the specification -/

/-- Spec side: what one page contributes to the aggregated list, "folders then
files, each tagged with its `isFolder` flag", the order inside each sequence
kept. -/
def specPageItems (r : appFileListResultInternal) : List AppFileEntity :=
  r.FolderList.map (fun item => { item with IsFolder := true }) ++
    r.FileList.map (fun item => { item with IsFolder := false })

/-- An entry without the two fields the aggregator rewrites after collecting
the pages (`ParentId` always, `Path` under path construction). -/
def withoutDerived (fi : AppFileEntity) : AppFileEntity :=
  { fi with ParentId := "", Path := "" }

/-- The page requests of a history, in the order they were issued. -/
def listRequests (tr : Trace) : List AppFileListParam :=
  tr.filterMap (fun ev => match ev with
    | Event.listFiles q => some q
    | _ => none)

/-- The page request `param` succeeds on `p` with the decoded listing `r`,
whatever happened before. -/
def PageSucceeds (p : PanClient) (param : AppFileListParam)
    (r : appFileListResultInternal) : Prop :=
  ∀ tr, ∃ body, p.listFiles tr (sentListParam param) = Except.ok body ∧
    body.commonErr = none ∧ body.code ≠ "FileNotFound" ∧ body.decoded = Except.ok r

/-- The page request `param` fails on `p`, whatever happened before. -/
def PageFails (p : PanClient) (param : AppFileListParam) : Prop :=
  ∀ tr, ∃ err, (AppFileList p param tr).1 = Except.error err

/-- The path construction of `AppGetAllFileList`, when asked for, ends within
`fuel` rounds of the loop of `AppFilePathById`. -/
def PathLookupEnds (fuel : Nat) (p : PanClient) (param : AppFileListParam) : Prop :=
  param.ConstructPath = true →
    ∀ tr, (AppFilePathById fuel p param.FamilyId param.FileId tr).1 ≠ none

/-- The number of rounds of the page loop of `AppGetAllFileList` when no page
fails, for total count `count` and page size `pageSize`. -/
def morePagesCount (count : Int) (pageSize : Nat) : Nat :=
  if intOfUint pageSize < count then (pageCountOf count pageSize - 1).toNat else 0

/-! ## Vocabulary for paths -/

/-- Spec side: the absolute path `/c1/.../cn` of the components `c1 .. cn`; the
root path `/` for no component. -/
def absPathOf (cs : List String) : String :=
  String.mk ('/' :: joinSlash (cs.map String.data))

/-- Spec side: a path component that lexical cleaning leaves alone: non-empty,
without a slash, and neither `.` nor `..`. -/
def PlainName (c : String) : Prop :=
  c.data ≠ [] ∧ '/' ∉ c.data ∧ c.data ≠ ['.'] ∧ c.data ≠ ['.', '.']

/-- Spec side: the message `msg` names `part`, that is, `part` occurs in it as
a contiguous piece. -/
def mentions (msg part : String) : Bool :=
  msg.data.tails.any (fun t => part.data.isPrefixOf t)

/-- The recursion of `getAppFileInfoByPath` below a known parent, written over
the elements still to resolve instead of the step bound: `descend` on
`pathSlice.drop index` is `getAppFileInfoByPath` at `index` (see
`getAppFileInfoByPath_eq_descend`); it is used to reason about runs on a path
and on its beginnings. -/
def descend (fuel : Nat) (p : PanClient) (familyId : Int) (pathSlice : List String) :
    List String → Nat → AppFileEntity → Trace →
      Option (Except ApiError AppFileEntity) × Trace
  | [], _, parentFileInfo, tr => (some (Except.ok parentFileInfo), tr)
  | c :: rest, index, parentFileInfo, tr =>
    match AppGetAllFileList fuel p (searchPathOf familyId parentFileInfo) tr with
    | (none, tr1) => (none, tr1)
    | (some (Except.error err), tr1) => (some (Except.error err), tr1)
    | (some (Except.ok fileResult), tr1) =>
      if fileResult.FileList.length = 0 then
        (some (Except.error (NewApiError ApiCode.ApiCodeFileNotFoundCode "文件不存在")), tr1)
      else
        match fileResult.FileList.find? (fun fileEntity => fileEntity.FileName == c) with
        | some fileEntity =>
          descend fuel p familyId pathSlice rest (index + 1)
            { fileEntity with ParentId := parentFileInfo.FileId,
                              Path := getPath index pathSlice } tr1
        | none =>
          (some (Except.error (NewApiError ApiCode.ApiCodeFileNotFoundCode "文件不存在")),
           tr1)

/-! ## Sample transports -/

/-- A client without memory: the answers depend on the request only. -/
def statelessClient (ls : AppFileListParam → Except String ListFilesBody)
    (gi : AppGetFileInfoParam → Except String FolderInfoBody) : PanClient :=
  { listFiles := fun _ param => ls param, getFolderInfo := fun _ param => gi param }

/-- A folder of three entries served two per page: a folder and a file on
page 1, one more file on page 2. -/
def twoPages (k : Nat) : appFileListResultInternal :=
  if k = 1 then
    { Count := 3, FolderList := [{ FileId := "d1", FileName := "docs" }],
      FileList := [{ FileId := "a1", FileName := "a.txt" }] }
  else if k = 2 then { Count := 3, FileList := [{ FileId := "b1", FileName := "b.txt" }] }
  else { Count := 3 }

/-- A client serving `twoPages` for every folder. -/
def twoPagesClient : PanClient :=
  statelessClient (fun param => Except.ok { decoded := Except.ok (twoPages param.PageNum) })
    (fun _ => Except.error "no metadata")

/-- A listing request of two entries per page for the root folder. -/
def twoPerPage : AppFileListParam := { NewAppFileListParam with PageSize := 2 }

/-- A listing that reports `2 ^ 53 + 1` entries and holds one entry, on page
`2 ^ 53 + 1`. -/
def hugePages (k : Nat) : appFileListResultInternal :=
  { Count := 9007199254740993,
    FileList := if k = 9007199254740993 then [{ FileId := "x", FileName := "x" }] else [] }

/-- A client serving `hugePages` for every folder. -/
def hugeClient : PanClient :=
  statelessClient (fun param => Except.ok { decoded := Except.ok (hugePages param.PageNum) })
    (fun _ => Except.error "no metadata")

/-- A listing request of one entry per page for the root folder. -/
def onePerPage : AppFileListParam := { NewAppFileListParam with PageSize := 1 }

/-- A client on which every folder is empty. -/
def emptyClient : PanClient :=
  statelessClient (fun _ => Except.ok { decoded := Except.ok { Count := 0 } })
    (fun _ => Except.error "no metadata")

/-- A first page that reports five entries and holds two of them. -/
def fivePages (_k : Nat) : appFileListResultInternal :=
  { Count := 5,
    FileList := [{ FileId := "a1", FileName := "a.txt" }, { FileId := "b1", FileName := "b.txt" }] }

/-- A client whose first page is `fivePages` and whose later pages fail in
transport. -/
def laterPagesFailClient : PanClient :=
  statelessClient
    (fun param =>
      if param.PageNum = 1 then Except.ok { decoded := Except.ok (fivePages 1) }
      else Except.error "connection reset")
    (fun _ => Except.error "no metadata")

/-- The folder `docs` as the listing of the root decodes it. -/
def docsRaw : AppFileEntity := { FileId := "f1", FileName := "docs", ParentId := "-11" }

/-- The file `report.pdf` as the listing of `docs` decodes it. -/
def reportRaw : AppFileEntity := { FileId := "f2", FileName := "report.pdf", ParentId := "f1" }

/-- The listing side of the sample tree `root (-11) → docs (f1) → report.pdf
(f2)`: one page per folder. -/
def docsListing (param : AppFileListParam) : Except String ListFilesBody :=
  if param.PageNum ≠ 1 then Except.ok { decoded := Except.ok { Count := 0 } }
  else if param.FileId = "-11" then
    Except.ok { decoded := Except.ok { Count := 1, FolderList := [docsRaw] } }
  else if param.FileId = "f1" then
    Except.ok { decoded := Except.ok { Count := 1, FileList := [reportRaw] } }
  else Except.ok { code := "FileNotFound" }

/-- The metadata side of the sample tree; no record carries a path. -/
def docsInfo (param : AppGetFileInfoParam) : Except String FolderInfoBody :=
  if param.FileId = "-11" then
    Except.ok { decoded := Except.ok { FileId := "-11", FileName := "" } }
  else if param.FileId = "f1" then
    Except.ok { decoded := Except.ok { FileId := "f1", FileName := "docs", ParentId := "-11" } }
  else if param.FileId = "f2" then
    Except.ok { decoded := Except.ok { FileId := "f2", FileName := "report.pdf", ParentId := "f1" } }
  else Except.ok { code := "FileNotFound" }

/-- The sample store `root (-11) → docs (f1) → report.pdf (f2)`. -/
def docsClient : PanClient := statelessClient docsListing docsInfo

/-- The node `report.pdf` as `AppFileInfoByPath` returns it. -/
def reportNode : AppFileEntity :=
  { FileId := "f2", FileName := "report.pdf", ParentId := "f1", Path := "/docs/report.pdf" }

/-- The folder `docs` as the walk's listing of the root returns it (the path
of the root is looked up as `/`, to which `/docs` is appended). -/
def docsWalked : AppFileEntity :=
  { docsRaw with IsFolder := true, ParentId := "-11", Path := "//docs" }

/-- The file `report.pdf` as the walk's listing of `docs` returns it (the path
of `docs` is looked up as `/`). -/
def reportWalked : AppFileEntity :=
  { reportRaw with IsFolder := false, ParentId := "f1", Path := "//report.pdf" }

/-- A callback that lets every walk continue. -/
def continueAlways : HandleAppFileDirectoryFunc := fun _ _ _ _ _ => true

/-- The first file of the two-file store, as its listing decodes it. -/
def fileA : AppFileEntity := { FileId := "a1", FileName := "a.txt" }

/-- The second file of the two-file store, as its listing decodes it. -/
def fileB : AppFileEntity := { FileId := "b1", FileName := "b.txt" }

/-- A store whose root holds the two files `a.txt` and `b.txt`. -/
def twoFilesClient : PanClient :=
  statelessClient
    (fun param =>
      if param.PageNum = 1 ∧ param.FileId = "-11" then
        Except.ok { decoded := Except.ok { Count := 2, FileList := [fileA, fileB] } }
      else Except.ok { code := "FileNotFound" })
    (fun _ => Except.ok { decoded := Except.ok { FileId := "-11" } })

/-- A callback that cancels the walk at every call. -/
def cancelAlways : HandleAppFileDirectoryFunc := fun _ _ _ _ _ => false

/-- The file `a.txt` as the walk of the two-file store hands it to the
callback. -/
def fileAWalked : AppFileEntity := { fileA with ParentId := "-11", Path := "//a.txt" }

/-- The file `a.txt` of the two-file store as `AppFileInfoByPath` returns it. -/
def fileAResolved : AppFileEntity := { fileA with ParentId := "-11", Path := "/a.txt" }

/-- A store whose root holds the two files `a.txt` and `b.txt` and whose
metadata requests all fail in transport. -/
def noMetadataClient : PanClient :=
  statelessClient
    (fun param =>
      if param.PageNum = 1 ∧ param.FileId = "-11" then
        Except.ok { decoded := Except.ok { Count := 2, FileList := [fileA, fileB] } }
      else Except.ok { code := "FileNotFound" })
    (fun _ => Except.error "connection reset")

/-! ## Vocabulary for the tree walk -/

/-- The event is a call of the walk callback. -/
def isCallback : Event → Bool
  | Event.callback _ _ _ _ _ => true
  | _ => false

/-- The event is a call of the walk callback that returned `false`. -/
def isFalseCallback : Event → Bool
  | Event.callback _ _ _ _ ret => !ret
  | _ => false

/-- The invariant of a walk: a callback that returned `false` can only be the
last event, and a walk that reports success saw none. -/
def StopsAtFalse (ok : Option Bool) (evs : Trace) : Prop :=
  (∀ ev ∈ evs.dropLast, isFalseCallback ev = false) ∧
  (ok = some true → ∀ ev ∈ evs, isFalseCallback ev = false)

/-- Spec side: a finite forest of remote nodes, in first-child / next-sibling
form: `cons e children siblings` is the node `e`, the forest below it, and the
nodes that follow `e` in the listing of its parent. -/
inductive Forest where
  | nil : Forest
  | cons (e : AppFileEntity) (children : Forest) (siblings : Forest) : Forest

/-- The top-level nodes of a forest, in listing order. -/
def Forest.roots : Forest → List AppFileEntity
  | Forest.nil => []
  | Forest.cons e _ siblings => e :: siblings.roots

/-- Spec side: the depth-first pre-order enumeration of a forest: every node
before its own descendants, children in listing order. -/
def Forest.preorder : Forest → List AppFileEntity
  | Forest.nil => []
  | Forest.cons e children siblings => e :: (children.preorder ++ siblings.preorder)

/-- The number of folders of a forest. -/
def Forest.folders : Forest → Nat
  | Forest.nil => 0
  | Forest.cons e children siblings =>
    (if e.IsFolder then 1 else 0) + children.folders + siblings.folders

/-- The number of files of a forest. -/
def Forest.files : Forest → Nat
  | Forest.nil => 0
  | Forest.cons e children siblings =>
    (if e.IsFolder then 0 else 1) + children.files + siblings.files

/-- The number of levels of a forest. -/
def Forest.height : Forest → Nat
  | Forest.nil => 0
  | Forest.cons _ children siblings => max (children.height + 1) siblings.height

/-- The walk's listing of `folder` succeeds on `p` with the entries `entries`,
whatever happened before, once the fuel is at least `f0`. -/
def ListsAs (p : PanClient) (familyId : Int) (f0 : Nat) (folder : AppFileEntity)
    (entries : List AppFileEntity) : Prop :=
  ∀ fuel, f0 ≤ fuel → ∀ tr, ∃ r evs,
    AppGetAllFileList fuel p (flpOf familyId folder) tr = (some (Except.ok r), tr ++ evs) ∧
    r.FileList = entries

/-- The forest is what `p` serves: every folder of it lists, without failure,
as the top-level nodes of the forest below it, and nothing is below a file. -/
def Served (p : PanClient) (familyId : Int) (f0 : Nat) : Forest → Prop
  | Forest.nil => True
  | Forest.cons e children siblings =>
    (e.IsFolder = true → ListsAs p familyId f0 e children.roots ∧ Served p familyId f0 children) ∧
    (e.IsFolder = false → children = Forest.nil) ∧
    Served p familyId f0 siblings

/-- The callback, when there is one, returns `true` on every call. -/
def AlwaysContinue (cb : Option HandleAppFileDirectoryFunc) : Prop :=
  ∀ f, cb = some f → ∀ tr depth fdPath fd apierr, f tr depth fdPath fd apierr = true

/-- The forest below the root of the sample store: `docs`, and `report.pdf`
below it. -/
def docsForest : Forest :=
  Forest.cons docsWalked (Forest.cons reportWalked Forest.nil Forest.nil) Forest.nil

/-- Spec side: the callback calls of a complete walk over a forest whose top
level is at depth `depth`: one call per file and none per folder, in
pre-order, each with the depth of the file (one more per folder level), the
file's `Path`, the file's node and no error; every call returned `true`. -/
def Forest.fileCalls (depth : Int) : Forest → List Event
  | Forest.nil => []
  | Forest.cons e children siblings =>
    (if e.IsFolder then children.fileCalls (depth + 1)
     else [Event.callback depth e.Path (some e) none true]) ++ siblings.fileCalls depth

/-- The event is a call of the walk callback that reports an error. -/
def isErrorCallback : Event → Bool
  | Event.callback _ _ _ (some _) _ => true
  | _ => false

/-- The event is the request for the first page of a listing. -/
def isFirstPageRequest : Event → Bool
  | Event.listFiles q => q.PageNum == 1
  | _ => false

/-- The event is the request for the first page of a listing, and at the
history `hist` that request fails: the listing as a whole fails (the failure of
a later page does not make a listing fail). -/
def firstPageFails (p : PanClient) (hist : Trace) (ev : Event) : Prop :=
  ∃ q, ev = Event.listFiles q ∧ q.PageNum = 1 ∧
    ∃ err, (AppFileList p q hist).1 = Except.error err

/-- The event, happening after the history `hist`, ends a walk in failure: a
callback that returned `false`, a callback reporting an error, or a listing
that fails. -/
def EndsWalk (p : PanClient) (hist : Trace) (ev : Event) : Prop :=
  isFalseCallback ev = true ∨ isErrorCallback ev = true ∨ firstPageFails p hist ev

/-- The invariant of the requests of a run that started at `hist`: whenever the
request for the first page of a listing fails with `err`, the events `post`
following it in the run satisfy `Q err post`. -/
def ListingFails (p : PanClient) (hist : Trace) (Q : ApiError → Trace → Prop)
    (evs : Trace) : Prop :=
  ∀ pre q post err, evs = pre ++ Event.listFiles q :: post → q.PageNum = 1 →
    (AppFileList p q (hist ++ pre)).1 = Except.error err → Q err post

/-- The invariant of the requests of a run that started at `hist`: a listing
that fails makes the operation fail (`failed`). -/
def FailsWithListing (p : PanClient) (hist : Trace) (failed : Prop) (evs : Trace) : Prop :=
  ∀ pre ev post, evs = pre ++ ev :: post → firstPageFails p (hist ++ pre) ev → failed

/-- What follows a failed listing in a walk: one call of the callback, without
a node and with the error of the listing, and nothing else; nothing at all
when the walk has no callback. -/
def Reported (cb : Option HandleAppFileDirectoryFunc) (err : ApiError) (post : Trace) : Prop :=
  match cb with
  | some _ => ∃ d s ret, post = [Event.callback d s none (some err) ret]
  | none => post = []

/-- The invariant of a walk that started at `hist`: an event that ends the walk
leaves the flag `ok` false, and when it is a callback call nothing follows
it. -/
def WalkEnds (p : PanClient) (hist : Trace) (ok : Option Bool) (evs : Trace) : Prop :=
  ∀ pre ev post, evs = pre ++ ev :: post → EndsWalk p (hist ++ pre) ev →
    ok = some false ∧ (isCallback ev = true → post = [])

/-- The invariant of a walk with the callback `cb`: `WalkEnds`, and a listing
that fails is followed by its report to the callback and nothing else. -/
def WalkFails (p : PanClient) (cb : Option HandleAppFileDirectoryFunc) (hist : Trace)
    (ok : Option Bool) (evs : Trace) : Prop :=
  WalkEnds p hist ok evs ∧ ListingFails p hist (Reported cb) evs

/-- A store whose root holds the folder `docs`, the listing of which fails:
the root lists `docs`, every other listing is answered with `FileNotFound`. -/
def brokenDocsClient : PanClient :=
  statelessClient
    (fun param =>
      if param.PageNum = 1 ∧ param.FileId = "-11" then
        Except.ok { decoded := Except.ok { Count := 1, FolderList := [docsRaw] } }
      else Except.ok { code := "FileNotFound" })
    docsInfo

/-! ## Vocabulary for `AppFilePathById` -/

/-- The record ends the loop of `AppFilePathById`: it carries a server path, or
its id or its parent id begins with `-`. -/
def endsPathLoop (fi : AppGetFileInfoResult) : Bool :=
  decide (fi.Path ≠ "") || startsWithDash fi.FileId || startsWithDash fi.ParentId

/-- Spec side: following `ParentId` from `fileId`, every metadata fetch
succeeding, a record that ends the loop is reached within `d` steps; the
fetches see the history as the loop would leave it. -/
def reachesEnd (p : PanClient) (familyId : Int) : Nat → String → Trace → Bool
  | 0, fileId, tr =>
    match AppGetBasicFileInfo p { FamilyId := familyId, FileId := fileId } tr with
    | (Except.error _, _) => false
    | (Except.ok fi, _) => endsPathLoop fi
  | d + 1, fileId, tr =>
    match AppGetBasicFileInfo p { FamilyId := familyId, FileId := fileId } tr with
    | (Except.error _, _) => false
    | (Except.ok fi, tr1) => endsPathLoop fi || reachesEnd p familyId d fi.ParentId tr1

/-- Spec side: the metadata of the nodes `nodes` form a tree below the
sentinel, measured by `rank`: the fetch of a node succeeds, and a record that
does not end the loop names a parent that is a node of smaller rank. -/
def TreeBelowSentinel (p : PanClient) (familyId : Int) (rank : String → Nat)
    (nodes : String → Prop) : Prop :=
  ∀ (fileId : String) (tr : Trace), nodes fileId →
    ∃ fi tr1, AppGetBasicFileInfo p { FamilyId := familyId, FileId := fileId } tr =
        (Except.ok fi, tr1) ∧
      (endsPathLoop fi = true ∨ (rank fi.ParentId < rank fileId ∧ nodes fi.ParentId))

/-- The depth of the nodes of the sample tree `root → docs → report.pdf`. -/
def docsRank (fileId : String) : Nat :=
  if fileId = "f2" then 1 else 0

/-- The nodes of the sample tree below the root. -/
def docsNodes (fileId : String) : Prop :=
  fileId = "f1" ∨ fileId = "f2"

/-- The listing of the root of the shared sample store: the file `a.txt`,
reported under a parent id of the server's own. -/
def familyRoot : appFileListResultInternal :=
  { Count := 1, FileList := [{ FileId := "a1", FileName := "a.txt", ParentId := "srv" }] }

/-- A store of one folder in the shared realm: the root, asked for with the
empty id, lists the file `a.txt`; every metadata request is refused with a
server error code. -/
def familyClient : PanClient :=
  statelessClient
    (fun param =>
      if param.PageNum = 1 ∧ param.FileId = "" then Except.ok { decoded := Except.ok familyRoot }
      else Except.ok { code := "FileNotFound" })
    (fun _ => Except.ok { code := "PermissionDenied" })

/-- A store whose metadata responses do not decode. -/
def garbledClient : PanClient :=
  statelessClient (fun _ => Except.ok { code := "FileNotFound" })
    (fun _ => Except.ok { decoded := Except.error "EOF" })

/-- The sample tree with the record of `docs` missing: the metadata of
`report.pdf` (`f2`) names the parent `f1`, of which the server knows
nothing. -/
def reportOnlyClient : PanClient :=
  statelessClient (fun _ => Except.ok { code := "FileNotFound" })
    (fun param =>
      if param.FileId = "f2" then
        Except.ok { decoded := Except.ok { FileId := "f2", FileName := "report.pdf", ParentId := "f1" } }
      else Except.ok { code := "FileNotFound" })

/-! ## Directory creation (`Mkdir`, `MkdirRecursive`) -/

/-- The Go struct `MkdirResult`: the decoded response of a create-folder
request.  A field missing from the response keeps its zero value. -/
structure MkdirResult where
  FileId : String := ""
  IsNew : Bool := false
  deriving DecidableEq

/-- Modelled from the spec: the struct `FileEntity` of the web interface is not
in the sources; these are the two fields of it that `MkdirRecursive` reads. -/
structure FileEntity where
  FileId : String := ""
  FileName : String := ""
  deriving DecidableEq

/-- Modelled from the spec: `NewFileEntityForRootDir()` is not in the sources;
the root sentinel carries the id `-11`, the id `Mkdir` itself puts in place of
an empty parent ("默认根目录"). -/
def NewFileEntityForRootDir : FileEntity := { FileId := "-11", FileName := "/" }

/-- A request of the web interface, as recorded in the history of a run:
`fileList fileId` is a call of `FileList` for the folder `fileId`,
`createFolder parentId dirName` the request `createFolder.action`. -/
inductive WebEvent where
  | fileList (fileId : String)
  | createFolder (parentId dirName : String)
  deriving DecidableEq

/-- The history of a run of the web interface. -/
abbrev WebTrace := List WebEvent

/-- The part of the Go `PanClient` that `Mkdir` and `MkdirRecursive` use; every
answer may depend on the history of the run.

* `FileList` — modelled from the spec: the method `FileList` is not in the
  sources.  It is called with the default parameters, of which only `FileId`
  is set, and answers the entries `Data` of the folder or an error.
* `createFolder` — `p.client.DoGet` on the create-folder address followed by
  `json.Unmarshal`: the outer error is a transport failure, the inner one a
  body that does not decode.
* `CheckFileNameValid`, `FileNameSpecialChars` — modelled from the spec: the
  package `apiutil` is not in the sources; the validity check and the text of
  the forbidden characters are parameters. -/
structure WebClient where
  FileList : WebTrace → String → Except ApiError (List FileEntity)
  createFolder : WebTrace → String → String → Except String (Except String MkdirResult)
  CheckFileNameValid : String → Bool
  FileNameSpecialChars : String

/-- The Go method `Mkdir`.  Go's `(item, err)` with a non-nil `err` is
`Except.error (item, err)`, `item` being `none` for `nil`; `(item, nil)` is
`Except.ok item`. -/
def Mkdir (p : WebClient) (parentFileId dirName : String) (tr : WebTrace) :
    Except (Option MkdirResult × ApiError) MkdirResult × WebTrace :=
  let parentFileId1 := if parentFileId = "" then "-11" else parentFileId
  let tr1 := tr ++ [WebEvent.createFolder parentFileId1 dirName]
  match p.createFolder tr parentFileId1 dirName with
  | Except.error err => (Except.error (none, NewApiErrorWithError err), tr1)
  | Except.ok (Except.error err) => (Except.error (none, NewApiErrorWithError err), tr1)
  | Except.ok (Except.ok item) =>
    if !item.IsNew then
      (Except.error (some item, NewFailedApiError ("文件夹已存在: " ++ dirName)), tr1)
    else (Except.ok item, tr1)

/-- The Go method `MkdirRecursive`, `steps` bounding the depth of the recursion
(`none`: not finished within `steps` calls).  The result is the returned
`MkdirResult` with the returned error, `none` for `nil`. -/
def MkdirRecursive (p : WebClient) (pathSlice : List String) :
    Nat → String → String → Nat → WebTrace →
      Option (MkdirResult × Option ApiError) × WebTrace
  | 0, _, _, _, tr => (none, tr)
  | steps + 1, parentFileId, fullPath, index, tr =>
    if parentFileId = "" then
      if index = 0 ∧ pathSlice.length = 1 then
        (some ({ FileId := NewFileEntityForRootDir.FileId, IsNew := false }, none), tr)
      else
        MkdirRecursive p pathSlice steps NewFileEntityForRootDir.FileId "" (index + 1) tr
    else if pathSlice.length ≤ index then
      (some ({ FileId := parentFileId, IsNew := false }, none), tr)
    else
      match p.FileList tr parentFileId with
      | Except.error err =>
        (some ({ FileId := "", IsNew := false }, some err),
         tr ++ [WebEvent.fileList parentFileId])
      | Except.ok data =>
        match data.find? (fun fileEntity => fileEntity.FileName == pathSlice.getD index "") with
        | some fileEntity =>
          MkdirRecursive p pathSlice steps fileEntity.FileId
            (fullPath ++ "/" ++ pathSlice.getD index "") (index + 1)
            (tr ++ [WebEvent.fileList parentFileId])
        | none =>
          if !p.CheckFileNameValid (pathSlice.getD index "") then
            (some ({ FileId := "", IsNew := false },
               some (NewFailedApiError
                 ("文件夹名不能包含特殊字符：" ++ p.FileNameSpecialChars))),
             tr ++ [WebEvent.fileList parentFileId])
          else
            match Mkdir p parentFileId (pathSlice.getD index "")
                (tr ++ [WebEvent.fileList parentFileId]) with
            | (Except.error (_, err), tr2) => (some ({ FileId := "", IsNew := false }, some err), tr2)
            | (Except.ok rs, tr2) =>
              if pathSlice.length ≤ index + 1 then (some (rs, none), tr2)
              else
                MkdirRecursive p pathSlice steps rs.FileId
                  (fullPath ++ "/" ++ pathSlice.getD index "") (index + 1) tr2

/-- The event is a create-folder request. -/
def isCreateFolder : WebEvent → Bool
  | WebEvent.createFolder _ _ => true
  | _ => false

/-- Spec side: the id under which the folder `parent` lists a child named
`name` at the history `h`: that of the first entry with this name, `none` when
the listing fails or has no such entry. -/
def childId (p : WebClient) (h : WebTrace) (parent name : String) : Option String :=
  match p.FileList h parent with
  | Except.ok data =>
    (data.find? (fun fileEntity => fileEntity.FileName == name)).map (fun fe => fe.FileId)
  | Except.error _ => none

/-- Spec side: the store keeps its entries: a child listed under a name stays
listed under it, with the same id, whatever requests follow. -/
def KeepsEntries (p : WebClient) : Prop :=
  ∀ (h hx : WebTrace) (parent name fid : String),
    childId p h parent name = some fid → childId p (h ++ hx) parent name = some fid

/-- Spec side: the listings reflect every earlier successful create: once a
create-folder request for `name` under `parent` has answered a new folder,
every later listing of `parent` shows `name` with the id of that answer. -/
def ReflectsCreates (p : WebClient) : Prop :=
  ∀ (h hx : WebTrace) (parent name : String) (res : MkdirResult),
    p.createFolder h parent name = Except.ok (Except.ok res) → res.IsNew = true →
    childId p (h ++ WebEvent.createFolder parent name :: hx) parent name = some res.FileId

/-- Spec side: the ids the transport answers are not empty (the empty id is
what `MkdirRecursive` takes for "start at the root"). -/
def NonEmptyIds (p : WebClient) : Prop :=
  (∀ (h : WebTrace) (parent : String) (data : List FileEntity) (fe : FileEntity),
    p.FileList h parent = Except.ok data → fe ∈ data → fe.FileId ≠ "") ∧
  (∀ (h : WebTrace) (parent name : String) (res : MkdirResult),
    p.createFolder h parent name = Except.ok (Except.ok res) → res.FileId ≠ "")

/-- The children of `parent` in the sample store after the history `h`: one
entry for each create-folder request under `parent`, its id the id of the
parent followed by a slash and the name. -/
def storeChildren (h : WebTrace) (parent : String) : List FileEntity :=
  h.filterMap (fun ev =>
    match ev with
    | WebEvent.createFolder par name =>
      if par = parent then some { FileId := par ++ "/" ++ name, FileName := name } else none
    | WebEvent.fileList _ => none)

/-- A sample store that starts empty and holds what was created in it: a
create-folder request answers a new folder unless the name is taken. -/
def storeClient : WebClient :=
  { FileList := fun h parent => Except.ok (storeChildren h parent)
    createFolder := fun h parent name =>
      Except.ok (Except.ok
        { FileId := parent ++ "/" ++ name,
          IsNew := !(storeChildren h parent).any (fun fe => fe.FileName == name) })
    CheckFileNameValid := fun name => !name.data.contains '?'
    FileNameSpecialChars := "?" }

/-- A transport in which the folder `a`, created under the root by the run,
already holds a folder `b` when it is listed (another actor made it). -/
def raceClient : WebClient :=
  { FileList := fun _ parent =>
      if parent = "n1" then Except.ok [{ FileId := "x", FileName := "b" }] else Except.ok []
    createFolder := fun _ _ _ => Except.ok (Except.ok { FileId := "n1", IsNew := true })
    CheckFileNameValid := fun _ => true
    FileNameSpecialChars := "" }

/-- A transport whose root lists the folder `a` without an id. -/
def emptyIdClient : WebClient :=
  { FileList := fun _ _ => Except.ok [{ FileId := "", FileName := "a" }]
    createFolder := fun _ _ _ => Except.ok (Except.ok { FileId := "n1", IsNew := true })
    CheckFileNameValid := fun _ => true
    FileNameSpecialChars := "" }

/-- A transport whose store is empty and whose create-folder requests answer
that the folder exists already (`isNew` false), with the id `x1`. -/
def existsClient : WebClient :=
  { FileList := fun _ _ => Except.ok []
    createFolder := fun _ _ _ => Except.ok (Except.ok { FileId := "x1", IsNew := false })
    CheckFileNameValid := fun _ => true
    FileNameSpecialChars := "" }

/-- A transport whose create-folder requests fail in transport. -/
def offlineClient : WebClient :=
  { FileList := fun _ _ => Except.ok []
    createFolder := fun _ _ _ => Except.error "connection reset"
    CheckFileNameValid := fun _ => true
    FileNameSpecialChars := "" }

/-- Spec side: how a successful run for the path `ps` from the history `h0`
ended at `h1` with the result `r`.  Either its last request is the
create-folder request for the last component, `r` is the answer to it and
`IsNew` is true; or its last request is a listing in which the last component
is found under the id `r.FileId`, and `IsNew` is false. -/
def EndsAtLast (p : WebClient) (ps : List String) (h0 h1 : WebTrace) (r : MkdirResult) : Prop :=
  ∃ evs par,
    (h1 = h0 ++ evs ++ [WebEvent.createFolder par (ps.getD (ps.length - 1) "")] ∧
      p.createFolder (h0 ++ evs) par (ps.getD (ps.length - 1) "") = Except.ok (Except.ok r) ∧
      r.IsNew = true) ∨
    (h1 = h0 ++ evs ++ [WebEvent.fileList par] ∧
      childId p (h0 ++ evs) par (ps.getD (ps.length - 1) "") = some r.FileId ∧
      r.IsNew = false)

/-! ## Upload session (`app_file_upload.go`) -/

/-- Modelled from the spec: the session credentials `p.appToken`, whose type is
not among the source files; the two fields the upload requests read. -/
structure AppLoginToken where
  SessionKey : String := ""
  SessionSecret : String := ""
  deriving DecidableEq

/-- The Go struct `AppCreateUploadFileParam`. -/
structure AppCreateUploadFileParam where
  FamilyId : Int := 0
  ParentFolderId : String := ""
  FileName : String := ""
  Size : Int := 0
  Md5 : String := ""
  LastWrite : String := ""
  LocalPath : String := ""
  deriving DecidableEq

/-- The Go struct `AppCreateUploadFileResult`. -/
structure AppCreateUploadFileResult where
  UploadFileId : String := ""
  FileUploadUrl : String := ""
  FileCommitUrl : String := ""
  FileDataExists : Int := 0
  XRequestId : String := ""
  deriving DecidableEq

/-- The Go struct `AppFileUploadRange`: `Offset` is the start, inclusive, and
`Len` the total length of the upload. -/
structure AppFileUploadRange where
  Offset : Int := 0
  Len : Int := 0
  deriving DecidableEq

/-- The Go struct `AppUploadFileCommitResult`. -/
structure AppUploadFileCommitResult where
  Id : String := ""
  Name : String := ""
  Size : String := ""
  Md5 : String := ""
  CreateDate : String := ""
  Rev : String := ""
  UserId : String := ""
  RequestId : String := ""
  IsSafe : String := ""
  deriving DecidableEq

/-- The Go struct `AppGetUploadFileStatusResult`. -/
structure AppGetUploadFileStatusResult where
  UploadFileId : String := ""
  Size : Int := 0
  FileUploadUrl : String := ""
  FileCommitUrl : String := ""
  FileDataExists : Int := 0
  deriving DecidableEq

/-- Modelled from the spec: `apierror.AppErrorXmlResp`, the error envelope of a
response, whose source is not among the source files; the code reads its
`Code`. -/
structure AppErrorXmlResp where
  Code : String := ""
  Message : String := ""
  deriving DecidableEq

/-- A request as it is handed to `p.client.Fetch` or to the upload function.
The Go maps `headers` and `formData` are written as association lists in the
order of their map literals, whose keys are distinct; `formData` is `none` for
a `nil` map. -/
structure HttpRequest where
  httpMethod : String
  fullUrl : String
  formData : Option (List (String × String))
  headers : List (String × String)
  deriving DecidableEq

/-- The history of an upload session: the requests sent so far, oldest
first. -/
abbrev UploadTrace := List HttpRequest

/-- The body of a response as the upload calls read it: the outcome of
`apierror.ParseAppCommonApiError`, and the outcome of `xml.Unmarshal` into the
error envelope and into each of the result structs. -/
structure UploadBody where
  commonErr : Option ApiError := none
  errResp : Except String AppErrorXmlResp := Except.ok {}
  createResult : Except String AppCreateUploadFileResult := Except.ok {}
  commitResult : Except String AppUploadFileCommitResult := Except.ok {}
  statusResult : Except String AppGetUploadFileStatusResult := Except.ok {}

/-- The Go type `UploadFunc`, called with the method, the address and the
headers; it also sees the history.  `error err` is a non-nil `err`;
`ok none` is `(nil, nil)`; `ok (some d)` is a response, `d` being the outcome
of `xml.Unmarshal` of the body that `ioutil.ReadAll` read into the error
envelope. -/
abbrev UploadFunc :=
  UploadTrace → String → String → List (String × String) →
    Except String (Option (Except String AppErrorXmlResp))

/-- The part of the Go `PanClient` and of its surroundings that the upload
calls use.

* `appToken` — the session credentials.
* `API_URL` — modelled from the spec: the constant is not among the source
  files.
* `PcClientInfoSuffixParam`, `DateOfGmtStr`, `XRequestId`, `SignatureOfHmac` —
  modelled from the spec: the package `apiutil` is not among the source files.
  The first three take no argument in Go and may answer differently at every
  call (client information with a random part, the current time, a fresh
  request id): they are functions of the history.  The signature is a function
  of its five arguments.
* `Fetch` — `p.client.Fetch`: the transport failure or the response body. -/
structure UploadClient where
  appToken : AppLoginToken
  API_URL : String
  PcClientInfoSuffixParam : UploadTrace → String
  DateOfGmtStr : UploadTrace → String
  XRequestId : UploadTrace → String
  SignatureOfHmac : String → String → String → String → String → String
  Fetch : UploadTrace → HttpRequest → Except String UploadBody

/-- The decimal digit of a number below ten. -/
def digitChar : Nat → Char
  | 0 => '0'
  | 1 => '1'
  | 2 => '2'
  | 3 => '3'
  | 4 => '4'
  | 5 => '5'
  | 6 => '6'
  | 7 => '7'
  | 8 => '8'
  | _ => '9'

/-- The decimal digits of `n`, most significant first, written in front of
`acc`; `fuel` bounds the number of digits. -/
def decimalDigits : Nat → Nat → List Char → List Char
  | 0, _, acc => acc
  | fuel + 1, n, acc =>
    if n < 10 then digitChar n :: acc
    else decimalDigits fuel (n / 10) (digitChar (n % 10) :: acc)

/-- The Go call `strconv.FormatInt(i, 10)`: the decimal digits of `i`, without
leading zeros, after a minus sign when `i` is negative. -/
def FormatInt (i : Int) : String :=
  if i < 0 then String.mk ('-' :: decimalDigits (i.natAbs + 1) i.natAbs [])
  else String.mk (decimalDigits (i.toNat + 1) i.toNat [])

/-- Spec side: the value of a decimal digit. -/
def digitValue (c : Char) : Nat := c.toNat - 48

/-- Spec side: the number a sequence of decimal digits stands for. -/
def decimalValue (cs : List Char) : Nat :=
  cs.foldl (fun acc c => 10 * acc + digitValue c) 0

/-- The Go call `strings.ReplaceAll(s, "\\", "/")`: every backslash (character
92) becomes a slash. -/
def backslashToSlash (s : String) : String :=
  String.mk (s.data.map (fun c => if c = Char.ofNat 92 then '/' else c))

/-- The request `AppCreateUploadFile` builds at the history `tr`. -/
def createRequest (p : UploadClient) (param : AppCreateUploadFileParam) (tr : UploadTrace) :
    HttpRequest :=
  let fullUrl := p.API_URL ++ "/createUploadFile.action?" ++ p.PcClientInfoSuffixParam tr
  let httpMethod := "POST"
  let dateOfGmt := p.DateOfGmtStr tr
  let requestId := p.XRequestId tr
  let appToken := p.appToken
  { httpMethod := httpMethod
    fullUrl := fullUrl
    formData := some
      [("parentFolderId", param.ParentFolderId),
       ("baseFileId", ""),
       ("fileName", param.FileName),
       ("size", FormatInt param.Size),
       ("md5", param.Md5),
       ("lastWrite", param.LastWrite),
       ("localPath", backslashToSlash param.LocalPath),
       ("opertype", "1"),
       ("flag", "1"),
       ("resumePolicy", "1"),
       ("isLog", "0"),
       ("fileExt", "")]
    headers :=
      [("Content-Type", "application/x-www-form-urlencoded"),
       ("Date", dateOfGmt),
       ("SessionKey", appToken.SessionKey),
       ("Signature",
         p.SignatureOfHmac appToken.SessionSecret appToken.SessionKey httpMethod fullUrl
           dateOfGmt),
       ("X-Request-ID", requestId)] }

/-- The Go method `AppCreateUploadFile`. -/
def AppCreateUploadFile (p : UploadClient) (param : AppCreateUploadFileParam)
    (tr : UploadTrace) : Except ApiError AppCreateUploadFileResult × UploadTrace :=
  let requestId := p.XRequestId tr
  let tr1 := tr ++ [createRequest p param tr]
  match p.Fetch tr (createRequest p param tr) with
  | Except.error err1 => (Except.error (NewApiErrorWithError err1), tr1)
  | Except.ok body =>
    match body.commonErr with
    | some apiErr => (Except.error apiErr, tr1)
    | none =>
      match body.createResult with
      | Except.error err => (Except.error (NewApiErrorWithError err), tr1)
      | Except.ok item => (Except.ok { item with XRequestId := requestId }, tr1)

/-- The request `AppUploadFileData` hands to the upload function at the history
`tr`. -/
def uploadDataRequest (p : UploadClient) (uploadUrl uploadFileId xRequestId : String)
    (fileRange : AppFileUploadRange) (tr : UploadTrace) : HttpRequest :=
  let fullUrl := uploadUrl ++ "?" ++ p.PcClientInfoSuffixParam tr
  let httpMethod := "PUT"
  let dateOfGmt := p.DateOfGmtStr tr
  let requestId := xRequestId
  let appToken := p.appToken
  { httpMethod := httpMethod
    fullUrl := fullUrl
    formData := none
    headers :=
      [("Content-Type", "application/octet-stream"),
       ("Date", dateOfGmt),
       ("SessionKey", appToken.SessionKey),
       ("Signature",
         p.SignatureOfHmac appToken.SessionSecret appToken.SessionKey httpMethod fullUrl
           dateOfGmt),
       ("X-Request-ID", requestId),
       ("ResumePolicy", "1"),
       ("Edrive-UploadFileId", uploadFileId),
       ("Edrive-UploadFileRange",
         "bytes=" ++ FormatInt fileRange.Offset ++ "-" ++ FormatInt fileRange.Len),
       ("Expect", "100-continue")] }

/-- The Go method `AppUploadFileData`; the result is the returned error, `none`
for `nil`. -/
def AppUploadFileData (p : UploadClient) (uploadUrl uploadFileId xRequestId : String)
    (fileRange : AppFileUploadRange) (uploadFunc : UploadFunc) (tr : UploadTrace) :
    Option ApiError × UploadTrace :=
  let req := uploadDataRequest p uploadUrl uploadFileId xRequestId fileRange tr
  let tr1 := tr ++ [req]
  match uploadFunc tr req.httpMethod req.fullUrl req.headers with
  | Except.error err1 => (some (NewApiErrorWithError err1), tr1)
  | Except.ok none => (none, tr1)
  | Except.ok (some (Except.error _)) => (none, tr1)
  | Except.ok (some (Except.ok er)) =>
    if er.Code ≠ "" then
      if er.Code = "UploadOffsetVerifyFailed" then
        (some (NewApiError ApiCode.ApiCodeUploadOffsetVerifyFailed
          "上传文件数据偏移值校验失败"), tr1)
      else (none, tr1)
    else (none, tr1)

/-- The request `AppUploadFileCommitOverwrite` builds at the history `tr`. -/
def commitRequest (p : UploadClient) (uploadCommitUrl uploadFileId xRequestId : String)
    (overwrite : Bool) (tr : UploadTrace) : HttpRequest :=
  let fullUrl := uploadCommitUrl ++ "?" ++ p.PcClientInfoSuffixParam tr
  let httpMethod := "POST"
  let dateOfGmt := p.DateOfGmtStr tr
  let requestId := xRequestId
  let appToken := p.appToken
  let opertype := if overwrite then "5" else "1"
  { httpMethod := httpMethod
    fullUrl := fullUrl
    formData := some
      [("uploadFileId", uploadFileId),
       ("opertype", opertype),
       ("ResumePolicy", "1"),
       ("isLog", "0")]
    headers :=
      [("Content-Type", "application/x-www-form-urlencoded"),
       ("Date", dateOfGmt),
       ("SessionKey", appToken.SessionKey),
       ("Signature",
         p.SignatureOfHmac appToken.SessionSecret appToken.SessionKey httpMethod fullUrl
           dateOfGmt),
       ("X-Request-ID", requestId)] }

/-- The Go method `AppUploadFileCommitOverwrite`. -/
def AppUploadFileCommitOverwrite (p : UploadClient)
    (uploadCommitUrl uploadFileId xRequestId : String) (overwrite : Bool) (tr : UploadTrace) :
    Except ApiError AppUploadFileCommitResult × UploadTrace :=
  let req := commitRequest p uploadCommitUrl uploadFileId xRequestId overwrite tr
  let tr1 := tr ++ [req]
  match p.Fetch tr req with
  | Except.error err1 => (Except.error (NewApiErrorWithError err1), tr1)
  | Except.ok respBody =>
    let decoded : Except ApiError AppUploadFileCommitResult × UploadTrace :=
      match respBody.commitResult with
      | Except.error err => (Except.error (NewApiErrorWithError err), tr1)
      | Except.ok item => (Except.ok item, tr1)
    match respBody.errResp with
    | Except.error _ => decoded
    | Except.ok er =>
      if er.Code ≠ "" ∧ er.Code = "UploadFileStatusVerifyFailed" then
        (Except.error
          (NewApiError ApiCode.ApiCodeUploadFileStatusVerifyFailed "上传文件校验失败"), tr1)
      else decoded

/-- The Go method `AppUploadFileCommit`. -/
def AppUploadFileCommit (p : UploadClient) (uploadCommitUrl uploadFileId xRequestId : String)
    (tr : UploadTrace) : Except ApiError AppUploadFileCommitResult × UploadTrace :=
  AppUploadFileCommitOverwrite p uploadCommitUrl uploadFileId xRequestId false tr

/-- The request `AppGetUploadFileStatus` builds at the history `tr`. -/
def statusRequest (p : UploadClient) (uploadFileId : String) (tr : UploadTrace) : HttpRequest :=
  let fullUrl := p.API_URL ++ "/getUploadFileStatus.action?uploadFileId=" ++ uploadFileId ++
    "&ResumePolicy=1&" ++ p.PcClientInfoSuffixParam tr
  let httpMethod := "GET"
  let dateOfGmt := p.DateOfGmtStr tr
  let requestId := p.XRequestId tr
  let appToken := p.appToken
  { httpMethod := httpMethod
    fullUrl := fullUrl
    formData := none
    headers :=
      [("Date", dateOfGmt),
       ("SessionKey", appToken.SessionKey),
       ("Signature",
         p.SignatureOfHmac appToken.SessionSecret appToken.SessionKey httpMethod fullUrl
           dateOfGmt),
       ("X-Request-ID", requestId)] }

/-- The Go method `AppGetUploadFileStatus`. -/
def AppGetUploadFileStatus (p : UploadClient) (uploadFileId : String) (tr : UploadTrace) :
    Except ApiError AppGetUploadFileStatusResult × UploadTrace :=
  let req := statusRequest p uploadFileId tr
  let tr1 := tr ++ [req]
  match p.Fetch tr req with
  | Except.error err1 => (Except.error (NewApiErrorWithError err1), tr1)
  | Except.ok respBody =>
    let decoded : Except ApiError AppGetUploadFileStatusResult × UploadTrace :=
      match respBody.statusResult with
      | Except.error err => (Except.error (NewApiErrorWithError err), tr1)
      | Except.ok item => (Except.ok item, tr1)
    match respBody.errResp with
    | Except.error _ => decoded
    | Except.ok er =>
      if er.Code ≠ "" ∧ er.Code = "UploadFileNotFound" then
        (Except.error (NewApiError ApiCode.ApiCodeUploadFileNotFound "服务器上传文件不存在"),
         tr1)
      else decoded

/-- The value of the header or form field `key`. -/
def fieldOf (fields : List (String × String)) (key : String) : Option String :=
  (fields.find? (fun kv => kv.1 == key)).map (fun kv => kv.2)

/-- A sample upload environment: each request id names the number of requests
sent before it was drawn, and the server answers every request with an empty
body that decodes to the zero value of every struct. -/
def sampleUploadClient : UploadClient :=
  { appToken := { SessionKey := "key", SessionSecret := "secret" }
    API_URL := "https://api.example"
    PcClientInfoSuffixParam := fun _ => "clientType=TELEPC"
    DateOfGmtStr := fun _ => "Thu, 01 Jan 2026 00:00:00 GMT"
    XRequestId := fun tr => String.mk ('r' :: List.replicate tr.length '+')
    SignatureOfHmac := fun _ _ _ _ _ => "sig"
    Fetch := fun _ _ => Except.ok {} }

/-- An upload function whose server refuses the offset. -/
def offsetRefused : UploadFunc :=
  fun _ _ _ _ => Except.ok (some (Except.ok { Code := "UploadOffsetVerifyFailed" }))

/-- An upload function whose server answers another error code. -/
def otherCodeAnswered : UploadFunc :=
  fun _ _ _ _ => Except.ok (some (Except.ok { Code := "InternalError" }))

/-- An upload function that fails in transport. -/
def uploadBroken : UploadFunc :=
  fun _ _ _ _ => Except.error "broken pipe"

/-! # Theorems -/

/-! ## `float64` page arithmetic is exact below `2 ^ 53` -/

theorem two_pow_log2Aux_le (fuel : Nat) : ∀ n : Nat, n ≠ 0 → 2 ^ log2Aux fuel n ≤ n := by
  induction fuel with
  | zero => intro n hn; simp [log2Aux]; omega
  | succ fuel ih =>
    intro n hn
    unfold log2Aux
    split_ifs with h
    · have h2 : n / 2 ≠ 0 := by omega
      have := ih (n / 2) h2
      rw [pow_succ]
      omega
    · simp; omega

theorem lt_two_pow_log2Aux (fuel : Nat) :
    ∀ n : Nat, n < 2 ^ (fuel + 1) → n < 2 ^ (log2Aux fuel n + 1) := by
  induction fuel with
  | zero => intro n hn; simpa [log2Aux] using hn
  | succ fuel ih =>
    intro n hn
    unfold log2Aux
    split_ifs with h
    · have h2 : n / 2 < 2 ^ (fuel + 1) := by
        rw [pow_succ] at hn; omega
      have := ih (n / 2) h2
      rw [pow_succ]
      omega
    · simp; omega

theorem two_pow_log2_le (n : Nat) (hn : n ≠ 0) : 2 ^ log2 n ≤ n :=
  two_pow_log2Aux_le n n hn

theorem lt_two_pow_log2 (n : Nat) : n < 2 ^ (log2 n + 1) :=
  lt_two_pow_log2Aux n n (Nat.lt_of_lt_of_le (Nat.lt_two_pow n) (Nat.pow_le_pow_right (by decide) (Nat.le_succ n)))

/-- The exponent found by `quotExp` is a lower bound: `2 ^ e ≤ a / b`. -/
theorem quotExp_le (a b : Nat) (ha : a ≠ 0) (hb : b ≠ 0) :
    (0 ≤ quotExp a b → b * 2 ^ (quotExp a b).toNat ≤ a) ∧
    (quotExp a b < 0 → b ≤ a * 2 ^ (-quotExp a b).toNat) := by
  have ha1 := two_pow_log2_le a ha
  have hb2 := lt_two_pow_log2 b
  have hb1 := two_pow_log2_le b hb
  have ha2 := lt_two_pow_log2 a
  unfold quotExp
  simp only
  by_cases hl : (0 : Int) ≤ (log2 a : Int) - (log2 b : Int)
  · rw [if_pos hl]
    have hle : log2 b ≤ log2 a := by omega
    have htn : ((log2 a : Int) - (log2 b : Int)).toNat = log2 a - log2 b := by omega
    by_cases hc : b * 2 ^ ((log2 a : Int) - (log2 b : Int)).toNat ≤ a
    · rw [if_pos hc]
      exact ⟨fun _ => hc, fun h => absurd hl (by omega)⟩
    · rw [if_neg hc]
      constructor
      · intro h0
        have hlt : log2 b < log2 a := by omega
        have htn2 : ((log2 a : Int) - (log2 b : Int) - 1).toNat = log2 a - log2 b - 1 := by omega
        rw [htn2]
        -- b * 2^(la - lb - 1) < 2^(lb+1) * 2^(la - lb - 1) = 2^la ≤ a
        have : b * 2 ^ (log2 a - log2 b - 1) < 2 ^ (log2 b + 1) * 2 ^ (log2 a - log2 b - 1) :=
          Nat.mul_lt_mul_of_pos_right hb2 (by positivity)
        rw [← pow_add] at this
        have he : log2 b + 1 + (log2 a - log2 b - 1) = log2 a := by omega
        rw [he] at this
        omega
      · intro hneg
        have he : log2 a = log2 b := by omega
        have htn2 : (-((log2 a : Int) - (log2 b : Int) - 1)).toNat = 1 := by omega
        rw [htn2, pow_one]
        rw [he] at ha1
        rw [pow_succ] at hb2
        omega
  · rw [if_neg hl]
    have hlt : log2 a < log2 b := by omega
    by_cases hc : b ≤ a * 2 ^ (-((log2 a : Int) - (log2 b : Int))).toNat
    · rw [if_pos hc]
      exact ⟨fun h => absurd h (by omega), fun _ => hc⟩
    · rw [if_neg hc]
      constructor
      · intro h; omega
      · intro _
        have htn2 : (-((log2 a : Int) - (log2 b : Int) - 1)).toNat = log2 b - log2 a + 1 := by omega
        rw [htn2]
        have : 2 ^ log2 a * 2 ^ (log2 b - log2 a + 1) ≤ a * 2 ^ (log2 b - log2 a + 1) :=
          Nat.mul_le_mul_right _ ha1
        rw [← pow_add] at this
        have he : log2 a + (log2 b - log2 a + 1) = log2 b + 1 := by omega
        rw [he] at this
        omega

/-- Rounding to nearest stays within one half of the fraction. -/
theorem roundHalfEven_bounds (n d : Nat) (hd : 0 < d) :
    2 * d * roundHalfEven n d ≤ 2 * n + d ∧ 2 * n ≤ 2 * d * roundHalfEven n d + d := by
  have hdm := Nat.div_add_mod n d
  have hm := Nat.mod_lt n hd
  generalize hq : n / d = q at hdm
  generalize hr : n % d = r at hdm hm
  have key : roundHalfEven n d = q ∨ roundHalfEven n d = q + 1 := by
    unfold roundHalfEven; rw [hq, hr]; split_ifs <;> simp
  unfold roundHalfEven
  rw [hq, hr]
  have e1 : 2 * d * q = 2 * (d * q) := by ring
  have e2 : 2 * d * (q + 1) = 2 * (d * q) + 2 * d := by ring
  split_ifs with h1 h2 h3
  · rw [e1]; omega
  · rw [e2]; omega
  · rw [e1]; omega
  · rw [e2]; omega



theorem float64OfNat_small (n : Nat) (h : n < 2 ^ 53) : float64OfNat n = n := by
  unfold float64OfNat; rw [if_pos h]

/-- Below `2 ^ 53` the ceiling of the `float64` quotient is the exact ceiling. -/
theorem float64Div_ceil (a b : Nat) (ha : a < 2 ^ 53) (hb0 : 0 < b) (hb : b < 2 ^ 53) :
    ((float64Div a b).1 + (float64Div a b).2 - 1) / (float64Div a b).2 = (a + b - 1) / b := by
  by_cases ha0 : a = 0
  · subst ha0
    simp only [float64Div, if_true, Nat.zero_add]
    have : (b - 1) / b = 0 := Nat.div_eq_of_lt (by omega)
    simp [this]
  have hq := quotExp_le a b ha0 (by omega)
  unfold float64Div
  rw [if_neg ha0]
  simp only
  generalize quotExp a b = e at hq ⊢
  -- the exponent is at most 52
  have he : e ≤ 52 := by
    by_contra hcon
    have h0 : 0 ≤ e := by omega
    have h1 := hq.1 h0
    have h53 : 2 ^ 53 ≤ 2 ^ e.toNat := Nat.pow_le_pow_right (by decide) (by omega)
    have : 1 * 2 ^ e.toNat ≤ b * 2 ^ e.toNat := Nat.mul_le_mul_right _ hb0
    omega
  rw [if_pos (by omega : (0 : Int) ≤ 52 - e)]
  simp only
  generalize hs : (52 - e).toNat = s
  -- the rounding unit is below the distance between two multiples of `b`
  have hbs : b < 2 ^ (s + 1) := by
    by_cases h0 : 0 ≤ e
    · have h1 := hq.1 h0
      have hse : s + 1 + e.toNat = 53 := by omega
      by_contra hcon
      have : 2 ^ (s + 1) * 2 ^ e.toNat ≤ b * 2 ^ e.toNat := Nat.mul_le_mul_right _ (by omega)
      rw [← pow_add, hse] at this
      omega
    · have : 2 ^ 53 ≤ 2 ^ (s + 1) := Nat.pow_le_pow_right (by decide) (by omega)
      omega
  have hrb := roundHalfEven_bounds (a * 2 ^ s) b hb0
  generalize roundHalfEven (a * 2 ^ s) b = m at hrb
  have hpos : 0 < 2 ^ s := by positivity
  generalize hS : 2 ^ s = S at hrb hpos
  have hbS : b < 2 * S := by rw [pow_succ, hS] at hbs; omega
  -- c = ceil(a / b)
  obtain ⟨c, hc⟩ : ∃ c, (a + b - 1) / b = c := ⟨_, rfl⟩
  rw [hc]
  have hc1 : c * b ≤ a + b - 1 := by
    rw [← hc]; exact Nat.div_mul_le_self _ _
  have hc2 : a + b - 1 < (c + 1) * b := by
    have h1 := Nat.div_add_mod (a + b - 1) b
    have h2 := Nat.mod_lt (a + b - 1) hb0
    rw [hc] at h1
    have h3 : (c + 1) * b = b * c + b := by ring
    omega
  have hcpos : 0 < c := by
    by_contra h0
    have : c = 0 := by omega
    subst this
    simp at hc2
    omega
  -- m ≤ c * S and (c - 1) * S < m
  have hup : m ≤ c * S := by
    by_contra hcon
    have h1 : c * S + 1 ≤ m := by omega
    have h2 : 2 * b * (c * S + 1) ≤ 2 * b * m := Nat.mul_le_mul_left _ h1
    have h3 : a * S ≤ (c * b) * S := Nat.mul_le_mul_right _ (by
      have : (c + 1) * b = c * b + b := by ring
      omega)
    have h4 : 2 * b * (c * S + 1) = 2 * (c * b * S) + 2 * b := by ring
    omega
  have hlo : (c - 1) * S < m := by
    by_contra hcon
    have h1 : m ≤ (c - 1) * S := by omega
    have h2 : 2 * b * m ≤ 2 * b * ((c - 1) * S) := Nat.mul_le_mul_left _ h1
    have h3 : ((c - 1) * b + 1) * S ≤ a * S := Nat.mul_le_mul_right _ (by
      have : c * b = (c - 1) * b + b := by
        conv_lhs => rw [show c = (c - 1) + 1 by omega]
        ring
      omega)
    have h4 : ((c - 1) * b + 1) * S = (c - 1) * b * S + S := by ring
    have h5 : 2 * b * ((c - 1) * S) = 2 * ((c - 1) * b * S) := by ring
    omega
  apply Nat.div_eq_of_lt_le
  · have : c * S = (c - 1) * S + S := by
      conv_lhs => rw [show c = (c - 1) + 1 by omega]
      ring
    omega
  · have : (c + 1) * S = c * S + S := by ring
    omega

/-! ## The listing aggregator -/

theorem listRequests_append (a b : Trace) :
    listRequests (a ++ b) = listRequests a ++ listRequests b := by
  simp [listRequests, List.filterMap_append]

theorem AppFileList_trace (p : PanClient) (param : AppFileListParam) (tr : Trace) :
    (AppFileList p param tr).2 = tr ++ [Event.listFiles (sentListParam param)] := by
  unfold AppFileList
  simp only
  split
  · rfl
  · split
    · rfl
    · split_ifs
      · rfl
      · split <;> rfl

theorem AppFileList_of_succeeds {p : PanClient} {param : AppFileListParam}
    {r : appFileListResultInternal} (h : PageSucceeds p param r) (tr : Trace) :
    AppFileList p param tr =
      (Except.ok { LastRev := r.LastRev, Count := r.Count, FileList := specPageItems r },
       tr ++ [Event.listFiles (sentListParam param)]) := by
  obtain ⟨body, h1, h2, h3, h4⟩ := h tr
  unfold AppFileList
  simp only [h1, h2, h3, h4, if_false, specPageItems]

theorem AppFileList_of_fails {p : PanClient} {param : AppFileListParam}
    (h : PageFails p param) (tr : Trace) :
    ∃ err, AppFileList p param tr =
      (Except.error err, tr ++ [Event.listFiles (sentListParam param)]) := by
  obtain ⟨err, he⟩ := h tr
  refine ⟨err, ?_⟩
  rw [← he, ← AppFileList_trace p param tr]

theorem sentListParam_idem (param : AppFileListParam) :
    sentListParam (sentListParam param) = sentListParam param := by
  unfold sentListParam
  split_ifs with h1 h2 <;> simp_all

theorem sentListParam_page (param : AppFileListParam) (k : Nat) :
    sentListParam { sentListParam param with PageNum := k } =
      { sentListParam param with PageNum := k } := by
  unfold sentListParam
  split_ifs with h1 h2 <;> simp_all

theorem internalParamOf_page (param : AppFileListParam) (k : Nat) :
    sentListParam { internalParamOf param with PageNum := k } =
      { internalParamOf param with PageNum := k } :=
  sentListParam_page _ k

theorem internalParamOf_page_one (param : AppFileListParam) :
    ({ internalParamOf param with PageNum := 1 } : AppFileListParam) = internalParamOf param := by
  unfold internalParamOf sentListParam
  split_ifs <;> rfl

theorem internalParamOf_pageSize (param : AppFileListParam) (h : 0 < param.PageSize) :
    (internalParamOf param).PageSize = param.PageSize := by
  unfold internalParamOf sentListParam
  split_ifs <;> simp <;> omega

/-- While every page succeeds the loop appends the pages in increasing order. -/
theorem morePages_all_ok (p : PanClient) (ip : AppFileListParam)
    (pages : Nat → appFileListResultInternal) :
    ∀ (n page : Nat) (acc : List AppFileEntity) (tr : Trace),
      (∀ k, page ≤ k → k < page + n → PageSucceeds p { ip with PageNum := k } (pages k)) →
      morePages p ip n page acc tr =
        (acc ++ (List.range' page n).flatMap (fun k => specPageItems (pages k)),
         tr ++ (List.range' page n).map
           (fun k => Event.listFiles (sentListParam { ip with PageNum := k }))) := by
  intro n
  induction n with
  | zero => intro page acc tr _; simp [morePages]
  | succ n ih =>
    intro page acc tr h
    unfold morePages
    rw [AppFileList_of_succeeds (h page (le_refl _) (by omega)) tr]
    simp only
    rw [ih (page + 1) _ _ (fun k hk1 hk2 => h k (by omega) (by omega))]
    simp [List.range'_succ, List.flatMap_cons]

/-- The first failing page ends the loop: what was collected stays, and the
failing request is the last one. -/
theorem morePages_fail (p : PanClient) (ip : AppFileListParam)
    (pages : Nat → appFileListResultInternal) :
    ∀ (m page n : Nat) (acc : List AppFileEntity) (tr : Trace),
      (∀ k, page ≤ k → k < page + m → PageSucceeds p { ip with PageNum := k } (pages k)) →
      PageFails p { ip with PageNum := page + m } → m < n →
      morePages p ip n page acc tr =
        (acc ++ (List.range' page m).flatMap (fun k => specPageItems (pages k)),
         tr ++ (List.range' page (m + 1)).map
           (fun k => Event.listFiles (sentListParam { ip with PageNum := k }))) := by
  intro m
  induction m with
  | zero =>
    intro page n acc tr _ hf hn
    obtain ⟨n, rfl⟩ : ∃ n', n = n' + 1 := ⟨n - 1, by omega⟩
    obtain ⟨err, he⟩ := AppFileList_of_fails hf tr
    unfold morePages
    simp only [Nat.add_zero] at he
    rw [he]
    simp [List.range'_succ]
  | succ m ih =>
    intro page n acc tr h hf hn
    obtain ⟨n, rfl⟩ : ∃ n', n = n' + 1 := ⟨n - 1, by omega⟩
    unfold morePages
    rw [AppFileList_of_succeeds (h page (le_refl _) (by omega)) tr]
    simp only
    rw [ih (page + 1) n _ _ (fun k hk1 hk2 => h k (by omega) (by omega))
      (by rw [show page + 1 + m = page + (m + 1) by omega]; exact hf) (by omega)]
    simp [List.range'_succ, List.flatMap_cons]

theorem AppGetBasicFileInfo_trace (p : PanClient) (param : AppGetFileInfoParam) (tr : Trace) :
    ∃ evs, (AppGetBasicFileInfo p param tr).2 = tr ++ evs ∧ listRequests evs = [] := by
  unfold AppGetBasicFileInfo
  by_cases h : 0 < param.FamilyId ∧ param.FileId = ""
  · rw [if_pos h]; exact ⟨[], by simp, rfl⟩
  · rw [if_neg h]
    refine ⟨[Event.getFolderInfo param], ?_, rfl⟩
    simp only
    repeat' split
    all_goals rfl

theorem AppFilePathByIdLoop_trace (p : PanClient) (familyId : Int) :
    ∀ (fuel : Nat) (fileId fullPath : String) (tr : Trace),
      ∃ evs, (AppFilePathByIdLoop p familyId fuel fileId fullPath tr).2 = tr ++ evs ∧
        listRequests evs = [] := by
  intro fuel
  induction fuel with
  | zero => intro _ _ tr; exact ⟨[], by simp [AppFilePathByIdLoop], rfl⟩
  | succ fuel ih =>
    intro fileId fullPath tr
    obtain ⟨evs, h1, h2⟩ := AppGetBasicFileInfo_trace p { FamilyId := familyId, FileId := fileId } tr
    unfold AppFilePathByIdLoop
    rcases hr : AppGetBasicFileInfo p { FamilyId := familyId, FileId := fileId } tr with ⟨res, tr1⟩
    rw [hr] at h1
    simp only at h1
    subst h1
    cases res with
    | error err => exact ⟨evs, rfl, h2⟩
    | ok fi =>
      simp only
      by_cases hp : fi.Path ≠ ""
      · rw [if_pos hp]; exact ⟨evs, rfl, h2⟩
      · rw [if_neg hp]
        by_cases hd : (startsWithDash fi.FileId || startsWithDash fi.ParentId) = true
        · rw [if_pos hd]; exact ⟨evs, rfl, h2⟩
        · rw [if_neg hd]
          obtain ⟨evs2, h3, h4⟩ := ih fi.ParentId
            (if fullPath = "" then fi.FileName else fi.FileName ++ "/" ++ fullPath) (tr ++ evs)
          exact ⟨evs ++ evs2, by rw [h3, List.append_assoc],
            by rw [listRequests_append, h2, h4]; rfl⟩

theorem AppFilePathById_trace (fuel : Nat) (p : PanClient) (familyId : Int) (fileId : String)
    (tr : Trace) :
    ∃ evs, (AppFilePathById fuel p familyId fileId tr).2 = tr ++ evs ∧ listRequests evs = [] :=
  AppFilePathByIdLoop_trace p familyId fuel fileId "" tr

theorem map_withoutDerived_parent (l : List AppFileEntity) (s : String) :
    (l.map (fun fi => { fi with ParentId := s })).map withoutDerived = l.map withoutDerived := by
  simp [List.map_map, Function.comp_def, withoutDerived]

theorem map_withoutDerived_path (l : List AppFileEntity) (s : String) (f : AppFileEntity → String) :
    (l.map (fun fi => { fi with Path := f fi, ParentId := s })).map withoutDerived =
      l.map withoutDerived := by
  simp [List.map_map, Function.comp_def, withoutDerived]

/-- Once the first page and the page loop are known, `AppGetAllFileList` returns
the collected entries, rewriting `ParentId` and `Path` only, and issues no
further page request. -/
theorem AppGetAllFileList_finish (fuel : Nat) (p : PanClient) (param : AppFileListParam)
    (tr tr1 tr2 : Trace) (fileResult : AppFileListResult) (items : List AppFileEntity)
    (hfirst : AppFileList p (internalParamOf param) tr = (Except.ok fileResult, tr1))
    (hmore : (if fileResult.Count > intOfUint (internalParamOf param).PageSize then
        morePages p (internalParamOf param)
          (pageCountOf fileResult.Count (internalParamOf param).PageSize - 1).toNat 2
          fileResult.FileList tr1
      else (fileResult.FileList, tr1)) = (items, tr2))
    (hfin : PathLookupEnds fuel p param) :
    ∃ r evs, AppGetAllFileList fuel p param tr = (some (Except.ok r), tr2 ++ evs) ∧
      listRequests evs = [] ∧
      r.FileList.map withoutDerived = items.map withoutDerived ∧
      r.FileList.length = items.length ∧
      (∀ fi ∈ r.FileList, fi.ParentId = param.FileId) ∧
      r.Count = fileResult.Count ∧ r.LastRev = fileResult.LastRev := by
  unfold AppGetAllFileList
  simp only [hfirst, hmore]
  by_cases hc : param.ConstructPath = true
  · rw [if_pos hc]
    obtain ⟨evs, h1, h2⟩ := AppFilePathById_trace fuel p param.FamilyId param.FileId tr2
    have h3 := hfin hc tr2
    rcases hr : AppFilePathById fuel p param.FamilyId param.FileId tr2 with ⟨res, tr3⟩
    rw [hr] at h1 h3
    simp only at h1 h3
    subst h1
    match res, h3 with
    | some (Except.ok parentFullPath), _ =>
      refine ⟨_, evs, rfl, h2, ?_, by simp, ?_, rfl, rfl⟩
      · simp [List.map_map, Function.comp_def, withoutDerived]
      · intro fi hfi
        simp only [List.mem_map] at hfi
        obtain ⟨a, _, rfl⟩ := hfi
        rfl
    | some (Except.error _), _ =>
      refine ⟨_, evs, rfl, h2, map_withoutDerived_parent _ _, by simp, ?_, rfl, rfl⟩
      intro fi hfi
      simp only [List.mem_map] at hfi
      obtain ⟨a, _, rfl⟩ := hfi
      rfl
  · rw [if_neg hc]
    refine ⟨{ LastRev := fileResult.LastRev, Count := fileResult.Count,
              FileList := items.map (fun fi => { fi with ParentId := param.FileId }) }, [],
      by rw [List.append_nil], rfl, map_withoutDerived_parent _ _, by simp, ?_, rfl, rfl⟩
    intro fi hfi
    simp only [List.mem_map] at hfi
    obtain ⟨a, _, rfl⟩ := hfi
    rfl

theorem listRequests_map_listFiles {α : Type} (l : List α) (f : α → AppFileListParam) :
    listRequests (l.map (fun k => Event.listFiles (f k))) = l.map f := by
  induction l with
  | nil => rfl
  | cons a l ih =>
    simp only [List.map_cons]
    rw [← ih]
    rfl

theorem morePages_ite (p : PanClient) (ip : AppFileListParam) (c : Prop) [Decidable c]
    (n : Nat) (acc : List AppFileEntity) (tr : Trace) :
    (if c then morePages p ip n 2 acc tr else (acc, tr)) =
      morePages p ip (if c then n else 0) 2 acc tr := by
  split_ifs <;> rfl

/-- The aggregator on a transport whose page requests all succeed: pages
`1 .. 1 + morePagesCount` are requested, in order, and concatenated. -/
theorem AppGetAllFileList_all_ok (fuel : Nat) (p : PanClient) (param : AppFileListParam)
    (tr : Trace) (pages : Nat → appFileListResultInternal)
    (hok : ∀ k, PageSucceeds p { internalParamOf param with PageNum := k } (pages k))
    (hfin : PathLookupEnds fuel p param) :
    ∃ r evs, AppGetAllFileList fuel p param tr = (some (Except.ok r), tr ++ evs) ∧
      r.FileList.map withoutDerived =
        (specPageItems (pages 1) ++
          (List.range' 2 (morePagesCount (pages 1).Count (internalParamOf param).PageSize)).flatMap
            (fun k => specPageItems (pages k))).map withoutDerived ∧
      listRequests evs =
        (List.range' 1 (morePagesCount (pages 1).Count (internalParamOf param).PageSize + 1)).map
          (fun k => { internalParamOf param with PageNum := k }) := by
  have h1 := hok 1
  rw [internalParamOf_page_one] at h1
  have hfirst := AppFileList_of_succeeds h1 tr
  have hloop := morePages_all_ok p (internalParamOf param) pages
    (morePagesCount (pages 1).Count (internalParamOf param).PageSize) 2
    (specPageItems (pages 1))
    (tr ++ [Event.listFiles (sentListParam (internalParamOf param))])
    (fun k _ _ => hok k)
  obtain ⟨r, evs, hr, hev, hitems, -, -, -, -⟩ :=
    AppGetAllFileList_finish fuel p param tr _ _ _ _ hfirst
      ((morePages_ite _ _ _ _ _ _).trans hloop) hfin
  refine ⟨r, [Event.listFiles (sentListParam (internalParamOf param))] ++
      (List.range' 2 (morePagesCount (pages 1).Count (internalParamOf param).PageSize)).map
        (fun k => Event.listFiles (sentListParam { internalParamOf param with PageNum := k })) ++
      evs, ?_, hitems, ?_⟩
  · rw [hr]; simp only [List.append_assoc]
  · have e1 : sentListParam (internalParamOf param) = internalParamOf param :=
      sentListParam_idem _
    rw [listRequests_append, listRequests_append, hev, List.append_nil,
      listRequests_map_listFiles, List.range'_succ, List.map_cons, internalParamOf_page_one, e1]
    simp only [internalParamOf_page]
    rfl

theorem ceil_div_eq (a b : Nat) (hb : 0 < b) :
    ⌈(a : ℚ) / (b : ℚ)⌉ = (((a + b - 1) / b : Nat) : Int) := by
  have h1 := Nat.div_add_mod (a + b - 1) b
  have h2 := Nat.mod_lt (a + b - 1) hb
  generalize (a + b - 1) / b = c at h1 ⊢
  generalize (a + b - 1) % b = r at h1 h2
  have hbq : (0 : ℚ) < (b : ℚ) := by exact_mod_cast hb
  rw [Int.ceil_eq_iff]
  constructor
  · rw [lt_div_iff₀ hbq]
    have : b * c < a + b := by omega
    have h3 : ((b * c : Nat) : ℚ) < ((a + b : Nat) : ℚ) := by exact_mod_cast this
    push_cast at h3 ⊢
    linarith
  · rw [div_le_iff₀ hbq]
    have : a ≤ b * c := by
      rcases Nat.eq_zero_or_pos a with h | h
      · omega
      · omega
    have h3 : ((a : Nat) : ℚ) ≤ ((b * c : Nat) : ℚ) := by exact_mod_cast this
    push_cast at h3 ⊢
    linarith

theorem intOfUint_small (u : Nat) (h : u < 2 ^ 63) : intOfUint u = (u : Int) := by
  unfold intOfUint
  have : u % 2 ^ 64 = u := Nat.mod_eq_of_lt (by omega)
  rw [this, if_pos h]

theorem pageCountOf_exact (a P : Nat) (ha : a < 2 ^ 53) (hP0 : 0 < P) (hP : P < 2 ^ 53) :
    pageCountOf (a : Int) P = (((a + P - 1) / P : Nat) : Int) := by
  unfold pageCountOf
  simp only [Int.natAbs_ofNat, float64OfNat_small a ha, float64OfNat_small P hP]
  rw [if_neg (by omega), float64Div_ceil a P ha hP0 hP]
  have : (a + P - 1) / P ≤ a + P - 1 := Nat.div_le_self _ _
  rw [if_pos (by omega)]

/-- Below `2 ^ 53` the page loop runs for pages `2 .. ⌈count / pageSize⌉`. -/
theorem morePagesCount_exact (C : Int) (P : Nat) (hP0 : 0 < P) (hP : P < 2 ^ 53)
    (hC : C < 2 ^ 53) :
    morePagesCount C P = ⌈(C : ℚ) / (P : ℚ)⌉.toNat - 1 := by
  unfold morePagesCount
  rw [intOfUint_small P (by omega)]
  have hPq : (0 : ℚ) < (P : ℚ) := by exact_mod_cast hP0
  by_cases h : (P : Int) < C
  · rw [if_pos h]
    obtain ⟨a, rfl⟩ : ∃ a : Nat, C = (a : Int) := ⟨C.toNat, by omega⟩
    rw [pageCountOf_exact a P (by omega) hP0 hP]
    have := ceil_div_eq a P hP0
    rw [Int.cast_natCast, this]
    omega
  · rw [if_neg h]
    have h1 : (C : ℚ) / (P : ℚ) ≤ 1 := by
      rw [div_le_iff₀ hPq, one_mul]
      have : C ≤ (P : Int) := by omega
      exact_mod_cast this
    have h2 : ⌈(C : ℚ) / (P : ℚ)⌉ ≤ 1 := by
      rw [Int.ceil_le]; exact_mod_cast h1
    omega

/-! ## Claims on the listing aggregator -/

/-- C1 (amended): for every folder, every page size `P` with `0 < P < 2 ^ 53`
and every transport on which every page request succeeds and page 1 reports a
total count `C < 2 ^ 53`, `AppGetAllFileList` returns, and its item list is the
items of page 1 followed by the items of pages `2 .. ⌈C / P⌉` in increasing
page number, each page contributing its folder sequence (every entry tagged
`IsFolder = true`) followed by its file sequence (every entry tagged
`IsFolder = false`), in the order received; only the `ParentId` and `Path`
fields of the entries are rewritten. -/
theorem AppGetAllFileList_concatenates_pages (fuel : Nat) (p : PanClient)
    (param : AppFileListParam) (tr : Trace) (pages : Nat → appFileListResultInternal)
    (hP : 0 < param.PageSize) (hP53 : param.PageSize < 2 ^ 53)
    (hC53 : (pages 1).Count < 2 ^ 53)
    (hok : ∀ k, PageSucceeds p { internalParamOf param with PageNum := k } (pages k))
    (hfin : PathLookupEnds fuel p param) :
    ∃ r tr', AppGetAllFileList fuel p param tr = (some (Except.ok r), tr') ∧
      r.FileList.map withoutDerived =
        (specPageItems (pages 1) ++
          (List.range' 2 (⌈((pages 1).Count : ℚ) / (param.PageSize : ℚ)⌉.toNat - 1)).flatMap
            (fun k => specPageItems (pages k))).map withoutDerived := by
  obtain ⟨r, evs, h1, h2, -⟩ := AppGetAllFileList_all_ok fuel p param tr pages hok hfin
  rw [internalParamOf_pageSize param hP, morePagesCount_exact _ _ hP hP53 hC53] at h2
  exact ⟨r, _, h1, h2⟩

theorem twoPagesClient_succeeds (k : Nat) :
    PageSucceeds twoPagesClient { internalParamOf twoPerPage with PageNum := k } (twoPages k) :=
  fun _ => ⟨{ decoded := Except.ok _ }, rfl, rfl, by simp; decide, rfl⟩

theorem pathLookupEnds_of_off (fuel : Nat) (p : PanClient) (param : AppFileListParam)
    (h : param.ConstructPath = false) : PathLookupEnds fuel p param :=
  fun h1 => absurd h1 (by rw [h]; decide)

/-- Witness of C1 (amended): three entries served two per page. -/
theorem AppGetAllFileList_concatenates_pages_witness :
    (0 < twoPerPage.PageSize ∧ twoPerPage.PageSize < 2 ^ 53 ∧ (twoPages 1).Count < 2 ^ 53) ∧
    ∃ r tr', AppGetAllFileList 0 twoPagesClient twoPerPage [] = (some (Except.ok r), tr') ∧
      r.FileList.map withoutDerived =
        (specPageItems (twoPages 1) ++
          (List.range' 2 (⌈((twoPages 1).Count : ℚ) / (twoPerPage.PageSize : ℚ)⌉.toNat - 1)).flatMap
            (fun k => specPageItems (twoPages k))).map withoutDerived :=
  ⟨by decide,
   AppGetAllFileList_concatenates_pages 0 twoPagesClient twoPerPage [] twoPages
    (by decide) (by decide) (by decide) twoPagesClient_succeeds
    (pathLookupEnds_of_off _ _ _ rfl)⟩

theorem hugeClient_succeeds (k : Nat) :
    PageSucceeds hugeClient { internalParamOf onePerPage with PageNum := k } (hugePages k) :=
  fun _ => ⟨{ decoded := Except.ok _ }, rfl, rfl, by simp; decide, rfl⟩

/-- C1 fails as stated: with one entry per page and a reported total of
`2 ^ 53 + 1`, every page request succeeding, the `float64` page count is
`2 ^ 53`, so the entry of page `2 ^ 53 + 1 = ⌈C / P⌉` is not in the returned
list. -/
theorem AppGetAllFileList_misses_last_page :
    (0 < onePerPage.PageSize ∧
      ∀ k, PageSucceeds hugeClient { internalParamOf onePerPage with PageNum := k }
        (hugePages k)) ∧
    ∃ r tr', AppGetAllFileList 0 hugeClient onePerPage [] = (some (Except.ok r), tr') ∧
      r.FileList.map withoutDerived ≠
        (specPageItems (hugePages 1) ++
          (List.range' 2
            (⌈((hugePages 1).Count : ℚ) / (onePerPage.PageSize : ℚ)⌉.toNat - 1)).flatMap
            (fun k => specPageItems (hugePages k))).map withoutDerived := by
  refine ⟨⟨by decide, hugeClient_succeeds⟩, ?_⟩
  obtain ⟨r, evs, h1, h2, -⟩ := AppGetAllFileList_all_ok 0 hugeClient onePerPage []
    hugePages hugeClient_succeeds (pathLookupEnds_of_off _ _ _ rfl)
  refine ⟨r, _, h1, ?_⟩
  have hn : morePagesCount (hugePages 1).Count (internalParamOf onePerPage).PageSize
      = 9007199254740991 := by decide
  rw [hn] at h2
  have hempty : (List.range' 2 9007199254740991).flatMap (fun k => specPageItems (hugePages k))
      = [] := by
    rw [List.flatMap_eq_nil_iff]
    intro k hk
    rw [List.mem_range'_1] at hk
    have hk' : k ≠ 9007199254740993 := by omega
    simp [specPageItems, hugePages, hk']
  have h1e : specPageItems (hugePages 1) = [] := by decide
  rw [hempty, h1e] at h2
  simp only [List.append_nil, List.map_nil] at h2
  rw [h2]
  have hceil : ⌈((hugePages 1).Count : ℚ) / (onePerPage.PageSize : ℚ)⌉.toNat - 1
      = 9007199254740992 := by
    have e1 : (hugePages 1).Count = 9007199254740993 := rfl
    have e2 : onePerPage.PageSize = 1 := rfl
    rw [e1, e2]
    norm_num
    rfl
  rw [hceil, h1e]
  intro hcon
  have hmem : ({ FileId := "x", FileName := "x" } : AppFileEntity) ∈
      (List.range' 2 9007199254740992).flatMap (fun k => specPageItems (hugePages k)) := by
    rw [List.mem_flatMap]
    refine ⟨9007199254740993, ?_, ?_⟩
    · rw [List.mem_range'_1]; omega
    · simp [specPageItems, hugePages]
  have hnil := List.map_eq_nil_iff.mp hcon.symm
  rw [List.nil_append] at hnil
  rw [hnil] at hmem
  exact List.not_mem_nil _ hmem

theorem emptyClient_succeeds (k : Nat) :
    PageSucceeds emptyClient { internalParamOf NewAppFileListParam with PageNum := k }
      { Count := 0 } :=
  fun _ => ⟨{ decoded := Except.ok _ }, rfl, rfl, by simp; decide, rfl⟩

/-- C2 fails as stated: an empty folder (`N = 0`, a transport that never fails
and reports total count 0) costs one page request, while `⌈0 / 200⌉ = 0`. -/
theorem AppGetAllFileList_empty_folder_one_request :
    (∀ k, PageSucceeds emptyClient { internalParamOf NewAppFileListParam with PageNum := k }
        { Count := 0 }) ∧
    (listRequests (AppGetAllFileList 0 emptyClient NewAppFileListParam []).2).length = 1 ∧
    ⌈((0 : Int) : ℚ) / ((NewAppFileListParam.PageSize : Nat) : ℚ)⌉.toNat = 0 :=
  ⟨emptyClient_succeeds, by decide, by simp⟩

/-- C2 (amended): for every folder with `N` children and every page size `P`,
both below `2 ^ 53` and `P > 0`, against a transport that never fails and
reports total count `N`, `AppGetAllFileList` returns and issues exactly
`max 1 ⌈N / P⌉` page requests: the first page is always requested. -/
theorem AppGetAllFileList_request_count (fuel : Nat) (p : PanClient)
    (param : AppFileListParam) (tr : Trace) (pages : Nat → appFileListResultInternal)
    (N : Nat) (hP : 0 < param.PageSize) (hP53 : param.PageSize < 2 ^ 53) (hN53 : N < 2 ^ 53)
    (hcount : (pages 1).Count = (N : Int))
    (hok : ∀ k, PageSucceeds p { internalParamOf param with PageNum := k } (pages k))
    (hfin : PathLookupEnds fuel p param) :
    ∃ r evs, AppGetAllFileList fuel p param tr = (some (Except.ok r), tr ++ evs) ∧
      (listRequests evs).length = max 1 ⌈(N : ℚ) / (param.PageSize : ℚ)⌉.toNat := by
  obtain ⟨r, evs, h1, -, h3⟩ := AppGetAllFileList_all_ok fuel p param tr pages hok hfin
  refine ⟨r, evs, h1, ?_⟩
  rw [h3, List.length_map, List.length_range', internalParamOf_pageSize param hP,
    morePagesCount_exact _ _ hP hP53 (by rw [hcount]; exact_mod_cast hN53), hcount,
    Int.cast_natCast]
  omega

/-- Witness of C2 (amended): three entries served two per page. -/
theorem AppGetAllFileList_request_count_witness :
    (0 < twoPerPage.PageSize ∧ twoPerPage.PageSize < 2 ^ 53 ∧ 3 < 2 ^ 53 ∧
      (twoPages 1).Count = ((3 : Nat) : Int)) ∧
    ∃ r evs, AppGetAllFileList 0 twoPagesClient twoPerPage [] = (some (Except.ok r), [] ++ evs) ∧
      (listRequests evs).length = max 1 ⌈((3 : Nat) : ℚ) / (twoPerPage.PageSize : ℚ)⌉.toNat :=
  ⟨by decide,
   AppGetAllFileList_request_count 0 twoPagesClient twoPerPage [] twoPages 3
    (by decide) (by decide) (by decide) (by decide) twoPagesClient_succeeds
    (pathLookupEnds_of_off _ _ _ rfl)⟩

/-- C10: if pages `1 .. k - 1` succeed and the request for page `k ≥ 2` fails
(page `k` being within the bounds of the page loop, `Count > int(PageSize)` and
`k ≤ pageCount`), `AppGetAllFileList` returns a result and no error, the item
list is exactly the items of pages `1 .. k - 1` in order, and the page requests
issued are those for pages `1 .. k`: none after `k`. -/
theorem AppGetAllFileList_keeps_pages_before_failure (fuel : Nat) (p : PanClient)
    (param : AppFileListParam) (tr : Trace) (pages : Nat → appFileListResultInternal)
    (k : Nat) (hk : 2 ≤ k)
    (hpre : ∀ j, 1 ≤ j → j < k →
      PageSucceeds p { internalParamOf param with PageNum := j } (pages j))
    (hfail : PageFails p { internalParamOf param with PageNum := k })
    (hmore : intOfUint (internalParamOf param).PageSize < (pages 1).Count)
    (hle : (k : Int) ≤ pageCountOf (pages 1).Count (internalParamOf param).PageSize)
    (hfin : PathLookupEnds fuel p param) :
    ∃ r evs, AppGetAllFileList fuel p param tr = (some (Except.ok r), tr ++ evs) ∧
      r.FileList.map withoutDerived =
        ((List.range' 1 (k - 1)).flatMap (fun j => specPageItems (pages j))).map
          withoutDerived ∧
      listRequests evs =
        (List.range' 1 k).map (fun j => { internalParamOf param with PageNum := j }) := by
  obtain ⟨m, rfl⟩ : ∃ m, k = m + 2 := ⟨k - 2, by omega⟩
  have h1 := hpre 1 (le_refl _) (by omega)
  rw [internalParamOf_page_one] at h1
  have hfirst := AppFileList_of_succeeds h1 tr
  have hloop := morePages_fail p (internalParamOf param) pages m 2
    (pageCountOf (pages 1).Count (internalParamOf param).PageSize - 1).toNat
    (specPageItems (pages 1))
    (tr ++ [Event.listFiles (sentListParam (internalParamOf param))])
    (fun j hj1 hj2 => hpre j (by omega) (by omega))
    (by rw [show 2 + m = m + 2 by omega]; exact hfail) (by omega)
  obtain ⟨r, evs, hr, hev, hitems, -, -, -, -⟩ :=
    AppGetAllFileList_finish fuel p param tr _ _ _ _ hfirst
      ((if_pos hmore).trans hloop) hfin
  have e1 : sentListParam (internalParamOf param) = internalParamOf param :=
    sentListParam_idem _
  refine ⟨r, [Event.listFiles (sentListParam (internalParamOf param))] ++
      (List.range' 2 (m + 1)).map
        (fun k => Event.listFiles (sentListParam { internalParamOf param with PageNum := k })) ++
      evs, ?_, ?_, ?_⟩
  · rw [hr]; simp only [List.append_assoc]
  · rw [hitems, show m + 2 - 1 = m + 1 by omega, List.range'_succ, List.flatMap_cons]
  · rw [listRequests_append, listRequests_append, hev, List.append_nil,
      listRequests_map_listFiles, List.range'_succ 1 (m + 1), List.map_cons,
      internalParamOf_page_one, e1]
    simp only [internalParamOf_page]
    rfl

theorem laterPagesFailClient_first (j : Nat) (h1 : 1 ≤ j) (h2 : j < 2) :
    PageSucceeds laterPagesFailClient { internalParamOf twoPerPage with PageNum := j }
      (fivePages j) := by
  obtain rfl : j = 1 := by omega
  exact fun _ => ⟨{ decoded := Except.ok _ }, rfl, rfl, by simp; decide, rfl⟩

/-- Witness of C10: five entries reported, two per page, page 2 failing. -/
theorem AppGetAllFileList_keeps_pages_before_failure_witness :
    (PageFails laterPagesFailClient { internalParamOf twoPerPage with PageNum := 2 } ∧
      intOfUint (internalParamOf twoPerPage).PageSize < (fivePages 1).Count ∧
      ((2 : Nat) : Int) ≤ pageCountOf (fivePages 1).Count (internalParamOf twoPerPage).PageSize) ∧
    ∃ r evs, AppGetAllFileList 0 laterPagesFailClient twoPerPage [] =
        (some (Except.ok r), [] ++ evs) ∧
      r.FileList.map withoutDerived =
        ((List.range' 1 (2 - 1)).flatMap (fun j => specPageItems (fivePages j))).map
          withoutDerived ∧
      listRequests evs =
        (List.range' 1 2).map (fun j => { internalParamOf twoPerPage with PageNum := j }) :=
  ⟨⟨fun _ => ⟨_, rfl⟩, by decide, by decide⟩,
   AppGetAllFileList_keeps_pages_before_failure 0 laterPagesFailClient twoPerPage [] fivePages 2
    (by decide) laterPagesFailClient_first (fun _ => ⟨_, rfl⟩) (by decide) (by decide)
    (pathLookupEnds_of_off _ _ _ rfl)⟩

/-! ## Claims on the path resolver, evaluated -/

theorem AppFileInfoByPath_slash (fuel : Nat) (p : PanClient) (familyId : Int) (tr : Trace) :
    AppFileInfoByPath fuel p familyId "/" tr =
      (some (Except.ok NewAppFileEntityForRootDir), tr) :=
  rfl

/-- C9: `AppFileInfoByPath` called with the empty path or with `/` returns the
root sentinel (`FileId` `-11`, `IsFolder` true, `FileName` `/`, empty
`ParentId`) with no error, and the history is unchanged: no request went to the
transport. -/
theorem AppFileInfoByPath_root (fuel : Nat) (p : PanClient) (familyId : Int) (tr : Trace) :
    AppFileInfoByPath fuel p familyId "" tr = (some (Except.ok NewAppFileEntityForRootDir), tr) ∧
    AppFileInfoByPath fuel p familyId "/" tr = (some (Except.ok NewAppFileEntityForRootDir), tr) ∧
    NewAppFileEntityForRootDir.FileId = "-11" ∧ NewAppFileEntityForRootDir.IsFolder = true ∧
    NewAppFileEntityForRootDir.FileName = "/" ∧ NewAppFileEntityForRootDir.ParentId = "" :=
  ⟨rfl, rfl, rfl, rfl, rfl, rfl⟩

/-- C6, the code at the failing input: in the store `root (-11) → docs (f1,
parent -11) → report.pdf (f2, parent f1)`, no metadata record carrying a path,
`AppFilePathById` of `f2` is `/report.pdf` in the personal and in the shared
realm, and of `f1` it is `/`: the loop stops at the node whose `ParentId` starts
with `-` before prepending that node's name. -/
theorem AppFilePathById_drops_top_level_name (n : Nat) :
    (AppFilePathById (n + 2) docsClient 0 "f2" []).1 = some (Except.ok "/report.pdf") ∧
    (AppFilePathById (n + 2) docsClient 7 "f2" []).1 = some (Except.ok "/report.pdf") ∧
    (AppFilePathById (n + 2) docsClient 0 "f1" []).1 = some (Except.ok "/") :=
  ⟨rfl, rfl, rfl⟩

/-- C5, the code at the failing input: in the sample store the path of `f2` is
computed as `/report.pdf`, which does not resolve at all, while
`/docs/report.pdf` resolves to `f2`, whose computed path is not
`/docs/report.pdf`: neither direction of the round trip holds. -/
theorem path_round_trip_fails :
    (AppFilePathById 2 docsClient 0 "f2" []).1 = some (Except.ok "/report.pdf") ∧
    (AppFileInfoByPath 0 docsClient 0 "/report.pdf" []).1 =
      some (Except.error (NewApiError ApiCode.ApiCodeFileNotFoundCode "文件不存在")) ∧
    (AppFileInfoByPath 0 docsClient 0 "/docs/report.pdf" []).1 = some (Except.ok reportNode) ∧
    reportNode.FileId = "f2" ∧
    (AppFilePathById 2 docsClient 0 reportNode.FileId []).1 ≠ some (Except.ok "/docs/report.pdf") := by
  decide

/-! ## Lexical facts on plain paths -/

theorem splitSlashAux_append (e : List Char) (he : '/' ∉ e) :
    ∀ (rest cur : List Char),
      splitSlashAux (e ++ '/' :: rest) cur = (cur.reverse ++ e) :: splitSlashAux rest [] := by
  induction e with
  | nil => intro rest cur; simp [splitSlashAux]
  | cons c e ih =>
    intro rest cur
    have hc : c ≠ '/' := fun h => he (by rw [h]; exact List.mem_cons_self _ _)
    have he' : '/' ∉ e := fun h => he (List.mem_cons_of_mem _ h)
    rw [List.cons_append, splitSlashAux, if_neg hc, ih he']
    simp

theorem splitSlashAux_last (e : List Char) (he : '/' ∉ e) :
    ∀ cur : List Char, splitSlashAux e cur = [cur.reverse ++ e] := by
  induction e with
  | nil => intro cur; simp [splitSlashAux]
  | cons c e ih =>
    intro cur
    have hc : c ≠ '/' := fun h => he (by rw [h]; exact List.mem_cons_self _ _)
    have he' : '/' ∉ e := fun h => he (List.mem_cons_of_mem _ h)
    rw [splitSlashAux, if_neg hc, ih he']
    simp

theorem splitSlashAux_joinSlash :
    ∀ (comps : List (List Char)), comps ≠ [] → (∀ e ∈ comps, '/' ∉ e) →
      ∀ cur : List Char, splitSlashAux (joinSlash comps) cur =
        (cur.reverse ++ comps.head!) :: comps.tail
  | [], h, _, _ => absurd rfl h
  | [e], _, hs, cur => by
    simp only [joinSlash, List.head!_cons, List.tail_cons]
    exact splitSlashAux_last e (hs e (List.mem_singleton_self _)) cur
  | e :: e2 :: es, _, hs, cur => by
    simp only [joinSlash, List.head!_cons, List.tail_cons]
    rw [splitSlashAux_append e (hs e (List.mem_cons_self _ _)),
      splitSlashAux_joinSlash (e2 :: es) (List.cons_ne_nil _ _)
        (fun x hx => hs x (List.mem_cons_of_mem _ hx)) []]
    simp

theorem cleanElems_plain :
    ∀ (comps out : List (List Char)),
      (∀ e ∈ comps, e ≠ [] ∧ e ≠ ['.'] ∧ e ≠ ['.', '.']) →
      cleanElems true comps out 0 = out.reverse ++ comps := by
  intro comps
  induction comps with
  | nil => intro out _; simp [cleanElems]
  | cons e es ih =>
    intro out h
    obtain ⟨h1, h2, h3⟩ := h e (List.mem_cons_self _ _)
    rw [cleanElems, if_neg (by simp [h1, h2]), if_neg h3,
      ih (e :: out) (fun x hx => h x (List.mem_cons_of_mem _ hx))]
    simp

theorem replaceDoubleSlash_append (e : List Char) (he : '/' ∉ e) :
    ∀ l : List Char, replaceDoubleSlash (e ++ l) = e ++ replaceDoubleSlash l := by
  induction e with
  | nil => intro l; rfl
  | cons c e ih =>
    intro l
    have hc : c ≠ '/' := fun h => he (by rw [h]; exact List.mem_cons_self _ _)
    have he' : '/' ∉ e := fun h => he (List.mem_cons_of_mem _ h)
    have ih' := ih he' l
    cases hel : e ++ l with
    | nil =>
      have h1 : e = [] := (List.append_eq_nil.mp hel).1
      have h2 : l = [] := (List.append_eq_nil.mp hel).2
      subst h1 h2
      rfl
    | cons d rest =>
      rw [List.cons_append, hel, replaceDoubleSlash, if_neg (fun h => hc h.1), ← hel, ih',
        List.cons_append]

theorem replaceDoubleSlash_slash (l : List Char) (h : l.head? ≠ some '/') :
    replaceDoubleSlash ('/' :: l) = '/' :: replaceDoubleSlash l := by
  cases l with
  | nil => rfl
  | cons d rest =>
    have hd : d ≠ '/' := fun hd => h (by rw [hd]; rfl)
    rw [replaceDoubleSlash, if_neg (fun h => hd h.2)]

theorem joinSlash_head? :
    ∀ (comps : List (List Char)), (∀ e ∈ comps, e ≠ [] ∧ '/' ∉ e) →
      (joinSlash comps).head? ≠ some '/'
  | [], _ => by simp [joinSlash]
  | [e], h => by
    obtain ⟨h1, h2⟩ := h e (List.mem_singleton_self _)
    cases e with
    | nil => exact absurd rfl h1
    | cons c e =>
      simp only [joinSlash, List.head?_cons]
      intro hc
      exact h2 (by rw [← Option.some.inj hc]; exact List.mem_cons_self _ _)
  | e :: e2 :: es, h => by
    obtain ⟨h1, h2⟩ := h e (List.mem_cons_self _ _)
    cases e with
    | nil => exact absurd rfl h1
    | cons c e =>
      simp only [joinSlash, List.cons_append, List.head?_cons]
      intro hc
      exact h2 (by rw [← Option.some.inj hc]; exact List.mem_cons_self _ _)

theorem replaceDoubleSlash_joinSlash :
    ∀ (comps : List (List Char)), (∀ e ∈ comps, e ≠ [] ∧ '/' ∉ e) →
      replaceDoubleSlash (joinSlash comps) = joinSlash comps
  | [], _ => rfl
  | [e], h => by
    have := replaceDoubleSlash_append e (h e (List.mem_singleton_self _)).2 []
    simpa [joinSlash, replaceDoubleSlash] using this
  | e :: e2 :: es, h => by
    have htl : ∀ x ∈ e2 :: es, x ≠ [] ∧ '/' ∉ x := fun x hx => h x (List.mem_cons_of_mem _ hx)
    simp only [joinSlash]
    rw [replaceDoubleSlash_append e (h e (List.mem_cons_self _ _)).2,
      replaceDoubleSlash_slash _ (joinSlash_head? _ htl),
      replaceDoubleSlash_joinSlash (e2 :: es) htl]

theorem plain_data {cs : List String} (h : ∀ c ∈ cs, PlainName c) :
    ∀ e ∈ cs.map String.data, e ≠ [] ∧ '/' ∉ e ∧ e ≠ ['.'] ∧ e ≠ ['.', '.'] := by
  intro e he
  rw [List.mem_map] at he
  obtain ⟨c, hc, rfl⟩ := he
  exact h c hc

theorem map_mk_data (cs : List String) : (cs.map String.data).map String.mk = cs := by
  induction cs with
  | nil => rfl
  | cons c cs ih => simp only [List.map_cons, ih]

theorem absPathOf_ne_root {cs : List String} (hne : cs ≠ []) (h : ∀ c ∈ cs, PlainName c) :
    absPathOf cs ≠ "/" := by
  cases cs with
  | nil => exact absurd rfl hne
  | cons c cs =>
    intro hcon
    have hd : (absPathOf (c :: cs)).data = ['/'] := by rw [hcon]
    have h1 := (h c (List.mem_cons_self _ _)).1
    cases hcd : c.data with
    | nil => exact h1 hcd
    | cons x xs =>
      cases cs with
      | nil => simp [absPathOf, joinSlash, hcd] at hd
      | cons c2 cs => simp [absPathOf, joinSlash, hcd] at hd

/-- A plain absolute path is already clean. -/
theorem pathClean_absPathOf {cs : List String} (hne : cs ≠ []) (h : ∀ c ∈ cs, PlainName c) :
    pathClean (absPathOf cs) = absPathOf cs := by
  have hd := plain_data h
  have hsplit := splitSlashAux_joinSlash (cs.map String.data) (by simpa using hne)
    (fun e he => (hd e he).2.1) ['/']
  unfold pathClean
  have hdata : (absPathOf cs).data = '/' :: joinSlash (cs.map String.data) := rfl
  rw [if_neg (by rw [hdata]; exact List.cons_ne_nil _ _),
    if_pos (by simp [pathIsAbs, hdata])]
  have hs : splitSlashAux (absPathOf cs).data [] = [] :: cs.map String.data := by
    rw [hdata, splitSlashAux, if_pos rfl]
    have := splitSlashAux_joinSlash (cs.map String.data) (by simpa using hne)
      (fun e he => (hd e he).2.1) []
    rw [this]
    cases hcs : cs.map String.data with
    | nil => simp at hcs; exact absurd hcs hne
    | cons x xs => simp
  rw [hs, cleanElems, if_pos (Or.inl rfl),
    cleanElems_plain _ [] (fun e he => ⟨(hd e he).1, (hd e he).2.2⟩)]
  rfl

theorem utf8ByteSize_go_ge : ∀ l : List Char, l.length ≤ String.utf8ByteSize.go l
  | [] => Nat.le_refl _
  | c :: l => by
    have := utf8ByteSize_go_ge l
    have hc := Char.utf8Size_pos c
    simp only [String.utf8ByteSize.go, List.length_cons]
    omega

theorem absPathOf_byteSize {cs : List String} (hne : cs ≠ []) (h : ∀ c ∈ cs, PlainName c) :
    1 < (absPathOf cs).utf8ByteSize := by
  have hlen : 2 ≤ (absPathOf cs).data.length := by
    cases cs with
    | nil => exact absurd rfl hne
    | cons c cs =>
      have h1 := (h c (List.mem_cons_self _ _)).1
      cases hcd : c.data with
      | nil => exact absurd hcd h1
      | cons x xs =>
        cases cs with
        | nil => simp [absPathOf, joinSlash, hcd]
        | cons c2 cs => simp [absPathOf, joinSlash, hcd]
  have := utf8ByteSize_go_ge (absPathOf cs).data
  show 1 < String.utf8ByteSize.go (absPathOf cs).data
  omega

theorem pathSliceOf_absPathOf {cs : List String} (hne : cs ≠ []) (h : ∀ c ∈ cs, PlainName c) :
    pathSliceOf (absPathOf cs) = "" :: cs := by
  have hd := plain_data h
  unfold pathSliceOf
  rw [if_neg (absPathOf_ne_root hne h)]
  unfold stringsSplit
  have hdata : (absPathOf cs).data = '/' :: joinSlash (cs.map String.data) := rfl
  rw [hdata, splitSlashAux, if_pos rfl,
    splitSlashAux_joinSlash (cs.map String.data) (by simpa using hne)
      (fun e he => (hd e he).2.1) []]
  cases hcs : cs.map String.data with
  | nil => simp at hcs; exact absurd hcs hne
  | cons x xs =>
    have := map_mk_data cs
    rw [hcs] at this
    simpa using this

theorem foldl_path_data :
    ∀ (l : List String) (a : String),
      (l.foldl (fun fullPath str => fullPath ++ "/" ++ str) a).data =
        a.data ++ l.flatMap (fun s => '/' :: s.data)
  | [], a => by simp
  | s :: l, a => by
    rw [List.foldl_cons, foldl_path_data l, List.flatMap_cons]
    simp [String.data_append]

theorem flatMap_slash_eq :
    ∀ (cs : List String), cs ≠ [] →
      cs.flatMap (fun s => '/' :: s.data) = '/' :: joinSlash (cs.map String.data)
  | [], h => absurd rfl h
  | [c], _ => by simp [joinSlash]
  | c :: c2 :: cs, _ => by
    rw [List.flatMap_cons, flatMap_slash_eq (c2 :: cs) (List.cons_ne_nil _ _)]
    simp [joinSlash]

/-- The path recorded at level `index` is the plain path of the first `index`
components. -/
theorem getPath_plain {cs : List String} (h : ∀ c ∈ cs, PlainName c) (index : Nat)
    (h1 : 1 ≤ index) (h2 : index ≤ cs.length) (rest : List String) :
    getPath index ("" :: cs ++ rest) = absPathOf (cs.take index) := by
  obtain ⟨i, rfl⟩ : ∃ i, index = i + 1 := ⟨index - 1, by omega⟩
  have htake : ("" :: cs ++ rest).take (i + 1 + 1) = "" :: cs.take (i + 1) := by
    rw [List.cons_append, List.take_succ_cons, List.take_append_of_le_length h2]
  have hne : cs.take (i + 1) ≠ [] := by
    cases cs with
    | nil => simp at h2
    | cons c cs => simp
  have hpl : ∀ e ∈ (cs.take (i + 1)).map String.data, e ≠ [] ∧ '/' ∉ e := fun e he =>
    let h' := plain_data (fun c hc => h c (List.mem_of_mem_take hc)) e he
    ⟨h'.1, h'.2.1⟩
  unfold getPath stringsReplaceAll absPathOf
  congr 1
  rw [htake, foldl_path_data, List.flatMap_cons, flatMap_slash_eq _ hne]
  show replaceDoubleSlash ('/' :: '/' :: joinSlash _) = _
  rw [replaceDoubleSlash, if_pos ⟨rfl, rfl⟩, replaceDoubleSlash_joinSlash _ hpl]

/-! ## Runs of the path resolver -/

theorem getAppFileInfoByPath_eq_descend (fuel : Nat) (p : PanClient) (familyId : Int)
    (pathSlice : List String) :
    ∀ (steps index : Nat) (parent : AppFileEntity) (tr : Trace),
      pathSlice.length - index < steps →
      getAppFileInfoByPath fuel p familyId pathSlice steps index (some parent) tr =
        descend fuel p familyId pathSlice (pathSlice.drop index) index parent tr := by
  intro steps
  induction steps with
  | zero => intro index parent tr h; omega
  | succ steps ih =>
    intro index parent tr h
    unfold getAppFileInfoByPath
    by_cases hlen : pathSlice.length ≤ index
    · rw [if_pos hlen, List.drop_eq_nil_of_le hlen]
      rfl
    · rw [if_neg hlen]
      have hlt : index < pathSlice.length := by omega
      have hdrop : pathSlice.drop index = pathSlice.getD index "" :: pathSlice.drop (index + 1) := by
        rw [List.drop_eq_getElem_cons hlt]
        congr 1
        simp [List.getD, List.getElem?_eq_getElem hlt]
      rw [hdrop]
      unfold descend
      rcases AppGetAllFileList fuel p (searchPathOf familyId parent) tr with ⟨res, tr1⟩
      match res with
      | none => rfl
      | some (Except.error err) => rfl
      | some (Except.ok fileResult) =>
        simp only
        split_ifs with h0
        · rfl
        · cases hfind : fileResult.FileList.find?
              (fun fileEntity => fileEntity.FileName == pathSlice.getD index "") with
          | none => rfl
          | some fileEntity =>
            simp only
            rw [ih (index + 1) _ tr1 (by omega)]

theorem descend_congr (fuel : Nat) (p : PanClient) (familyId : Int) (P Q : List String) :
    ∀ (xs : List String) (index : Nat) (parent : AppFileEntity) (tr : Trace),
      (∀ i, index ≤ i → i < index + xs.length → getPath i P = getPath i Q) →
      descend fuel p familyId P xs index parent tr =
        descend fuel p familyId Q xs index parent tr := by
  intro xs
  induction xs with
  | nil => intro index parent tr _; rfl
  | cons c rest ih =>
    intro index parent tr h
    unfold descend
    rcases AppGetAllFileList fuel p (searchPathOf familyId parent) tr with ⟨res, tr1⟩
    match res with
    | none => rfl
    | some (Except.error err) => rfl
    | some (Except.ok fileResult) =>
      simp only
      split_ifs with h0
      · rfl
      · cases hfind : fileResult.FileList.find? (fun fileEntity => fileEntity.FileName == c) with
        | none => rfl
        | some fileEntity =>
          simp only
          rw [h index (le_refl _) (by simp),
            ih (index + 1) _ tr1 (fun i h1 h2 => h i (by omega) (by simp at h2 ⊢; omega))]

/-- A run over `xs ++ ys` is the run over `xs` followed, when that one finds
its node, by the run over `ys` from there. -/
theorem descend_append (fuel : Nat) (p : PanClient) (familyId : Int) (P : List String) :
    ∀ (xs ys : List String) (index : Nat) (parent : AppFileEntity) (tr : Trace),
      descend fuel p familyId P (xs ++ ys) index parent tr =
        match descend fuel p familyId P xs index parent tr with
        | (some (Except.ok x), tr1) => descend fuel p familyId P ys (index + xs.length) x tr1
        | other => other := by
  intro xs
  induction xs with
  | nil => intro ys index parent tr; simp [descend]
  | cons c rest ih =>
    intro ys index parent tr
    rw [List.cons_append]
    simp only [descend]
    rcases AppGetAllFileList fuel p (searchPathOf familyId parent) tr with ⟨res, tr1⟩
    match res with
    | none => rfl
    | some (Except.error err) => rfl
    | some (Except.ok fileResult) =>
      simp only
      split_ifs with h0
      · rfl
      · cases hfind : fileResult.FileList.find? (fun fileEntity => fileEntity.FileName == c) with
        | none => rfl
        | some fileEntity =>
          simp only
          rw [ih ys (index + 1) _ tr1, List.length_cons,
            show index + 1 + rest.length = index + (rest.length + 1) by omega]

theorem absPathOf_ne_empty (cs : List String) : absPathOf cs ≠ "" := by
  intro h
  have : (absPathOf cs).data = [] := by rw [h]
  simp [absPathOf] at this

/-- On a plain absolute path the resolver is the descent from the root
sentinel over the components. -/
theorem AppFileInfoByPath_plain (fuel : Nat) (p : PanClient) (familyId : Int) (tr : Trace)
    {cs : List String} (h : ∀ c ∈ cs, PlainName c) :
    AppFileInfoByPath fuel p familyId (absPathOf cs) tr =
      descend fuel p familyId ("" :: cs) cs 1 NewAppFileEntityForRootDir tr := by
  by_cases hne : cs = []
  · subst hne
    exact AppFileInfoByPath_slash fuel p familyId tr
  · unfold AppFileInfoByPath
    simp only [if_neg (absPathOf_ne_empty cs)]
    have habs : pathIsAbs (absPathOf cs) = true := by simp [pathIsAbs, absPathOf]
    rw [if_neg (by simp [habs]), if_pos (absPathOf_byteSize hne h), pathClean_absPathOf hne h,
      pathSliceOf_absPathOf hne h, if_neg (by simp)]
    unfold getAppFileInfoByPath
    have hlen : ¬ ((0 = 0) ∧ ("" :: cs).length = 1) := by
      intro hc
      have := hc.2
      simp at this
      exact hne this
    rw [if_neg hlen, getAppFileInfoByPath_eq_descend _ _ _ _ _ _ _ _ (by simp)]
    rfl

theorem getPath_congr_plain {cs : List String} (h : ∀ c ∈ cs, PlainName c)
    (rest rest2 : List String) (i : Nat) (h1 : 1 ≤ i) (h2 : i < 1 + cs.length) :
    getPath i ("" :: cs ++ rest) = getPath i ("" :: cs ++ rest2) := by
  rw [getPath_plain h i h1 (by omega) rest, getPath_plain h i h1 (by omega) rest2]

/-- The run on a plain path, cut after the components `pre`: it is the run on
`pre`, followed by the levels of `post` from the node found. -/
theorem AppFileInfoByPath_cut (fuel : Nat) (p : PanClient) (familyId : Int) (tr : Trace)
    {pre post : List String} (h : ∀ c ∈ pre ++ post, PlainName c) :
    AppFileInfoByPath fuel p familyId (absPathOf (pre ++ post)) tr =
      match AppFileInfoByPath fuel p familyId (absPathOf pre) tr with
      | (some (Except.ok x), tr1) =>
        descend fuel p familyId ("" :: (pre ++ post)) post (1 + pre.length) x tr1
      | other => other := by
  have hpre : ∀ c ∈ pre, PlainName c := fun c hc => h c (List.mem_append_left _ hc)
  rw [AppFileInfoByPath_plain fuel p familyId tr h, AppFileInfoByPath_plain fuel p familyId tr hpre,
    descend_append]
  have hc := descend_congr fuel p familyId ("" :: (pre ++ post)) ("" :: pre) pre 1
    NewAppFileEntityForRootDir tr (fun i h1 h2 => by
      have := getPath_congr_plain hpre post [] i h1 h2
      simpa using this)
  rw [hc]

/-- C7: for every absolute path `/c1/.../cn` (`n ≥ 1`, written here as the
components `cs` followed by the last one `c`, all plain) on which
`AppFileInfoByPath` succeeds with node `e`: the path without its last component
resolves, from the same history, to a node `parent` (the root sentinel when
`n = 1`); the listing of `parent` succeeds; `e` is the first entry of that
listing whose `FileName` equals `c` as a string, with no other normalization;
and `e` carries `FileName = c`, `ParentId = parent.FileId` and `Path` equal to
the whole path.  Applied to the shorter path again, this describes every
level. -/
theorem AppFileInfoByPath_resolves_by_name (fuel : Nat) (p : PanClient) (familyId : Int)
    (tr tr' : Trace) (cs : List String) (c : String) (e : AppFileEntity)
    (hplain : ∀ x ∈ cs ++ [c], PlainName x)
    (hok : AppFileInfoByPath fuel p familyId (absPathOf (cs ++ [c])) tr =
      (some (Except.ok e), tr')) :
    ∃ parent trm fileResult fileEntity,
      AppFileInfoByPath fuel p familyId (absPathOf cs) tr = (some (Except.ok parent), trm) ∧
      (cs = [] → parent = NewAppFileEntityForRootDir ∧ trm = tr) ∧
      AppGetAllFileList fuel p (searchPathOf familyId parent) trm =
        (some (Except.ok fileResult), tr') ∧
      fileResult.FileList.find? (fun x => x.FileName == c) = some fileEntity ∧
      e = { fileEntity with ParentId := parent.FileId, Path := absPathOf (cs ++ [c]) } ∧
      e.FileName = c ∧ e.ParentId = parent.FileId ∧ e.Path = absPathOf (cs ++ [c]) := by
  rw [AppFileInfoByPath_cut fuel p familyId tr hplain] at hok
  rcases hpre : AppFileInfoByPath fuel p familyId (absPathOf cs) tr with ⟨res, trm⟩
  rw [hpre] at hok
  have hroot : cs = [] → res = some (Except.ok NewAppFileEntityForRootDir) ∧ trm = tr := by
    intro hcs
    subst hcs
    have := AppFileInfoByPath_slash fuel p familyId tr
    have h0 : absPathOf [] = "/" := rfl
    rw [h0, this] at hpre
    simp only [Prod.mk.injEq] at hpre
    exact ⟨hpre.1.symm, hpre.2.symm⟩
  match res, hok, hroot with
  | none, hok, _ => simp at hok
  | some (Except.error err), hok, _ => simp at hok
  | some (Except.ok parent), hok, hroot =>
    simp only [descend] at hok
    rcases hl : AppGetAllFileList fuel p (searchPathOf familyId parent) trm with ⟨lres, tr1⟩
    rw [hl] at hok
    match lres, hok with
    | none, hok => simp at hok
    | some (Except.error err), hok => simp at hok
    | some (Except.ok fileResult), hok =>
      simp only at hok
      split_ifs at hok with h0
      · simp at hok
      · cases hfind : fileResult.FileList.find? (fun x => x.FileName == c) with
        | none => rw [hfind] at hok; simp at hok
        | some fileEntity =>
          rw [hfind] at hok
          simp only [Prod.mk.injEq, Option.some.injEq, Except.ok.injEq] at hok
          obtain ⟨he, htr⟩ := hok
          have hcs : ∀ x ∈ cs, PlainName x := fun x hx => hplain x (List.mem_append_left _ hx)
          have hpath : getPath (1 + cs.length) ("" :: (cs ++ [c])) = absPathOf (cs ++ [c]) := by
            have := getPath_plain hplain (1 + cs.length) (by omega) (by simp; omega) []
            rw [List.take_of_length_le (by simp; omega)] at this
            simpa using this
          have hname : fileEntity.FileName = c := by
            have := List.find?_some hfind
            simpa using this
          subst htr
          refine ⟨parent, trm, fileResult, fileEntity, rfl, ?_, hl, hfind, ?_, ?_, ?_, ?_⟩
          · intro hcs0
            have := hroot hcs0
            simp only [Option.some.injEq, Except.ok.injEq] at this
            exact this
          · rw [← he, hpath]
          · rw [← he]; exact hname
          · rw [← he]
          · rw [← he]; exact hpath

theorem plain_docs_report : ∀ x ∈ ["docs"] ++ ["report.pdf"], PlainName x := by
  intro x hx
  simp only [List.singleton_append, List.mem_cons, List.mem_singleton, List.not_mem_nil,
    or_false] at hx
  rcases hx with rfl | rfl <;> (unfold PlainName; decide)

/-- Witness of C7: `/docs/report.pdf` in the sample store. -/
theorem AppFileInfoByPath_resolves_by_name_witness :
    ((∀ x ∈ ["docs"] ++ ["report.pdf"], PlainName x) ∧
      AppFileInfoByPath 0 docsClient 0 (absPathOf (["docs"] ++ ["report.pdf"])) [] =
        (some (Except.ok reportNode),
         [Event.listFiles (searchPathOf 0 NewAppFileEntityForRootDir),
          Event.listFiles (searchPathOf 0 { docsRaw with IsFolder := true })])) ∧
    ∃ parent trm fileResult fileEntity,
      AppFileInfoByPath 0 docsClient 0 (absPathOf ["docs"]) [] =
        (some (Except.ok parent), trm) ∧
      (["docs"] = [] → parent = NewAppFileEntityForRootDir ∧ trm = []) ∧
      AppGetAllFileList 0 docsClient (searchPathOf 0 parent) trm =
        (some (Except.ok fileResult),
         [Event.listFiles (searchPathOf 0 NewAppFileEntityForRootDir),
          Event.listFiles (searchPathOf 0 { docsRaw with IsFolder := true })]) ∧
      fileResult.FileList.find? (fun x => x.FileName == "report.pdf") = some fileEntity ∧
      reportNode = { fileEntity with ParentId := parent.FileId,
                                     Path := absPathOf (["docs"] ++ ["report.pdf"]) } ∧
      reportNode.FileName = "report.pdf" ∧ reportNode.ParentId = parent.FileId ∧
      reportNode.Path = absPathOf (["docs"] ++ ["report.pdf"]) :=
  ⟨⟨plain_docs_report, by decide⟩,
   AppFileInfoByPath_resolves_by_name 0 docsClient 0 [] _ ["docs"] "report.pdf" reportNode
    plain_docs_report (by decide)⟩

/-- C8 fails as stated: resolving `/missing` in the sample store, the listing of
the root succeeds without an entry of that name and the call returns an error
of kind NotFound, but its message is the fixed text `文件不存在`, which names
neither the path nor the missing component. -/
theorem AppFileInfoByPath_not_found_message_fixed :
    (∃ r tr1, AppGetAllFileList 0 docsClient (searchPathOf 0 NewAppFileEntityForRootDir) [] =
        (some (Except.ok r), tr1) ∧ ∀ fi ∈ r.FileList, fi.FileName ≠ "missing") ∧
    ∃ err tr1, AppFileInfoByPath 0 docsClient 0 "/missing" [] = (some (Except.error err), tr1) ∧
      err.Code = ApiCode.ApiCodeFileNotFoundCode ∧
      mentions err.Err "/missing" = false ∧ mentions err.Err "missing" = false :=
  ⟨⟨_, _, rfl, by decide⟩, ⟨_, _, rfl, by decide⟩⟩

/-- C8 (amended): if, at any level of `AppFileInfoByPath` on a plain absolute
path (the components `pre` resolved to the current folder `parent`, `c` the
next component), the listing of the current folder succeeds but contains no
entry whose name equals `c` (an empty listing included), the call returns no
node and the error of kind NotFound (`ApiCodeFileNotFoundCode`) with the fixed
message `文件不存在`, and issues no request after that listing. -/
theorem AppFileInfoByPath_not_found (fuel : Nat) (p : PanClient) (familyId : Int)
    (tr trm tr1 : Trace) (pre : List String) (c : String) (post : List String)
    (parent : AppFileEntity) (fileResult : AppFileListResult)
    (hplain : ∀ x ∈ pre ++ c :: post, PlainName x)
    (hpre : AppFileInfoByPath fuel p familyId (absPathOf pre) tr = (some (Except.ok parent), trm))
    (hlist : AppGetAllFileList fuel p (searchPathOf familyId parent) trm =
      (some (Except.ok fileResult), tr1))
    (hno : ∀ fi ∈ fileResult.FileList, fi.FileName ≠ c) :
    AppFileInfoByPath fuel p familyId (absPathOf (pre ++ c :: post)) tr =
      (some (Except.error (NewApiError ApiCode.ApiCodeFileNotFoundCode "文件不存在")), tr1) := by
  rw [AppFileInfoByPath_cut fuel p familyId tr hplain, hpre]
  simp only [descend, hlist]
  split_ifs with h0
  · rfl
  · have hfind : fileResult.FileList.find? (fun x => x.FileName == c) = none := by
      rw [List.find?_eq_none]
      intro x hx
      simpa using hno x hx
    rw [hfind]

theorem plain_missing : ∀ x ∈ ([] : List String) ++ "missing" :: [], PlainName x := by
  intro x hx
  simp only [List.nil_append, List.mem_singleton] at hx
  subst hx
  unfold PlainName
  decide

/-- Witness of C8 (amended): `/missing` in the sample store. -/
theorem AppFileInfoByPath_not_found_witness :
    ((∀ x ∈ ([] : List String) ++ "missing" :: [], PlainName x) ∧
      ∀ fi ∈ [({ docsRaw with IsFolder := true, ParentId := "-11" } : AppFileEntity)],
        fi.FileName ≠ "missing") ∧
    AppFileInfoByPath 0 docsClient 0 (absPathOf ([] ++ "missing" :: [])) [] =
      (some (Except.error (NewApiError ApiCode.ApiCodeFileNotFoundCode "文件不存在")),
       [Event.listFiles (searchPathOf 0 NewAppFileEntityForRootDir)]) :=
  ⟨⟨plain_missing, by decide⟩,
   AppFileInfoByPath_not_found 0 docsClient 0 [] [] _ [] "missing" [] NewAppFileEntityForRootDir
    { Count := 1, FileList := [{ docsRaw with IsFolder := true, ParentId := "-11" }] }
    plain_missing rfl rfl (by decide)⟩

/-! ## The events of a run -/

theorem AppFileList_events (p : PanClient) (param : AppFileListParam) (tr : Trace) :
    ∃ evs, (AppFileList p param tr).2 = tr ++ evs ∧ ∀ ev ∈ evs, isCallback ev = false :=
  ⟨_, AppFileList_trace p param tr, fun ev hev => by
    rw [List.mem_singleton] at hev; subst hev; rfl⟩

theorem morePages_events (p : PanClient) (ip : AppFileListParam) :
    ∀ (n page : Nat) (acc : List AppFileEntity) (tr : Trace),
      ∃ evs, (morePages p ip n page acc tr).2 = tr ++ evs ∧
        ∀ ev ∈ evs, isCallback ev = false := by
  intro n
  induction n with
  | zero => intro page acc tr; exact ⟨[], by simp [morePages], by simp⟩
  | succ n ih =>
    intro page acc tr
    obtain ⟨evs, h1, h2⟩ := AppFileList_events p { ip with PageNum := page } tr
    unfold morePages
    rcases hr : AppFileList p { ip with PageNum := page } tr with ⟨res, tr1⟩
    rw [hr] at h1
    simp only at h1
    subst h1
    cases res with
    | error err => exact ⟨evs, rfl, h2⟩
    | ok fileResult =>
      obtain ⟨evs2, h3, h4⟩ := ih (page + 1) (acc ++ fileResult.FileList) (tr ++ evs)
      refine ⟨evs ++ evs2, by simp only [h3, List.append_assoc], ?_⟩
      intro ev hev
      rcases List.mem_append.mp hev with h | h
      · exact h2 ev h
      · exact h4 ev h

theorem AppGetBasicFileInfo_events (p : PanClient) (param : AppGetFileInfoParam) (tr : Trace) :
    ∃ evs, (AppGetBasicFileInfo p param tr).2 = tr ++ evs ∧
      ∀ ev ∈ evs, isCallback ev = false := by
  unfold AppGetBasicFileInfo
  by_cases h : 0 < param.FamilyId ∧ param.FileId = ""
  · rw [if_pos h]; exact ⟨[], by simp, by simp⟩
  · rw [if_neg h]
    refine ⟨[Event.getFolderInfo param], ?_, fun ev hev => by
      rw [List.mem_singleton] at hev; subst hev; rfl⟩
    simp only
    repeat' split
    all_goals rfl

theorem AppFilePathByIdLoop_events (p : PanClient) (familyId : Int) :
    ∀ (fuel : Nat) (fileId fullPath : String) (tr : Trace),
      ∃ evs, (AppFilePathByIdLoop p familyId fuel fileId fullPath tr).2 = tr ++ evs ∧
        ∀ ev ∈ evs, isCallback ev = false := by
  intro fuel
  induction fuel with
  | zero => intro _ _ tr; exact ⟨[], by simp [AppFilePathByIdLoop], by simp⟩
  | succ fuel ih =>
    intro fileId fullPath tr
    obtain ⟨evs, h1, h2⟩ := AppGetBasicFileInfo_events p { FamilyId := familyId, FileId := fileId } tr
    unfold AppFilePathByIdLoop
    rcases hr : AppGetBasicFileInfo p { FamilyId := familyId, FileId := fileId } tr with ⟨res, tr1⟩
    rw [hr] at h1
    simp only at h1
    subst h1
    cases res with
    | error err => exact ⟨evs, rfl, h2⟩
    | ok fi =>
      simp only
      by_cases hp : fi.Path ≠ ""
      · rw [if_pos hp]; exact ⟨evs, rfl, h2⟩
      · rw [if_neg hp]
        by_cases hd : (startsWithDash fi.FileId || startsWithDash fi.ParentId) = true
        · rw [if_pos hd]; exact ⟨evs, rfl, h2⟩
        · rw [if_neg hd]
          obtain ⟨evs2, h3, h4⟩ := ih fi.ParentId
            (if fullPath = "" then fi.FileName else fi.FileName ++ "/" ++ fullPath) (tr ++ evs)
          refine ⟨evs ++ evs2, by rw [h3, List.append_assoc], ?_⟩
          intro ev hev
          rcases List.mem_append.mp hev with h | h
          · exact h2 ev h
          · exact h4 ev h

/-- A listing appends requests to the history, never a callback. -/
theorem AppGetAllFileList_events (fuel : Nat) (p : PanClient) (param : AppFileListParam)
    (tr : Trace) :
    ∃ evs, (AppGetAllFileList fuel p param tr).2 = tr ++ evs ∧
      ∀ ev ∈ evs, isCallback ev = false := by
  obtain ⟨evs1, h1, h2⟩ := AppFileList_events p (internalParamOf param) tr
  unfold AppGetAllFileList
  simp only
  rcases hr : AppFileList p (internalParamOf param) tr with ⟨res, tr1⟩
  rw [hr] at h1
  simp only at h1
  subst h1
  cases res with
  | error err => exact ⟨evs1, rfl, h2⟩
  | ok fileResult =>
    simp only
    obtain ⟨evs2, h3, h4⟩ : ∃ evs2,
        (if fileResult.Count > intOfUint (internalParamOf param).PageSize then
          morePages p (internalParamOf param)
            (pageCountOf fileResult.Count (internalParamOf param).PageSize - 1).toNat 2
            fileResult.FileList (tr ++ evs1)
        else (fileResult.FileList, tr ++ evs1)).2 = tr ++ evs1 ++ evs2 ∧
        ∀ ev ∈ evs2, isCallback ev = false := by
      split_ifs
      · exact morePages_events p _ _ _ _ _
      · exact ⟨[], by simp, by simp⟩
    generalize (if fileResult.Count > intOfUint (internalParamOf param).PageSize then
          morePages p (internalParamOf param)
            (pageCountOf fileResult.Count (internalParamOf param).PageSize - 1).toNat 2
            fileResult.FileList (tr ++ evs1)
        else (fileResult.FileList, tr ++ evs1)) = more at h3 ⊢
    have hall : ∀ ev ∈ evs1 ++ evs2, isCallback ev = false := by
      intro ev hev
      rcases List.mem_append.mp hev with h | h
      · exact h2 ev h
      · exact h4 ev h
    by_cases hc : param.ConstructPath = true
    · rw [if_pos hc]
      obtain ⟨evs3, h5, h6⟩ := AppFilePathByIdLoop_events p param.FamilyId fuel param.FileId ""
        more.2
      unfold AppFilePathById
      rcases hq : AppFilePathByIdLoop p param.FamilyId fuel param.FileId "" more.2 with ⟨res, tr3⟩
      rw [hq] at h5
      simp only at h5
      subst h5
      have hall3 : ∀ ev ∈ evs1 ++ evs2 ++ evs3, isCallback ev = false := by
        intro ev hev
        rcases List.mem_append.mp hev with h | h
        · exact hall ev h
        · exact h6 ev h
      have htr : more.2 ++ evs3 = tr ++ (evs1 ++ evs2 ++ evs3) := by
        rw [h3]; simp only [List.append_assoc]
      match res with
      | none => exact ⟨_, htr, hall3⟩
      | some (Except.ok _) => exact ⟨_, htr, hall3⟩
      | some (Except.error _) => exact ⟨_, htr, hall3⟩
    · rw [if_neg hc]
      exact ⟨evs1 ++ evs2, by rw [h3]; simp only [List.append_assoc], hall⟩

theorem descend_events (fuel : Nat) (p : PanClient) (familyId : Int) (P : List String) :
    ∀ (xs : List String) (index : Nat) (parent : AppFileEntity) (tr : Trace),
      ∃ evs, (descend fuel p familyId P xs index parent tr).2 = tr ++ evs ∧
        ∀ ev ∈ evs, isCallback ev = false := by
  intro xs
  induction xs with
  | nil => intro index parent tr; exact ⟨[], by simp [descend], by simp⟩
  | cons c rest ih =>
    intro index parent tr
    obtain ⟨evs, h1, h2⟩ := AppGetAllFileList_events fuel p (searchPathOf familyId parent) tr
    unfold descend
    rcases hr : AppGetAllFileList fuel p (searchPathOf familyId parent) tr with ⟨res, tr1⟩
    rw [hr] at h1
    simp only at h1
    subst h1
    match res with
    | none => exact ⟨evs, rfl, h2⟩
    | some (Except.error err) => exact ⟨evs, rfl, h2⟩
    | some (Except.ok fileResult) =>
      simp only
      split_ifs with h0
      · exact ⟨evs, rfl, h2⟩
      · cases hfind : fileResult.FileList.find? (fun fileEntity => fileEntity.FileName == c) with
        | none => exact ⟨evs, rfl, h2⟩
        | some fileEntity =>
          simp only
          obtain ⟨evs2, h3, h4⟩ := ih (index + 1)
            { fileEntity with ParentId := parent.FileId, Path := getPath index P } (tr ++ evs)
          refine ⟨evs ++ evs2, by rw [h3, List.append_assoc], ?_⟩
          intro ev hev
          rcases List.mem_append.mp hev with h | h
          · exact h2 ev h
          · exact h4 ev h

theorem getAppFileInfoByPath_events (fuel : Nat) (p : PanClient) (familyId : Int)
    (pathSlice : List String) :
    ∀ (steps index : Nat) (parent : Option AppFileEntity) (tr : Trace),
      ∃ evs, (getAppFileInfoByPath fuel p familyId pathSlice steps index parent tr).2 = tr ++ evs ∧
        ∀ ev ∈ evs, isCallback ev = false := by
  intro steps
  induction steps with
  | zero => intro index parent tr; exact ⟨[], by simp [getAppFileInfoByPath], by simp⟩
  | succ steps ih =>
    intro index parent tr
    cases parent with
    | none =>
      unfold getAppFileInfoByPath
      split_ifs
      · exact ⟨[], by simp, by simp⟩
      · exact ih _ _ _
    | some parentFileInfo =>
      obtain ⟨evs, h1, h2⟩ := AppGetAllFileList_events fuel p
        (searchPathOf familyId parentFileInfo) tr
      unfold getAppFileInfoByPath
      split_ifs with hlen
      · exact ⟨[], by simp, by simp⟩
      · rcases hr : AppGetAllFileList fuel p (searchPathOf familyId parentFileInfo) tr
          with ⟨res, tr1⟩
        rw [hr] at h1
        simp only at h1
        subst h1
        match res with
        | none => exact ⟨evs, rfl, h2⟩
        | some (Except.error err) => exact ⟨evs, rfl, h2⟩
        | some (Except.ok fileResult) =>
          simp only
          split_ifs with h0
          · exact ⟨evs, rfl, h2⟩
          · cases hfind : fileResult.FileList.find?
                (fun fileEntity => fileEntity.FileName == pathSlice.getD index "") with
            | none => exact ⟨evs, rfl, h2⟩
            | some fileEntity =>
              simp only
              obtain ⟨evs2, h3, h4⟩ := ih (index + 1)
                (some { fileEntity with ParentId := parentFileInfo.FileId,
                                        Path := getPath index pathSlice }) (tr ++ evs)
              refine ⟨evs ++ evs2, by rw [h3, List.append_assoc], ?_⟩
              intro ev hev
              rcases List.mem_append.mp hev with h | h
              · exact h2 ev h
              · exact h4 ev h

/-- Resolving a path appends requests to the history, never a callback. -/
theorem AppFileInfoByPath_events (fuel : Nat) (p : PanClient) (familyId : Int)
    (pathStr : String) (tr : Trace) :
    ∃ evs, (AppFileInfoByPath fuel p familyId pathStr tr).2 = tr ++ evs ∧
      ∀ ev ∈ evs, isCallback ev = false := by
  unfold AppFileInfoByPath
  simp only
  split_ifs <;>
    first
    | exact getAppFileInfoByPath_events _ _ _ _ _ _ _ _
    | exact ⟨[], (List.append_nil _).symm, fun _ h => absurd h (List.not_mem_nil _)⟩

/-! ## Cancellation of the walk -/

theorem isFalseCallback_of_not_callback {ev : Event} (h : isCallback ev = false) :
    isFalseCallback ev = false := by
  cases ev <;> simp_all [isCallback, isFalseCallback]

theorem mem_dropLast_append {α : Type} {a b : List α} {x : α}
    (h : x ∈ (a ++ b).dropLast) : x ∈ a ∨ x ∈ b.dropLast := by
  by_cases hb : b = []
  · subst hb
    rw [List.append_nil] at h
    exact Or.inl (List.mem_of_mem_dropLast h)
  · rw [List.dropLast_append_of_ne_nil _ hb] at h
    exact List.mem_append.mp h

theorem StopsAtFalse.append {evs1 evs2 : Trace} {ok : Option Bool}
    (h1 : ∀ ev ∈ evs1, isFalseCallback ev = false) (h2 : StopsAtFalse ok evs2) :
    StopsAtFalse ok (evs1 ++ evs2) := by
  constructor
  · intro ev hev
    rcases mem_dropLast_append hev with h | h
    · exact h1 ev h
    · exact h2.1 ev h
  · intro hok ev hev
    rcases List.mem_append.mp hev with h | h
    · exact h1 ev h
    · exact h2.2 hok ev h

theorem StopsAtFalse.of_requests {evs : Trace} (ok : Option Bool)
    (h : ∀ ev ∈ evs, isCallback ev = false) : StopsAtFalse ok evs :=
  ⟨fun ev hev => isFalseCallback_of_not_callback (h ev (List.mem_of_mem_dropLast hev)),
   fun _ ev hev => isFalseCallback_of_not_callback (h ev hev)⟩

theorem recurseStep_stops
    (recurse : AppFileEntity → Int → List AppFileEntity → Trace →
      Option Bool × List AppFileEntity × Trace)
    (cb : Option HandleAppFileDirectoryFunc) (depth : Int)
    (hrec : ∀ fi d fld tr, ∃ evs, (recurse fi d fld tr).2.2 = tr ++ evs ∧
      StopsAtFalse (recurse fi d fld tr).1 evs)
    (fi : AppFileEntity) (fld : List AppFileEntity) (tr : Trace) :
    ∃ evs, (recurseStep recurse cb depth fi fld tr).2.2 = tr ++ evs ∧
      StopsAtFalse (recurseStep recurse cb depth fi fld tr).1 evs := by
  unfold recurseStep
  split_ifs
  · exact hrec _ _ _ _
  · cases cb with
    | none => exact ⟨[], by simp, by simp [StopsAtFalse]⟩
    | some f =>
      refine ⟨[Event.callback depth fi.Path (some fi) none
        (f tr depth fi.Path (some fi) none)], rfl, ?_, ?_⟩
      · simp
      · intro hok ev hev
        rw [List.mem_singleton] at hev
        subst hev
        simp only [Option.some.injEq] at hok
        simp [isFalseCallback, hok]

theorem recurseItems_stops
    (recurse : AppFileEntity → Int → List AppFileEntity → Trace →
      Option Bool × List AppFileEntity × Trace)
    (cb : Option HandleAppFileDirectoryFunc) (depth : Int)
    (hrec : ∀ fi d fld tr, ∃ evs, (recurse fi d fld tr).2.2 = tr ++ evs ∧
      StopsAtFalse (recurse fi d fld tr).1 evs) :
    ∀ (items fld : List AppFileEntity) (tr : Trace),
      ∃ evs, (recurseItems recurse cb depth items fld tr).2.2 = tr ++ evs ∧
        StopsAtFalse (recurseItems recurse cb depth items fld tr).1 evs := by
  intro items
  induction items with
  | nil =>
    intro fld tr
    exact ⟨[], by simp [recurseItems], by simp [recurseItems, StopsAtFalse]⟩
  | cons fi rest ih =>
    intro fld tr
    obtain ⟨evs1, hs1, hs2⟩ := recurseStep_stops recurse cb depth hrec fi fld tr
    unfold recurseItems
    rcases hstep : recurseStep recurse cb depth fi fld tr with ⟨ok1, fld2, tr2⟩
    rw [hstep] at hs1 hs2
    simp only at hs1 hs2
    subst hs1
    match ok1, hs2 with
    | none, hs2 => exact ⟨evs1, rfl, hs2⟩
    | some false, hs2 => exact ⟨evs1, rfl, hs2⟩
    | some true, hs2 =>
      simp only
      obtain ⟨evs2, h3, h4⟩ := ih fld2 (tr ++ evs1)
      exact ⟨evs1 ++ evs2, by rw [h3, List.append_assoc], StopsAtFalse.append (hs2.2 rfl) h4⟩

theorem appRecurseList_stops (p : PanClient) (familyId : Int)
    (cb : Option HandleAppFileDirectoryFunc) :
    ∀ (fuel : Nat) (folderInfo : AppFileEntity) (depth : Int) (fld : List AppFileEntity)
      (tr : Trace),
      ∃ evs, (appRecurseList p familyId cb fuel folderInfo depth fld tr).2.2 = tr ++ evs ∧
        StopsAtFalse (appRecurseList p familyId cb fuel folderInfo depth fld tr).1 evs := by
  intro fuel
  induction fuel with
  | zero =>
    intro folderInfo depth fld tr
    exact ⟨[], by simp [appRecurseList], by simp [appRecurseList, StopsAtFalse]⟩
  | succ fuel ih =>
    intro folderInfo depth fld tr
    obtain ⟨evs1, h1, h2⟩ := AppGetAllFileList_events (fuel + 1) p (flpOf familyId folderInfo) tr
    have hreq : ∀ ev ∈ evs1, isFalseCallback ev = false :=
      fun ev hev => isFalseCallback_of_not_callback (h2 ev hev)
    unfold appRecurseList
    rcases hr : AppGetAllFileList (fuel + 1) p (flpOf familyId folderInfo) tr with ⟨res, tr1⟩
    rw [hr] at h1
    simp only at h1
    subst h1
    match res with
    | none => exact ⟨evs1, rfl, StopsAtFalse.of_requests _ h2⟩
    | some (Except.error apiError) =>
      cases cb with
      | none => exact ⟨evs1, rfl, StopsAtFalse.of_requests _ h2⟩
      | some f =>
        refine ⟨evs1 ++ [Event.callback depth folderInfo.Path none (some apiError)
          (f (tr ++ evs1) depth folderInfo.Path none (some apiError))],
          by simp only [List.append_assoc], StopsAtFalse.append hreq ⟨by simp, ?_⟩⟩
        intro hok
        simp at hok
    | some (Except.ok r) =>
      simp only
      obtain ⟨evs2, h3, h4⟩ := recurseItems_stops (appRecurseList p familyId cb fuel) cb depth
        (fun fi d fld tr => ih fi d fld tr) r.FileList fld (tr ++ evs1)
      exact ⟨evs1 ++ evs2, by rw [h3, List.append_assoc], StopsAtFalse.append hreq h4⟩

theorem StopsAtFalse.last {ok : Option Bool} {evs pre post : Trace} {ev : Event}
    (h : StopsAtFalse ok evs) (hev : evs = pre ++ ev :: post)
    (hf : isFalseCallback ev = true) : post = [] := by
  by_contra hpost
  have hmem : ev ∈ evs.dropLast := by
    rw [hev, List.dropLast_append_of_ne_nil _ (List.cons_ne_nil _ _)]
    apply List.mem_append_right
    cases post with
    | nil => exact absurd rfl hpost
    | cons x xs => simp [List.dropLast]
  have := h.1 ev hmem
  rw [hf] at this
  exact Bool.noConfusion this

theorem AppFilesDirectoriesRecurseList_inv (fuel : Nat) (p : PanClient)
    (familyId : Int) (path : String) (cb : Option HandleAppFileDirectoryFunc) (tr : Trace) :
    ∃ evs, (AppFilesDirectoriesRecurseList fuel p familyId path cb tr).2 = tr ++ evs ∧
      ∃ ok, StopsAtFalse ok evs := by
  obtain ⟨evs1, h1, h2⟩ := AppFileInfoByPath_events fuel p familyId path tr
  have hreq : ∀ ev ∈ evs1, isFalseCallback ev = false :=
    fun ev hev => isFalseCallback_of_not_callback (h2 ev hev)
  unfold AppFilesDirectoriesRecurseList
  rcases hr : AppFileInfoByPath fuel p familyId path tr with ⟨res, tr1⟩
  rw [hr] at h1
  simp only at h1
  subst h1
  match res with
  | none => exact ⟨evs1, rfl, none, StopsAtFalse.of_requests _ h2⟩
  | some (Except.error er) =>
    cases cb with
    | none => exact ⟨evs1, rfl, none, StopsAtFalse.of_requests _ h2⟩
    | some f =>
      exact ⟨evs1 ++ [Event.callback 0 path none (some er) (f (tr ++ evs1) 0 path none (some er))],
        by simp only [List.append_assoc], none,
        StopsAtFalse.append hreq ⟨by simp, fun h => by simp at h⟩⟩
  | some (Except.ok targetFileInfo) =>
    simp only
    split_ifs with hfolder
    · cases cb with
      | none => exact ⟨evs1, rfl, none, StopsAtFalse.of_requests _ h2⟩
      | some f =>
        exact ⟨evs1 ++ [Event.callback 0 path (some targetFileInfo) none
            (f (tr ++ evs1) 0 path (some targetFileInfo) none)],
          by simp only [List.append_assoc], none,
          StopsAtFalse.append hreq ⟨by simp, fun h => by simp at h⟩⟩
    · obtain ⟨evs2, h3, h4⟩ := appRecurseList_stops p familyId cb fuel targetFileInfo 1 []
        (tr ++ evs1)
      rcases hw : appRecurseList p familyId cb fuel targetFileInfo 1 [] (tr ++ evs1)
        with ⟨ok, fld, tr2⟩
      rw [hw] at h3 h4
      simp only at h3 h4
      subst h3
      refine ⟨evs1 ++ evs2, ?_, ok, StopsAtFalse.append hreq h4⟩
      match ok with
      | none => simp only [List.append_assoc]
      | some false => simp only [List.append_assoc]
      | some true => simp only [List.append_assoc]

/-- C4: in every walk (any transport, callback, start path, history and fuel),
if the callback is called for a file and returns `false`, the history of the
run ends with that call: whatever `post` would follow it is empty, so no
listing or metadata request is issued afterwards and the callback is not
invoked again, at any depth. -/
theorem AppFilesDirectoriesRecurseList_stops_on_false (fuel : Nat) (p : PanClient)
    (familyId : Int) (path : String) (cb : Option HandleAppFileDirectoryFunc)
    (tr pre post : Trace) (depth : Int) (fdPath : String) (fd : AppFileEntity)
    (h : (AppFilesDirectoriesRecurseList fuel p familyId path cb tr).2 =
      tr ++ (pre ++ Event.callback depth fdPath (some fd) none false :: post)) :
    post = [] := by
  obtain ⟨evs, h1, ok, h2⟩ := AppFilesDirectoriesRecurseList_inv fuel p familyId path cb tr
  rw [h1] at h
  exact h2.last (List.append_cancel_left h) rfl

/-- Witness of C4: in the two-file store, a callback that cancels at its first
call is called once, for `a.txt`; the run ends there and `b.txt` is never
reported. -/
theorem AppFilesDirectoriesRecurseList_stops_on_false_witness :
    (AppFilesDirectoriesRecurseList 2 twoFilesClient 0 "/" (some cancelAlways) []).2 =
      [] ++ ([Event.listFiles (internalParamOf (flpOf 0 NewAppFileEntityForRootDir)),
              Event.getFolderInfo { FileId := "-11" }] ++
        Event.callback 1 "//a.txt" (some fileAWalked) none false :: []) ∧
    ([] : Trace) = [] :=
  ⟨by decide,
   AppFilesDirectoriesRecurseList_stops_on_false 2 twoFilesClient 0 "/" (some cancelAlways)
     []
     [Event.listFiles (internalParamOf (flpOf 0 NewAppFileEntityForRootDir)),
      Event.getFolderInfo { FileId := "-11" }]
     [] 1 "//a.txt" fileAWalked (by decide)⟩

/-! ## The walk of a finite tree -/

theorem AppGetAllFileList_fuel (fuel : Nat) (p : PanClient) (param : AppFileListParam)
    (tr : Trace) (h : param.ConstructPath = false) :
    AppGetAllFileList fuel p param tr = AppGetAllFileList 0 p param tr := by
  unfold AppGetAllFileList
  simp only [h]
  rfl

theorem getAppFileInfoByPath_fuel (fuel : Nat) (p : PanClient) (familyId : Int)
    (pathSlice : List String) :
    ∀ (steps index : Nat) (parent : Option AppFileEntity) (tr : Trace),
      getAppFileInfoByPath fuel p familyId pathSlice steps index parent tr =
        getAppFileInfoByPath 0 p familyId pathSlice steps index parent tr := by
  intro steps
  induction steps with
  | zero => intro index parent tr; rfl
  | succ steps ih =>
    intro index parent tr
    cases parent with
    | none =>
      unfold getAppFileInfoByPath
      split_ifs
      · rfl
      · exact ih _ _ _
    | some parentFileInfo =>
      unfold getAppFileInfoByPath
      rw [AppGetAllFileList_fuel fuel p (searchPathOf familyId parentFileInfo) tr rfl]
      split_ifs with hlen
      · rfl
      · rcases AppGetAllFileList 0 p (searchPathOf familyId parentFileInfo) tr with ⟨res, tr1⟩
        match res with
        | none => rfl
        | some (Except.error err) => rfl
        | some (Except.ok fileResult) =>
          simp only
          split_ifs with h0
          · rfl
          · cases hfind : fileResult.FileList.find?
                (fun fileEntity => fileEntity.FileName == pathSlice.getD index "") with
            | none => rfl
            | some fileEntity =>
              simp only
              exact ih _ _ _

/-- The path resolver never builds paths by lookup, so its result does not
depend on the fuel. -/
theorem AppFileInfoByPath_fuel (fuel fuel0 : Nat) (p : PanClient) (familyId : Int)
    (pathStr : String) (tr : Trace) :
    AppFileInfoByPath fuel p familyId pathStr tr = AppFileInfoByPath fuel0 p familyId pathStr tr := by
  unfold AppFileInfoByPath
  simp only [getAppFileInfoByPath_fuel fuel, getAppFileInfoByPath_fuel fuel0]

theorem Forest.length_preorder (F : Forest) :
    F.preorder.length = F.folders + F.files := by
  induction F with
  | nil => rfl
  | cons e children siblings ih1 ih2 =>
    simp only [Forest.preorder, Forest.folders, Forest.files, List.length_cons,
      List.length_append, ih1, ih2]
    split_ifs <;> omega

/-- The loop of the walk over the top-level nodes of a served forest appends
the pre-order enumeration of the forest. -/
theorem recurseItems_served (p : PanClient) (familyId : Int) (f0 : Nat)
    (cb : Option HandleAppFileDirectoryFunc) (hcb : AlwaysContinue cb) (F : Forest) :
    ∀ (fuel : Nat) (depth : Int) (fld : List AppFileEntity) (tr : Trace),
      Served p familyId f0 F → f0 + F.height ≤ fuel →
      ∃ tr', recurseItems (appRecurseList p familyId cb fuel) cb depth F.roots fld tr =
        (some true, fld ++ F.preorder, tr') := by
  induction F with
  | nil =>
    intro fuel depth fld tr _ _
    exact ⟨tr, by simp [Forest.roots, Forest.preorder, recurseItems]⟩
  | cons e children siblings ih1 ih2 =>
    intro fuel depth fld tr hs hfuel
    obtain ⟨hfolder, hfile, hsib⟩ := hs
    simp only [Forest.height] at hfuel
    have hstep : ∃ tr1, recurseStep (appRecurseList p familyId cb fuel) cb depth e fld tr =
        (some true, fld ++ [e] ++ children.preorder, tr1) := by
      unfold recurseStep
      by_cases he : e.IsFolder = true
      · rw [if_pos he]
        obtain ⟨hla, hch⟩ := hfolder he
        obtain ⟨k, rfl⟩ : ∃ k, fuel = k + 1 := ⟨fuel - 1, by omega⟩
        obtain ⟨r, evs, hr, hrl⟩ := hla (k + 1) (by omega) tr
        unfold appRecurseList
        rw [hr]
        simp only [hrl]
        exact ih1 k (depth + 1) (fld ++ [e]) (tr ++ evs) hch (by omega)
      · rw [if_neg he]
        have hnil := hfile (by simpa using he)
        subst hnil
        cases cb with
        | none => exact ⟨tr, by simp [Forest.preorder]⟩
        | some f =>
          refine ⟨tr ++ [Event.callback depth e.Path (some e) none true], ?_⟩
          simp only [hcb f rfl, Forest.preorder, List.append_nil]
    obtain ⟨tr1, hstep⟩ := hstep
    obtain ⟨tr2, hrest⟩ := ih2 fuel depth (fld ++ [e] ++ children.preorder) tr1 hsib (by omega)
    refine ⟨tr2, ?_⟩
    simp only [Forest.roots, Forest.preorder]
    unfold recurseItems
    rw [hstep]
    simp only
    rw [hrest]
    simp

/-- C3: for every finite tree below a start folder that the path resolves to
(`F` is the forest of its descendants, every folder of which lists without
failure as the nodes directly below it), with a callback that always returns
`true` (or none), every amount of fuel from `f0 + height + 1` on makes
`AppFilesDirectoriesRecurseList` return exactly the depth-first pre-order
enumeration of the forest: children in listing order, a folder before its own
descendants, every folder and file below the start folder once, so
`folders + files` entries in all (the start folder itself is not an entry). -/
theorem AppFilesDirectoriesRecurseList_preorder (p : PanClient) (familyId : Int)
    (path : String) (cb : Option HandleAppFileDirectoryFunc) (tr tr1 : Trace)
    (start : AppFileEntity) (F : Forest) (f0 fuel0 : Nat)
    (hstart : AppFileInfoByPath fuel0 p familyId path tr = (some (Except.ok start), tr1))
    (hfolder : start.IsFolder = true)
    (hlist : ListsAs p familyId f0 start F.roots)
    (hserved : Served p familyId f0 F)
    (hcb : AlwaysContinue cb) :
    ∀ fuel, f0 + F.height + 1 ≤ fuel →
      ∃ tr', AppFilesDirectoriesRecurseList fuel p familyId path cb tr =
          (some (some F.preorder), tr') ∧
        F.preorder.length = F.folders + F.files := by
  intro fuel hfuel
  obtain ⟨k, rfl⟩ : ∃ k, fuel = k + 1 := ⟨fuel - 1, by omega⟩
  obtain ⟨r, evs, hr, hrl⟩ := hlist (k + 1) (by omega) tr1
  obtain ⟨tr2, hwalk⟩ := recurseItems_served p familyId f0 cb hcb F k 1 [] (tr1 ++ evs)
    hserved (by omega)
  refine ⟨tr2, ?_, F.length_preorder⟩
  unfold AppFilesDirectoriesRecurseList
  rw [AppFileInfoByPath_fuel (k + 1) fuel0, hstart]
  simp only [hfolder, Bool.not_true, Bool.false_eq_true, if_false]
  unfold appRecurseList
  rw [hr]
  simp only [hrl, hwalk, List.nil_append]

theorem docsClient_lists_root :
    ListsAs docsClient 0 1 NewAppFileEntityForRootDir docsForest.roots := by
  intro fuel hfuel tr
  obtain ⟨n, rfl⟩ : ∃ n, fuel = n + 1 := ⟨fuel - 1, by omega⟩
  exact ⟨{ Count := 1, FileList := [docsWalked] },
    [Event.listFiles (internalParamOf (flpOf 0 NewAppFileEntityForRootDir))] ++
      [Event.getFolderInfo { FileId := "-11" }],
    by rw [← List.append_assoc]; rfl, rfl⟩

theorem docsClient_lists_docs :
    ListsAs docsClient 0 1 docsWalked [reportWalked] := by
  intro fuel hfuel tr
  obtain ⟨n, rfl⟩ : ∃ n, fuel = n + 1 := ⟨fuel - 1, by omega⟩
  exact ⟨{ Count := 1, FileList := [reportWalked] },
    [Event.listFiles (internalParamOf (flpOf 0 docsWalked))] ++
      [Event.getFolderInfo { FileId := "f1" }],
    by rw [← List.append_assoc]; rfl, rfl⟩

theorem docsClient_serves : Served docsClient 0 1 docsForest :=
  ⟨fun _ => ⟨docsClient_lists_docs,
      ⟨fun h => absurd h (by decide), fun _ => rfl, trivial⟩⟩,
   fun h => absurd h (by decide), trivial⟩

/-- Witness of C3: the walk of the sample store from the root. -/
theorem AppFilesDirectoriesRecurseList_preorder_witness :
    (AppFileInfoByPath 0 docsClient 0 "/" [] = (some (Except.ok NewAppFileEntityForRootDir), []) ∧
      NewAppFileEntityForRootDir.IsFolder = true ∧
      ListsAs docsClient 0 1 NewAppFileEntityForRootDir docsForest.roots ∧
      Served docsClient 0 1 docsForest ∧ AlwaysContinue (some continueAlways) ∧
      1 + docsForest.height + 1 ≤ 4) ∧
    ∃ tr', AppFilesDirectoriesRecurseList 4 docsClient 0 "/" (some continueAlways) [] =
        (some (some docsForest.preorder), tr') ∧
      docsForest.preorder.length = docsForest.folders + docsForest.files :=
  ⟨⟨rfl, rfl, docsClient_lists_root, docsClient_serves,
      fun f hf _ _ _ _ _ => by rw [← Option.some.inj hf]; rfl, by decide⟩,
   AppFilesDirectoriesRecurseList_preorder docsClient 0 "/" (some continueAlways) [] []
    NewAppFileEntityForRootDir docsForest 1 0 rfl rfl docsClient_lists_root docsClient_serves
    (fun f hf _ _ _ _ _ => by rw [← Option.some.inj hf]; rfl) 4 (by decide)⟩

/-! ## Second group of claims: failures in the aggregator and the walk -/

/-- C11 fails as stated: with five entries reported, two per page, and every
request after the first failing in transport, the request for page 2 is issued
and fails, yet `AppGetAllFileList` returns the two entries of page 1 with a nil
error: the failure does not reach the caller. -/
theorem AppGetAllFileList_later_failure_not_returned :
    PageFails laterPagesFailClient { internalParamOf twoPerPage with PageNum := 2 } ∧
    listRequests (AppGetAllFileList 0 laterPagesFailClient twoPerPage []).2 =
      [internalParamOf twoPerPage, { internalParamOf twoPerPage with PageNum := 2 }] ∧
    (∃ r, (AppGetAllFileList 0 laterPagesFailClient twoPerPage []).1 = some (Except.ok r) ∧
      r.FileList.length = 2) ∧
    ∀ err, (AppGetAllFileList 0 laterPagesFailClient twoPerPage []).1 ≠
      some (Except.error err) :=
  ⟨fun _ => ⟨_, rfl⟩, by decide, ⟨_, rfl, rfl⟩, fun err h => by
    have h2 : (AppGetAllFileList 0 laterPagesFailClient twoPerPage []).1 =
        some (Except.ok { Count := 5, FileList :=
          (fivePages 1).FileList.map (fun fi => { fi with ParentId := "-11" }) }) := rfl
    rw [h2] at h
    cases h⟩

/-- C11 (amended): if pages `1 .. k - 1` succeed and the request for page
`k ≥ 2` fails (page `k` being within the bounds of the page loop),
`AppGetAllFileList` returns the partial result accumulated so far, the items of
pages `1 .. k - 1`, with a nil error: the failure is logged and dropped, it is
not returned to the caller. -/
theorem AppGetAllFileList_drops_later_failure (fuel : Nat) (p : PanClient)
    (param : AppFileListParam) (tr : Trace) (pages : Nat → appFileListResultInternal)
    (k : Nat) (hk : 2 ≤ k)
    (hpre : ∀ j, 1 ≤ j → j < k →
      PageSucceeds p { internalParamOf param with PageNum := j } (pages j))
    (hfail : PageFails p { internalParamOf param with PageNum := k })
    (hmore : intOfUint (internalParamOf param).PageSize < (pages 1).Count)
    (hle : (k : Int) ≤ pageCountOf (pages 1).Count (internalParamOf param).PageSize)
    (hfin : PathLookupEnds fuel p param) :
    (∃ r, (AppGetAllFileList fuel p param tr).1 = some (Except.ok r) ∧
      r.FileList.map withoutDerived =
        ((List.range' 1 (k - 1)).flatMap (fun j => specPageItems (pages j))).map
          withoutDerived) ∧
    ∀ err, (AppGetAllFileList fuel p param tr).1 ≠ some (Except.error err) := by
  obtain ⟨m, rfl⟩ : ∃ m, k = m + 2 := ⟨k - 2, by omega⟩
  have h1 := hpre 1 (le_refl _) (by omega)
  rw [internalParamOf_page_one] at h1
  have hloop := morePages_fail p (internalParamOf param) pages m 2
    (pageCountOf (pages 1).Count (internalParamOf param).PageSize - 1).toNat
    (specPageItems (pages 1))
    (tr ++ [Event.listFiles (sentListParam (internalParamOf param))])
    (fun j hj1 hj2 => hpre j (by omega) (by omega))
    (by rw [show 2 + m = m + 2 by omega]; exact hfail) (by omega)
  obtain ⟨r, evs, hr, -, hitems, -, -, -, -⟩ :=
    AppGetAllFileList_finish fuel p param tr _ _ _ _ (AppFileList_of_succeeds h1 tr)
      ((if_pos hmore).trans hloop) hfin
  rw [hr]
  refine ⟨⟨r, rfl, ?_⟩, fun err h => by cases h⟩
  rw [hitems, show m + 2 - 1 = m + 1 by omega, List.range'_succ, List.flatMap_cons]

/-- Witness of C11 (amended): five entries reported, two per page, page 2
failing. -/
theorem AppGetAllFileList_drops_later_failure_witness :
    (PageFails laterPagesFailClient { internalParamOf twoPerPage with PageNum := 2 } ∧
      intOfUint (internalParamOf twoPerPage).PageSize < (fivePages 1).Count ∧
      ((2 : Nat) : Int) ≤ pageCountOf (fivePages 1).Count (internalParamOf twoPerPage).PageSize) ∧
    (∃ r, (AppGetAllFileList 0 laterPagesFailClient twoPerPage []).1 = some (Except.ok r) ∧
      r.FileList.map withoutDerived =
        ((List.range' 1 (2 - 1)).flatMap (fun j => specPageItems (fivePages j))).map
          withoutDerived) ∧
    ∀ err, (AppGetAllFileList 0 laterPagesFailClient twoPerPage []).1 ≠
      some (Except.error err) :=
  ⟨⟨fun _ => ⟨_, rfl⟩, by decide, by decide⟩,
   AppGetAllFileList_drops_later_failure 0 laterPagesFailClient twoPerPage [] fivePages 2
    (by decide) laterPagesFailClient_first (fun _ => ⟨_, rfl⟩) (by decide) (by decide)
    (pathLookupEnds_of_off _ _ _ rfl)⟩

/-- C16: when the start path resolves to a file, `AppFilesDirectoriesRecurseList`
invokes the callback exactly once, with depth 0, the given path, the resolved
node and a nil error; that call is the only event after the resolution, so no
listing of the node is issued; and the returned list has the node as its single
element (also when there is no callback). -/
theorem AppFilesDirectoriesRecurseList_file_start (fuel : Nat) (p : PanClient)
    (familyId : Int) (path : String) (f : HandleAppFileDirectoryFunc) (tr tr1 : Trace)
    (node : AppFileEntity)
    (hstart : AppFileInfoByPath fuel p familyId path tr = (some (Except.ok node), tr1))
    (hfile : node.IsFolder = false) :
    AppFilesDirectoriesRecurseList fuel p familyId path (some f) tr =
      (some (some [node]),
       tr1 ++ [Event.callback 0 path (some node) none (f tr1 0 path (some node) none)]) ∧
    AppFilesDirectoriesRecurseList fuel p familyId path none tr = (some (some [node]), tr1) := by
  unfold AppFilesDirectoriesRecurseList
  rw [hstart]
  simp [hfile]

/-- Witness of C16: `/a.txt` in the two-file store. -/
theorem AppFilesDirectoriesRecurseList_file_start_witness :
    (AppFileInfoByPath 0 twoFilesClient 0 "/a.txt" [] =
        (some (Except.ok fileAResolved),
         [Event.listFiles (searchPathOf 0 NewAppFileEntityForRootDir)]) ∧
      fileAResolved.IsFolder = false) ∧
    AppFilesDirectoriesRecurseList 0 twoFilesClient 0 "/a.txt" (some cancelAlways) [] =
      (some (some [fileAResolved]),
       [Event.listFiles (searchPathOf 0 NewAppFileEntityForRootDir)] ++
         [Event.callback 0 "/a.txt" (some fileAResolved) none
           (cancelAlways [Event.listFiles (searchPathOf 0 NewAppFileEntityForRootDir)]
             0 "/a.txt" (some fileAResolved) none)]) ∧
    AppFilesDirectoriesRecurseList 0 twoFilesClient 0 "/a.txt" none [] =
      (some (some [fileAResolved]),
       [Event.listFiles (searchPathOf 0 NewAppFileEntityForRootDir)]) :=
  ⟨⟨by decide, rfl⟩,
   AppFilesDirectoriesRecurseList_file_start 0 twoFilesClient 0 "/a.txt" cancelAlways [] _
    fileAResolved (by decide) rfl⟩

/-- C15 fails as stated: walking the sample store from the root, the child
`docs` of the root is returned with `Path` `//docs`, not the root node's own
`Path` (empty) followed by `/docs`, and `report.pdf` with `//report.pdf`, not
the `Path` of `docs` followed by `/report.pdf`; and in a store whose metadata
requests fail, so that the reverse lookup fails, the children keep the empty
`Path` the listing carried. -/
theorem walk_child_paths_differ :
    (AppFilesDirectoriesRecurseList 4 docsClient 0 "/" (some continueAlways) []).1 =
      some (some [docsWalked, reportWalked]) ∧
    docsWalked.Path = "//docs" ∧
    docsWalked.Path ≠ NewAppFileEntityForRootDir.Path ++ "/" ++ docsWalked.FileName ∧
    reportWalked.Path ≠ docsWalked.Path ++ "/" ++ reportWalked.FileName ∧
    (AppFilesDirectoriesRecurseList 4 noMetadataClient 0 "/" (some continueAlways) []).1 =
      some (some [{ fileA with ParentId := "-11" }, { fileB with ParentId := "-11" }]) ∧
    ({ fileA with ParentId := "-11" } : AppFileEntity).Path ≠
      NewAppFileEntityForRootDir.Path ++ "/" ++ fileA.FileName := by
  decide

/-- C15 (amended): for every folder listed during a walk, the children handed
to the loop of the walk (each is placed in the result, and passed to the
callback if it is a file) are the entries `AppGetAllFileList` returns; when the
reverse lookup `AppFilePathById` of the folder's id succeeds with the path `P`,
each child has `Path` equal to `P` followed by `/` and its `FileName`; when the
lookup fails, the children are those of the same listing without path
construction, their `Path` left as received. -/
theorem appRecurseList_child_paths (fuel : Nat) (p : PanClient) (familyId : Int)
    (cb : Option HandleAppFileDirectoryFunc) (folderInfo : AppFileEntity) (depth : Int)
    (fld : List AppFileEntity) (tr tr' : Trace) (r : AppFileListResult)
    (h : AppGetAllFileList (fuel + 1) p (flpOf familyId folderInfo) tr =
      (some (Except.ok r), tr')) :
    appRecurseList p familyId cb (fuel + 1) folderInfo depth fld tr =
      recurseItems (appRecurseList p familyId cb fuel) cb depth r.FileList fld tr' ∧
    ∃ trm r0,
      AppGetAllFileList (fuel + 1) p { flpOf familyId folderInfo with ConstructPath := false } tr =
        (some (Except.ok r0), trm) ∧
      ((∃ P, AppFilePathById (fuel + 1) p familyId folderInfo.FileId trm =
            (some (Except.ok P), tr') ∧
          r.FileList = r0.FileList.map (fun fi => { fi with Path := P ++ "/" ++ fi.FileName }) ∧
          ∀ fi ∈ r.FileList, fi.Path = P ++ "/" ++ fi.FileName) ∨
       (∃ err, AppFilePathById (fuel + 1) p familyId folderInfo.FileId trm =
            (some (Except.error err), tr') ∧
          r.FileList = r0.FileList)) := by
  constructor
  · unfold appRecurseList
    rw [h]
  · unfold AppGetAllFileList at h ⊢
    have hip : internalParamOf { flpOf familyId folderInfo with ConstructPath := false } =
        internalParamOf (flpOf familyId folderInfo) := rfl
    simp only [hip]
    simp only at h
    rcases hfirst : AppFileList p (internalParamOf (flpOf familyId folderInfo)) tr
      with ⟨res, tr1⟩
    rw [hfirst] at h
    cases res with
    | error err => simp at h
    | ok fileResult =>
      simp only at h ⊢
      generalize (if fileResult.Count > intOfUint (internalParamOf (flpOf familyId folderInfo)).PageSize
          then morePages p (internalParamOf (flpOf familyId folderInfo))
            (pageCountOf fileResult.Count (internalParamOf (flpOf familyId folderInfo)).PageSize
              - 1).toNat 2 fileResult.FileList tr1
          else (fileResult.FileList, tr1)) = more at h ⊢
      have hc : (flpOf familyId folderInfo).ConstructPath = true := rfl
      rw [if_pos hc] at h
      have e1 : (flpOf familyId folderInfo).FamilyId = familyId := rfl
      have e2 : (flpOf familyId folderInfo).FileId = folderInfo.FileId := rfl
      rw [e1, e2] at h
      refine ⟨more.2, _, rfl, ?_⟩
      rcases hq : AppFilePathById (fuel + 1) p familyId folderInfo.FileId more.2 with ⟨pres, tr3⟩
      rw [hq] at h
      match pres, h with
      | none, h => simp at h
      | some (Except.ok P), h =>
        simp only [Prod.mk.injEq, Option.some.injEq, Except.ok.injEq] at h
        obtain ⟨hr, htr⟩ := h
        subst htr
        left
        refine ⟨P, rfl, ?_, ?_⟩
        · rw [← hr]
          simp [List.map_map, Function.comp_def, flpOf]
        · intro fi hfi
          rw [← hr] at hfi
          simp only [List.mem_map] at hfi
          obtain ⟨a, _, rfl⟩ := hfi
          rfl
      | some (Except.error err), h =>
        simp only [Prod.mk.injEq, Option.some.injEq, Except.ok.injEq] at h
        obtain ⟨hr, htr⟩ := h
        subst htr
        right
        exact ⟨err, rfl, by rw [← hr]; rfl⟩

/-- Witness of C15 (amended): the walk's listing of the root of the sample
store. -/
theorem appRecurseList_child_paths_witness :
    AppGetAllFileList (0 + 1) docsClient (flpOf 0 NewAppFileEntityForRootDir) [] =
      (some (Except.ok { Count := 1, FileList := [docsWalked] }),
       [Event.listFiles (internalParamOf (flpOf 0 NewAppFileEntityForRootDir)),
        Event.getFolderInfo { FileId := "-11" }]) ∧
    (appRecurseList docsClient 0 (some continueAlways) (0 + 1) NewAppFileEntityForRootDir 1 [] [] =
      recurseItems (appRecurseList docsClient 0 (some continueAlways) 0) (some continueAlways) 1
        ({ Count := 1, FileList := [docsWalked] } : AppFileListResult).FileList []
        [Event.listFiles (internalParamOf (flpOf 0 NewAppFileEntityForRootDir)),
         Event.getFolderInfo { FileId := "-11" }] ∧
    ∃ trm r0,
      AppGetAllFileList (0 + 1) docsClient
        { flpOf 0 NewAppFileEntityForRootDir with ConstructPath := false } [] =
        (some (Except.ok r0), trm) ∧
      ((∃ P, AppFilePathById (0 + 1) docsClient 0 NewAppFileEntityForRootDir.FileId trm =
            (some (Except.ok P),
             [Event.listFiles (internalParamOf (flpOf 0 NewAppFileEntityForRootDir)),
              Event.getFolderInfo { FileId := "-11" }]) ∧
          ({ Count := 1, FileList := [docsWalked] } : AppFileListResult).FileList =
            r0.FileList.map (fun fi => { fi with Path := P ++ "/" ++ fi.FileName }) ∧
          ∀ fi ∈ ({ Count := 1, FileList := [docsWalked] } : AppFileListResult).FileList,
            fi.Path = P ++ "/" ++ fi.FileName) ∨
       (∃ err, AppFilePathById (0 + 1) docsClient 0 NewAppFileEntityForRootDir.FileId trm =
            (some (Except.error err),
             [Event.listFiles (internalParamOf (flpOf 0 NewAppFileEntityForRootDir)),
              Event.getFolderInfo { FileId := "-11" }]) ∧
          ({ Count := 1, FileList := [docsWalked] } : AppFileListResult).FileList =
            r0.FileList))) :=
  ⟨by decide,
   appRecurseList_child_paths 0 docsClient 0 (some continueAlways) NewAppFileEntityForRootDir 1
    [] [] _ { Count := 1, FileList := [docsWalked] } (by decide)⟩

theorem filter_isCallback_requests {evs : Trace} (h : ∀ ev ∈ evs, isCallback ev = false) :
    evs.filter isCallback = [] := by
  rw [List.filter_eq_nil_iff]
  intro ev hev
  rw [h ev hev]
  exact Bool.false_ne_true

theorem ListsAs.events {p : PanClient} {familyId : Int} {f0 : Nat} {folder : AppFileEntity}
    {entries : List AppFileEntity} (h : ListsAs p familyId f0 folder entries) (fuel : Nat)
    (hfuel : f0 ≤ fuel) (tr : Trace) :
    ∃ r evs, AppGetAllFileList fuel p (flpOf familyId folder) tr = (some (Except.ok r), tr ++ evs) ∧
      r.FileList = entries ∧ evs.filter isCallback = [] := by
  obtain ⟨r, evs, h1, h2⟩ := h fuel hfuel tr
  obtain ⟨evs', h3, h4⟩ := AppGetAllFileList_events fuel p (flpOf familyId folder) tr
  rw [h1] at h3
  have : evs = evs' := List.append_cancel_left h3
  subst this
  exact ⟨r, evs, h1, h2, filter_isCallback_requests h4⟩

/-- The loop of the walk over a served forest, with its callback calls. -/
theorem recurseItems_served_calls (p : PanClient) (familyId : Int) (f0 : Nat)
    (f : HandleAppFileDirectoryFunc) (hcb : AlwaysContinue (some f)) (F : Forest) :
    ∀ (fuel : Nat) (depth : Int) (fld : List AppFileEntity) (tr : Trace),
      Served p familyId f0 F → f0 + F.height ≤ fuel →
      ∃ evs, recurseItems (appRecurseList p familyId (some f) fuel) (some f) depth F.roots fld tr =
          (some true, fld ++ F.preorder, tr ++ evs) ∧
        evs.filter isCallback = F.fileCalls depth := by
  induction F with
  | nil =>
    intro fuel depth fld tr _ _
    exact ⟨[], by simp [Forest.roots, Forest.preorder, recurseItems], rfl⟩
  | cons e children siblings ih1 ih2 =>
    intro fuel depth fld tr hs hfuel
    obtain ⟨hfolder, hfile, hsib⟩ := hs
    simp only [Forest.height] at hfuel
    have hstep : ∃ evs1,
        recurseStep (appRecurseList p familyId (some f) fuel) (some f) depth e fld tr =
          (some true, fld ++ [e] ++ children.preorder, tr ++ evs1) ∧
        evs1.filter isCallback =
          (if e.IsFolder then children.fileCalls (depth + 1)
           else [Event.callback depth e.Path (some e) none true]) := by
      unfold recurseStep
      by_cases he : e.IsFolder = true
      · rw [if_pos he, if_pos he]
        obtain ⟨hla, hch⟩ := hfolder he
        obtain ⟨k, rfl⟩ : ∃ k, fuel = k + 1 := ⟨fuel - 1, by omega⟩
        obtain ⟨r, evs, hr, hrl, hnc⟩ := hla.events (k + 1) (by omega) tr
        obtain ⟨evs2, hw, hcalls⟩ := ih1 k (depth + 1) (fld ++ [e]) (tr ++ evs) hch (by omega)
        refine ⟨evs ++ evs2, ?_, ?_⟩
        · unfold appRecurseList
          rw [hr]
          simp only [hrl]
          rw [hw]
          simp only [List.append_assoc]
        · rw [List.filter_append, hnc, hcalls, List.nil_append]
      · rw [if_neg he, if_neg he]
        have hnil := hfile (by simpa using he)
        subst hnil
        refine ⟨[Event.callback depth e.Path (some e) none true], ?_, rfl⟩
        simp only [hcb f rfl, Forest.preorder, List.append_nil]
    obtain ⟨evs1, hstep, hc1⟩ := hstep
    obtain ⟨evs2, hrest, hc2⟩ := ih2 fuel depth (fld ++ [e] ++ children.preorder) (tr ++ evs1)
      hsib (by omega)
    refine ⟨evs1 ++ evs2, ?_, ?_⟩
    · simp only [Forest.roots, Forest.preorder]
      unfold recurseItems
      rw [hstep]
      simp only
      rw [hrest]
      simp
    · rw [List.filter_append, hc1, hc2]
      rfl

/-- C14: in a failure-free walk started at a folder (the forest `F` below it
served without failure) with a callback that always returns `true`, the
callback calls of the run are exactly `F.fileCalls 1`: one call per file of the
subtree and none for a folder, in pre-order, each with a nil error, the file's
node, the file's `Path`, and the depth of the file, which is 1 for the files
directly in the start folder and one more per folder level below it. -/
theorem AppFilesDirectoriesRecurseList_callback_calls (p : PanClient) (familyId : Int)
    (path : String) (f : HandleAppFileDirectoryFunc) (tr tr1 : Trace)
    (start : AppFileEntity) (F : Forest) (f0 fuel0 : Nat)
    (hstart : AppFileInfoByPath fuel0 p familyId path tr = (some (Except.ok start), tr1))
    (hfolder : start.IsFolder = true)
    (hlist : ListsAs p familyId f0 start F.roots)
    (hserved : Served p familyId f0 F)
    (hcb : AlwaysContinue (some f)) :
    ∀ fuel, f0 + F.height + 1 ≤ fuel →
      ∃ evs, (AppFilesDirectoriesRecurseList fuel p familyId path (some f) tr).2 = tr ++ evs ∧
        evs.filter isCallback = F.fileCalls 1 := by
  intro fuel hfuel
  obtain ⟨k, rfl⟩ : ∃ k, fuel = k + 1 := ⟨fuel - 1, by omega⟩
  obtain ⟨evs0, h0, hnc0⟩ := AppFileInfoByPath_events fuel0 p familyId path tr
  rw [hstart] at h0
  simp only at h0
  subst h0
  obtain ⟨r, evs1, hr, hrl, hnc1⟩ := hlist.events (k + 1) (by omega) (tr ++ evs0)
  obtain ⟨evs2, hwalk, hcalls⟩ := recurseItems_served_calls p familyId f0 f hcb F k 1 []
    (tr ++ evs0 ++ evs1) hserved (by omega)
  refine ⟨evs0 ++ evs1 ++ evs2, ?_, ?_⟩
  · unfold AppFilesDirectoriesRecurseList
    rw [AppFileInfoByPath_fuel (k + 1) fuel0, hstart]
    simp only [hfolder, Bool.not_true, Bool.false_eq_true, if_false]
    unfold appRecurseList
    rw [hr]
    simp only [hrl]
    rw [hwalk]
    simp only [List.nil_append, List.append_assoc]
  · rw [List.filter_append, List.filter_append, filter_isCallback_requests hnc0, hnc1, hcalls]
    rfl

/-- Witness of C14: the walk of the sample store from the root reports
`report.pdf` once, at depth 2. -/
theorem AppFilesDirectoriesRecurseList_callback_calls_witness :
    (AppFileInfoByPath 0 docsClient 0 "/" [] = (some (Except.ok NewAppFileEntityForRootDir), []) ∧
      NewAppFileEntityForRootDir.IsFolder = true ∧
      ListsAs docsClient 0 1 NewAppFileEntityForRootDir docsForest.roots ∧
      Served docsClient 0 1 docsForest ∧ AlwaysContinue (some continueAlways) ∧
      1 + docsForest.height + 1 ≤ 4 ∧
      docsForest.fileCalls 1 =
        [Event.callback 2 "//report.pdf" (some reportWalked) none true]) ∧
    ∃ evs, (AppFilesDirectoriesRecurseList 4 docsClient 0 "/" (some continueAlways) []).2 =
        [] ++ evs ∧
      evs.filter isCallback = docsForest.fileCalls 1 :=
  ⟨⟨rfl, rfl, docsClient_lists_root, docsClient_serves,
      fun f hf _ _ _ _ _ => by rw [← Option.some.inj hf]; rfl, by decide, by decide⟩,
   AppFilesDirectoriesRecurseList_callback_calls docsClient 0 "/" continueAlways [] []
    NewAppFileEntityForRootDir docsForest 1 0 rfl rfl docsClient_lists_root docsClient_serves
    (fun f hf _ _ _ _ _ => by rw [← Option.some.inj hf]; rfl) 4 (by decide)⟩

/-! ## Failed and cancelled walks -/

theorem append_eq_split {α : Type} {a b pre post : List α} {x : α}
    (h : a ++ b = pre ++ x :: post) :
    (∃ post1, a = pre ++ x :: post1 ∧ post = post1 ++ b) ∨
    (∃ pre2, pre = a ++ pre2 ∧ b = pre2 ++ x :: post) := by
  rw [List.append_eq_append_iff] at h
  rcases h with ⟨a', h1, h2⟩ | ⟨c', h1, h2⟩
  · exact Or.inr ⟨a', h1, h2⟩
  · cases c' with
    | nil =>
      refine Or.inr ⟨[], by simpa using h1.symm, ?_⟩
      simpa using h2.symm
    | cons y c'' =>
      simp only [List.cons_append, List.cons.injEq] at h2
      obtain ⟨rfl, h3⟩ := h2
      exact Or.inl ⟨c'', h1, h3⟩

theorem firstPageFails_isFirstPageRequest {p : PanClient} {hist : Trace} {ev : Event}
    (h : firstPageFails p hist ev) : isFirstPageRequest ev = true := by
  obtain ⟨q, rfl, hq, -⟩ := h
  simp [isFirstPageRequest, hq]

theorem firstPageFails_not_callback {p : PanClient} {hist : Trace} {ev : Event}
    (h : firstPageFails p hist ev) : isCallback ev = false := by
  obtain ⟨q, rfl, -, -⟩ := h
  rfl

theorem sentListParam_pageNum (param : AppFileListParam) :
    (sentListParam param).PageNum = param.PageNum := by
  unfold sentListParam
  split_ifs <;> rfl

theorem AppFileList_sent (p : PanClient) (param : AppFileListParam) (tr : Trace) :
    (AppFileList p (sentListParam param) tr).1 = (AppFileList p param tr).1 := by
  unfold AppFileList
  simp only [sentListParam_idem]

/-- The page loop only asks for pages from `page` on. -/
theorem morePages_later_pages (p : PanClient) (ip : AppFileListParam) :
    ∀ (n page : Nat) (acc : List AppFileEntity) (tr : Trace), 2 ≤ page →
      ∃ evs, (morePages p ip n page acc tr).2 = tr ++ evs ∧
        ∀ ev ∈ evs, isFirstPageRequest ev = false := by
  intro n
  induction n with
  | zero => intro page acc tr _; exact ⟨[], by simp [morePages], by simp⟩
  | succ n ih =>
    intro page acc tr hpage
    have h1 := AppFileList_trace p { ip with PageNum := page } tr
    have h2 : isFirstPageRequest
        (Event.listFiles (sentListParam { ip with PageNum := page })) = false := by
      simp only [isFirstPageRequest, sentListParam_pageNum]
      simp
      omega
    unfold morePages
    rcases hr : AppFileList p { ip with PageNum := page } tr with ⟨res, tr1⟩
    rw [hr] at h1
    simp only at h1
    subst h1
    cases res with
    | error err =>
      exact ⟨_, rfl, fun ev hev => by rw [List.mem_singleton] at hev; subst hev; exact h2⟩
    | ok fileResult =>
      obtain ⟨evs2, h3, h4⟩ := ih (page + 1) (acc ++ fileResult.FileList)
        (tr ++ [Event.listFiles (sentListParam { ip with PageNum := page })]) (by omega)
      refine ⟨Event.listFiles (sentListParam { ip with PageNum := page }) :: evs2,
        by simp only [h3, List.append_assoc, List.singleton_append], ?_⟩
      intro ev hev
      rcases List.mem_cons.mp hev with h | h
      · subst h; exact h2
      · exact h4 ev h

theorem AppGetBasicFileInfo_no_page (p : PanClient) (param : AppGetFileInfoParam) (tr : Trace) :
    ∃ evs, (AppGetBasicFileInfo p param tr).2 = tr ++ evs ∧
      ∀ ev ∈ evs, isFirstPageRequest ev = false := by
  unfold AppGetBasicFileInfo
  by_cases h : 0 < param.FamilyId ∧ param.FileId = ""
  · rw [if_pos h]; exact ⟨[], by simp, by simp⟩
  · rw [if_neg h]
    refine ⟨[Event.getFolderInfo param], ?_, fun ev hev => by
      rw [List.mem_singleton] at hev; subst hev; rfl⟩
    simp only
    repeat' split
    all_goals rfl

theorem AppFilePathByIdLoop_no_page (p : PanClient) (familyId : Int) :
    ∀ (fuel : Nat) (fileId fullPath : String) (tr : Trace),
      ∃ evs, (AppFilePathByIdLoop p familyId fuel fileId fullPath tr).2 = tr ++ evs ∧
        ∀ ev ∈ evs, isFirstPageRequest ev = false := by
  intro fuel
  induction fuel with
  | zero => intro _ _ tr; exact ⟨[], by simp [AppFilePathByIdLoop], by simp⟩
  | succ fuel ih =>
    intro fileId fullPath tr
    obtain ⟨evs, h1, h2⟩ := AppGetBasicFileInfo_no_page p { FamilyId := familyId, FileId := fileId } tr
    unfold AppFilePathByIdLoop
    rcases hr : AppGetBasicFileInfo p { FamilyId := familyId, FileId := fileId } tr with ⟨res, tr1⟩
    rw [hr] at h1
    simp only at h1
    subst h1
    cases res with
    | error err => exact ⟨evs, rfl, h2⟩
    | ok fi =>
      simp only
      by_cases hp : fi.Path ≠ ""
      · rw [if_pos hp]; exact ⟨evs, rfl, h2⟩
      · rw [if_neg hp]
        by_cases hd : (startsWithDash fi.FileId || startsWithDash fi.ParentId) = true
        · rw [if_pos hd]; exact ⟨evs, rfl, h2⟩
        · rw [if_neg hd]
          obtain ⟨evs2, h3, h4⟩ := ih fi.ParentId
            (if fullPath = "" then fi.FileName else fi.FileName ++ "/" ++ fullPath) (tr ++ evs)
          refine ⟨evs ++ evs2, by rw [h3, List.append_assoc], ?_⟩
          intro ev hev
          rcases List.mem_append.mp hev with h | h
          · exact h2 ev h
          · exact h4 ev h

/-- A listing fails exactly through its first page: the events of
`AppGetAllFileList` are the request for page 1 followed by events that are not
first-page requests, and when page 1 fails nothing follows it and the listing
returns its error. -/
theorem AppGetAllFileList_shape (fuel : Nat) (p : PanClient) (param : AppFileListParam)
    (tr : Trace) :
    ∃ rest, (AppGetAllFileList fuel p param tr).2 =
        tr ++ Event.listFiles (internalParamOf param) :: rest ∧
      (∀ ev ∈ rest, isFirstPageRequest ev = false) ∧
      (∀ err, (AppFileList p (internalParamOf param) tr).1 = Except.error err →
        rest = [] ∧ (AppGetAllFileList fuel p param tr).1 = some (Except.error err)) := by
  have h1 := AppFileList_trace p (internalParamOf param) tr
  have e1 : sentListParam (internalParamOf param) = internalParamOf param :=
    sentListParam_idem _
  rw [e1] at h1
  unfold AppGetAllFileList
  simp only
  rcases hr : AppFileList p (internalParamOf param) tr with ⟨res, tr1⟩
  rw [hr] at h1
  simp only at h1
  subst h1
  cases res with
  | error err =>
    refine ⟨[], rfl, by simp, fun err2 h => ?_⟩
    simp only [Except.error.injEq] at h
    subst h
    exact ⟨rfl, rfl⟩
  | ok fileResult =>
    simp only
    obtain ⟨evs2, h3, h4⟩ : ∃ evs2,
        (if fileResult.Count > intOfUint (internalParamOf param).PageSize then
          morePages p (internalParamOf param)
            (pageCountOf fileResult.Count (internalParamOf param).PageSize - 1).toNat 2
            fileResult.FileList (tr ++ [Event.listFiles (internalParamOf param)])
        else (fileResult.FileList, tr ++ [Event.listFiles (internalParamOf param)])).2 =
          tr ++ [Event.listFiles (internalParamOf param)] ++ evs2 ∧
        ∀ ev ∈ evs2, isFirstPageRequest ev = false := by
      split_ifs
      · exact morePages_later_pages p _ _ _ _ _ (le_refl _)
      · exact ⟨[], by simp, by simp⟩
    generalize (if fileResult.Count > intOfUint (internalParamOf param).PageSize then
          morePages p (internalParamOf param)
            (pageCountOf fileResult.Count (internalParamOf param).PageSize - 1).toNat 2
            fileResult.FileList (tr ++ [Event.listFiles (internalParamOf param)])
        else (fileResult.FileList, tr ++ [Event.listFiles (internalParamOf param)])) = more
      at h3 ⊢
    have hnot : ∀ (err : ApiError) (Q : Prop),
        (Except.ok fileResult : Except ApiError AppFileListResult) = Except.error err → Q :=
      fun _ _ h => by cases h
    by_cases hc : param.ConstructPath = true
    · rw [if_pos hc]
      obtain ⟨evs3, h5, h6⟩ := AppFilePathByIdLoop_no_page p param.FamilyId fuel param.FileId ""
        more.2
      unfold AppFilePathById
      rcases hq : AppFilePathByIdLoop p param.FamilyId fuel param.FileId "" more.2 with ⟨res, tr3⟩
      rw [hq] at h5
      simp only at h5
      subst h5
      have hall : ∀ ev ∈ evs2 ++ evs3, isFirstPageRequest ev = false := by
        intro ev hev
        rcases List.mem_append.mp hev with h | h
        · exact h4 ev h
        · exact h6 ev h
      have htr : more.2 ++ evs3 = tr ++ Event.listFiles (internalParamOf param) :: (evs2 ++ evs3) := by
        rw [h3]; simp only [List.append_assoc, List.singleton_append, List.cons_append,
          List.nil_append]
      match res with
      | none => exact ⟨_, htr, hall, fun err h => hnot err _ h⟩
      | some (Except.ok _) => exact ⟨_, htr, hall, fun err h => hnot err _ h⟩
      | some (Except.error _) => exact ⟨_, htr, hall, fun err h => hnot err _ h⟩
    · rw [if_neg hc]
      exact ⟨evs2, by rw [h3]; simp only [List.append_assoc, List.singleton_append], h4,
        fun err h => hnot err _ h⟩

theorem ListingFails.nil (p : PanClient) (hist : Trace) (Q : ApiError → Trace → Prop) :
    ListingFails p hist Q [] := by
  intro pre q post err hs
  cases pre <;> simp at hs

theorem ListingFails.mono {p : PanClient} {hist evs : Trace} {Q1 Q : ApiError → Trace → Prop}
    (h1 : ListingFails p hist Q1 evs) (hn : ∀ err post, Q1 err post → Q err post) :
    ListingFails p hist Q evs :=
  fun pre q post err hs hq herr => hn err post (h1 pre q post err hs hq herr)

theorem ListingFails.append_fails {p : PanClient} {hist evs1 evs2 : Trace}
    {Q1 Q : ApiError → Trace → Prop} (h1 : ListingFails p hist Q1 evs1)
    (hn : ∀ err post1, Q1 err post1 → Q err (post1 ++ evs2))
    (h2 : ListingFails p (hist ++ evs1) Q evs2) :
    ListingFails p hist Q (evs1 ++ evs2) := by
  intro pre q post err hs hq herr
  rcases append_eq_split hs with ⟨post1, h, hpost⟩ | ⟨pre2, hp, h⟩
  · rw [hpost]
    exact hn err post1 (h1 pre q post1 err h hq herr)
  · rw [hp, ← List.append_assoc] at herr
    exact h2 pre2 q post err h hq herr

theorem ListingFails.toFails {p : PanClient} {hist evs : Trace} {failed : Prop}
    (h : ListingFails p hist (fun _ _ => failed) evs) : FailsWithListing p hist failed evs := by
  intro pre ev post hs hbad
  obtain ⟨q, rfl, hq, err, herr⟩ := hbad
  exact h pre q post err hs hq herr

/-- A listing whose first-page request fails ends there and returns the error
of that request. -/
theorem AppGetAllFileList_fails (fuel : Nat) (p : PanClient) (param : AppFileListParam)
    (tr : Trace) :
    ∃ evs, (AppGetAllFileList fuel p param tr).2 = tr ++ evs ∧
      (∀ ev ∈ evs, isCallback ev = false) ∧
      ListingFails p tr (fun err post => post = [] ∧
        (AppGetAllFileList fuel p param tr).1 = some (Except.error err)) evs := by
  obtain ⟨rest, h1, h2, h3⟩ := AppGetAllFileList_shape fuel p param tr
  obtain ⟨evs, h4, h5⟩ := AppGetAllFileList_events fuel p param tr
  have hev : evs = Event.listFiles (internalParamOf param) :: rest :=
    List.append_cancel_left (h4.symm.trans h1)
  refine ⟨evs, h4, h5, ?_⟩
  intro pre q post err hsplit hq herr
  rw [hev] at hsplit
  cases pre with
  | nil =>
    simp only [List.nil_append, List.cons.injEq, Event.listFiles.injEq] at hsplit
    rw [← hsplit.1, List.append_nil] at herr
    rw [← hsplit.2]
    exact h3 err herr
  | cons x pre =>
    simp only [List.cons_append, List.cons.injEq] at hsplit
    have hmem : Event.listFiles q ∈ rest := by rw [hsplit.2]; simp
    have := h2 _ hmem
    simp [isFirstPageRequest, hq] at this

theorem getAppFileInfoByPath_fails (fuel : Nat) (p : PanClient) (familyId : Int)
    (pathSlice : List String) :
    ∀ (steps index : Nat) (parent : Option AppFileEntity) (tr : Trace),
      ∃ evs, (getAppFileInfoByPath fuel p familyId pathSlice steps index parent tr).2 = tr ++ evs ∧
        ListingFails p tr (fun err post => post = [] ∧
          (getAppFileInfoByPath fuel p familyId pathSlice steps index parent tr).1 =
            some (Except.error err)) evs := by
  intro steps
  induction steps with
  | zero =>
    intro index parent tr
    exact ⟨[], by simp [getAppFileInfoByPath], ListingFails.nil _ _ _⟩
  | succ steps ih =>
    intro index parent tr
    cases parent with
    | none =>
      unfold getAppFileInfoByPath
      split_ifs
      · exact ⟨[], by simp, ListingFails.nil _ _ _⟩
      · exact ih _ _ _
    | some parentFileInfo =>
      obtain ⟨evs, h1, -, h2⟩ := AppGetAllFileList_fails fuel p
        (searchPathOf familyId parentFileInfo) tr
      unfold getAppFileInfoByPath
      split_ifs with hlen
      · exact ⟨[], by simp, ListingFails.nil _ _ _⟩
      · rcases hr : AppGetAllFileList fuel p (searchPathOf familyId parentFileInfo) tr
          with ⟨res, tr1⟩
        rw [hr] at h1 h2
        simp only at h1 h2
        subst h1
        match res, h2 with
        | none, h2 =>
          simp only
          exact ⟨evs, rfl, h2.mono (fun _ _ h => by cases h.2)⟩
        | some (Except.error err), h2 =>
          simp only
          exact ⟨evs, rfl, h2.mono (fun _ _ h => ⟨h.1, by
            have h3 := h.2
            simp only [Option.some.injEq, Except.error.injEq] at h3
            rw [h3]⟩)⟩
        | some (Except.ok fileResult), h2 =>
          simp only
          split_ifs with h0
          · exact ⟨evs, rfl, h2.mono (fun _ _ h => by cases h.2)⟩
          · cases hfind : fileResult.FileList.find?
                (fun fileEntity => fileEntity.FileName == pathSlice.getD index "") with
            | none =>
              simp only
              exact ⟨evs, rfl, h2.mono (fun _ _ h => by cases h.2)⟩
            | some fileEntity =>
              simp only
              obtain ⟨evs2, h3, h4⟩ := ih (index + 1)
                (some { fileEntity with ParentId := parentFileInfo.FileId,
                                        Path := getPath index pathSlice }) (tr ++ evs)
              exact ⟨evs ++ evs2, by rw [h3, List.append_assoc],
                h2.append_fails (fun _ _ h => by cases h.2) h4⟩

/-- Resolving a path ends at the first listing that fails and returns its
error. -/
theorem AppFileInfoByPath_fails (fuel : Nat) (p : PanClient) (familyId : Int)
    (pathStr : String) (tr : Trace) :
    ∃ evs, (AppFileInfoByPath fuel p familyId pathStr tr).2 = tr ++ evs ∧
      ListingFails p tr (fun err post => post = [] ∧
        (AppFileInfoByPath fuel p familyId pathStr tr).1 = some (Except.error err)) evs := by
  unfold AppFileInfoByPath
  simp only
  split_ifs <;>
    first
    | exact getAppFileInfoByPath_fails _ _ _ _ _ _ _ _
    | exact ⟨[], (List.append_nil _).symm, ListingFails.nil _ _ _⟩

theorem isCallback_of_isFalseCallback {ev : Event} (h : isFalseCallback ev = true) :
    isCallback ev = true := by
  cases ev <;> simp_all [isCallback, isFalseCallback]

theorem isCallback_of_isErrorCallback {ev : Event} (h : isErrorCallback ev = true) :
    isCallback ev = true := by
  cases ev <;> simp_all [isCallback, isErrorCallback]

theorem singleton_eq_split {α : Type} {x y : α} {pre post : List α}
    (h : [x] = pre ++ y :: post) : pre = [] ∧ y = x ∧ post = [] := by
  cases pre with
  | nil =>
    simp only [List.nil_append, List.cons.injEq] at h
    exact ⟨rfl, h.1.symm, h.2.symm⟩
  | cons z pre =>
    simp only [List.cons_append, List.cons.injEq] at h
    have := h.2
    cases pre <;> simp at this

/-- Requests none of whose listings fails hold no event that ends the walk. -/
theorem WalkEnds.ends_of_requests {p : PanClient} {hist evs : Trace} (ok : Option Bool)
    (hreq : ∀ ev ∈ evs, isCallback ev = false) (h1 : FailsWithListing p hist False evs) :
    WalkEnds p hist ok evs := by
  intro pre ev post hs hbad
  have hmem : ev ∈ evs := by rw [hs]; simp
  have hnc := hreq ev hmem
  rcases hbad with h | h | h
  · rw [isCallback_of_isFalseCallback h] at hnc; exact Bool.noConfusion hnc
  · rw [isCallback_of_isErrorCallback h] at hnc; exact Bool.noConfusion hnc
  · exact (h1 pre ev post hs h).elim

theorem WalkEnds.ends_append_requests {p : PanClient} {hist evs1 evs2 : Trace} {ok : Option Bool}
    (hreq : ∀ ev ∈ evs1, isCallback ev = false) (h1 : FailsWithListing p hist False evs1)
    (h2 : WalkEnds p (hist ++ evs1) ok evs2) : WalkEnds p hist ok (evs1 ++ evs2) := by
  intro pre ev post hs hbad
  rcases append_eq_split hs with ⟨post1, h, -⟩ | ⟨pre2, hp, h⟩
  · have := (WalkEnds.ends_of_requests (some true) hreq h1 pre ev post1 h hbad).1
    simp at this
  · rw [hp, ← List.append_assoc] at hbad
    exact h2 pre2 ev post h hbad

theorem WalkEnds.ends_append_true {p : PanClient} {hist evs1 evs2 : Trace} {ok : Option Bool}
    (h1 : WalkEnds p hist (some true) evs1)
    (h2 : WalkEnds p (hist ++ evs1) ok evs2) : WalkEnds p hist ok (evs1 ++ evs2) := by
  intro pre ev post hs hbad
  rcases append_eq_split hs with ⟨post1, h, -⟩ | ⟨pre2, hp, h⟩
  · have := (h1 pre ev post1 h hbad).1
    simp at this
  · rw [hp, ← List.append_assoc] at hbad
    exact h2 pre2 ev post h hbad

/-- A failed round: requests followed by at most one callback call, the flag
left false. -/
theorem WalkEnds.ends_failed {p : PanClient} {hist evs : Trace}
    (hreq : ∀ ev ∈ evs, isCallback ev = false) (last : List Event) (hlast : last.length ≤ 1) :
    WalkEnds p hist (some false) (evs ++ last) := by
  intro pre ev post hs _
  refine ⟨rfl, fun hcb => ?_⟩
  rcases append_eq_split hs with ⟨post1, h, -⟩ | ⟨pre2, -, h⟩
  · have hmem : ev ∈ evs := by rw [h]; simp
    rw [hreq ev hmem] at hcb
    exact Bool.noConfusion hcb
  · match last, hlast, h with
    | [], _, h => cases pre2 <;> simp at h
    | [x], _, h => exact (singleton_eq_split h).2.2
    | _ :: _ :: _, hl, _ => simp at hl

theorem WalkFails.fails_of_requests {p : PanClient} {hist evs : Trace}
    (cb : Option HandleAppFileDirectoryFunc) (ok : Option Bool)
    (hreq : ∀ ev ∈ evs, isCallback ev = false)
    (h1 : ListingFails p hist (fun _ _ => False) evs) : WalkFails p cb hist ok evs :=
  ⟨WalkEnds.ends_of_requests ok hreq h1.toFails, h1.mono (fun _ _ h => h.elim)⟩

theorem WalkFails.fails_append_requests {p : PanClient} {hist evs1 evs2 : Trace}
    {cb : Option HandleAppFileDirectoryFunc} {ok : Option Bool}
    (hreq : ∀ ev ∈ evs1, isCallback ev = false)
    (h1 : ListingFails p hist (fun _ _ => False) evs1)
    (h2 : WalkFails p cb (hist ++ evs1) ok evs2) : WalkFails p cb hist ok (evs1 ++ evs2) :=
  ⟨WalkEnds.ends_append_requests hreq h1.toFails h2.1, h1.append_fails (fun _ _ h => h.elim) h2.2⟩

theorem WalkFails.fails_append_true {p : PanClient} {hist evs1 evs2 : Trace}
    {cb : Option HandleAppFileDirectoryFunc} {ok : Option Bool}
    (h1 : WalkFails p cb hist (some true) evs1)
    (h2 : WalkFails p cb (hist ++ evs1) ok evs2) : WalkFails p cb hist ok (evs1 ++ evs2) := by
  refine ⟨WalkEnds.ends_append_true h1.1 h2.1, ?_⟩
  intro pre q post err hs hq herr
  rcases append_eq_split hs with ⟨post1, h, -⟩ | ⟨pre2, hp, h⟩
  · have := (h1.1 pre _ post1 h (Or.inr (Or.inr ⟨q, rfl, hq, err, herr⟩))).1
    simp at this
  · rw [hp, ← List.append_assoc] at herr
    exact h2.2 pre2 q post err h hq herr

/-- A failed listing or resolution followed by its report to the callback. -/
theorem WalkFails.fails_failed {p : PanClient} {hist evs : Trace}
    {cb : Option HandleAppFileDirectoryFunc} {e0 : ApiError}
    (hreq : ∀ ev ∈ evs, isCallback ev = false)
    (h1 : ListingFails p hist (fun err post => post = [] ∧ err = e0) evs)
    (last : List Event) (hlen : last.length ≤ 1) (hcall : ∀ ev ∈ last, isCallback ev = true)
    (hlast : Reported cb e0 last) :
    WalkFails p cb hist (some false) (evs ++ last) := by
  refine ⟨WalkEnds.ends_failed hreq last hlen, ?_⟩
  intro pre q post err hs hq herr
  rcases append_eq_split hs with ⟨post1, h, hpost⟩ | ⟨pre2, -, h⟩
  · obtain ⟨hp1, he⟩ := h1 pre q post1 err h hq herr
    rw [hpost, hp1, he, List.nil_append]
    exact hlast
  · have := hcall (Event.listFiles q) (by rw [h]; simp)
    simp [isCallback] at this

theorem recurseStep_ends (p : PanClient)
    (recurse : AppFileEntity → Int → List AppFileEntity → Trace →
      Option Bool × List AppFileEntity × Trace)
    (cb : Option HandleAppFileDirectoryFunc) (depth : Int)
    (hrec : ∀ fi d fld tr, ∃ evs, (recurse fi d fld tr).2.2 = tr ++ evs ∧
      WalkFails p cb tr (recurse fi d fld tr).1 evs)
    (fi : AppFileEntity) (fld : List AppFileEntity) (tr : Trace) :
    ∃ evs, (recurseStep recurse cb depth fi fld tr).2.2 = tr ++ evs ∧
      WalkFails p cb tr (recurseStep recurse cb depth fi fld tr).1 evs := by
  unfold recurseStep
  split_ifs
  · exact hrec _ _ _ _
  · cases cb with
    | none =>
      exact ⟨[], by simp, WalkFails.fails_of_requests _ _ (by simp) (ListingFails.nil _ _ _)⟩
    | some f =>
      refine ⟨[Event.callback depth fi.Path (some fi) none
        (f tr depth fi.Path (some fi) none)], rfl, ?_, ?_⟩
      · intro pre ev post hs hbad
        obtain ⟨hpre, hev, hpost⟩ := singleton_eq_split hs
        subst hev
        refine ⟨?_, fun _ => hpost⟩
        rcases hbad with h | h | h
        · simp only [isFalseCallback, Bool.not_eq_true'] at h
          simp only [h]
        · simp [isErrorCallback] at h
        · have := firstPageFails_not_callback h
          simp [isCallback] at this
      · intro pre q post err hs _ _
        have := (singleton_eq_split hs).2.1
        cases this

theorem recurseItems_ends (p : PanClient)
    (recurse : AppFileEntity → Int → List AppFileEntity → Trace →
      Option Bool × List AppFileEntity × Trace)
    (cb : Option HandleAppFileDirectoryFunc) (depth : Int)
    (hrec : ∀ fi d fld tr, ∃ evs, (recurse fi d fld tr).2.2 = tr ++ evs ∧
      WalkFails p cb tr (recurse fi d fld tr).1 evs) :
    ∀ (items fld : List AppFileEntity) (tr : Trace),
      ∃ evs, (recurseItems recurse cb depth items fld tr).2.2 = tr ++ evs ∧
        WalkFails p cb tr (recurseItems recurse cb depth items fld tr).1 evs := by
  intro items
  induction items with
  | nil =>
    intro fld tr
    exact ⟨[], by simp [recurseItems],
      WalkFails.fails_of_requests _ _ (by simp) (ListingFails.nil _ _ _)⟩
  | cons fi rest ih =>
    intro fld tr
    obtain ⟨evs1, hs1, hs2⟩ := recurseStep_ends p recurse cb depth hrec fi fld tr
    unfold recurseItems
    rcases hstep : recurseStep recurse cb depth fi fld tr with ⟨ok1, fld2, tr2⟩
    rw [hstep] at hs1 hs2
    simp only at hs1 hs2
    subst hs1
    match ok1, hs2 with
    | none, hs2 => exact ⟨evs1, rfl, hs2⟩
    | some false, hs2 => exact ⟨evs1, rfl, hs2⟩
    | some true, hs2 =>
      simp only
      obtain ⟨evs2, h3, h4⟩ := ih fld2 (tr ++ evs1)
      exact ⟨evs1 ++ evs2, by rw [h3, List.append_assoc], WalkFails.fails_append_true hs2 h4⟩

/-- The invariant of `appRecurseList`: after a callback that returned `false`,
a callback that reported an error or a listing that failed, the flag is
false; nothing follows such a callback; and a listing that fails is followed
by its report to the callback and nothing else. -/
theorem appRecurseList_ends (p : PanClient) (familyId : Int)
    (cb : Option HandleAppFileDirectoryFunc) :
    ∀ (fuel : Nat) (folderInfo : AppFileEntity) (depth : Int) (fld : List AppFileEntity)
      (tr : Trace),
      ∃ evs, (appRecurseList p familyId cb fuel folderInfo depth fld tr).2.2 = tr ++ evs ∧
        WalkFails p cb tr (appRecurseList p familyId cb fuel folderInfo depth fld tr).1 evs := by
  intro fuel
  induction fuel with
  | zero =>
    intro folderInfo depth fld tr
    exact ⟨[], by simp [appRecurseList],
      WalkFails.fails_of_requests _ _ (by simp) (ListingFails.nil _ _ _)⟩
  | succ fuel ih =>
    intro folderInfo depth fld tr
    obtain ⟨evs1, h1, h2, hf⟩ := AppGetAllFileList_fails (fuel + 1) p
      (flpOf familyId folderInfo) tr
    unfold appRecurseList
    rcases hr : AppGetAllFileList (fuel + 1) p (flpOf familyId folderInfo) tr with ⟨res, tr1⟩
    rw [hr] at h1 hf
    simp only at h1 hf
    subst h1
    match res, hf with
    | none, hf =>
      exact ⟨evs1, rfl, WalkFails.fails_of_requests _ _ h2 (hf.mono (fun _ _ h => by cases h.2))⟩
    | some (Except.error apiError), hf =>
      have hf2 : ListingFails p tr (fun err post => post = [] ∧ err = apiError) evs1 :=
        hf.mono (fun _ _ h => ⟨h.1, by have := h.2; simp at this; exact this.symm⟩)
      cases cb with
      | none =>
        exact ⟨evs1, rfl, by
          simpa using (WalkFails.fails_failed h2 hf2 [] (by simp) (by simp) rfl :
            WalkFails p none tr (some false) (evs1 ++ []))⟩
      | some f =>
        exact ⟨evs1 ++ [Event.callback depth folderInfo.Path none (some apiError)
          (f (tr ++ evs1) depth folderInfo.Path none (some apiError))],
          by simp only [List.append_assoc],
          WalkFails.fails_failed h2 hf2 [_] (by simp) (by simp [isCallback]) ⟨_, _, _, rfl⟩⟩
    | some (Except.ok r), hf =>
      simp only
      obtain ⟨evs2, h3, h4⟩ := recurseItems_ends p (appRecurseList p familyId cb fuel) cb depth
        (fun fi d fld tr => ih fi d fld tr) r.FileList fld (tr ++ evs1)
      exact ⟨evs1 ++ evs2, by rw [h3, List.append_assoc],
        WalkFails.fails_append_requests h2 (hf.mono (fun _ _ h => by cases h.2)) h4⟩

/-- The invariant of a whole walk: a callback reporting an error or a failing
listing makes the walk return nil; so does a callback that returned `false`,
unless the start path is a file; nothing follows a callback reporting an
error; and a listing that fails is followed by its report to the callback and
nothing else. -/
theorem AppFilesDirectoriesRecurseList_ends (fuel : Nat) (p : PanClient)
    (familyId : Int) (path : String) (cb : Option HandleAppFileDirectoryFunc) (tr : Trace) :
    ∃ evs, (AppFilesDirectoriesRecurseList fuel p familyId path cb tr).2 = tr ++ evs ∧
      ListingFails p tr (Reported cb) evs ∧
      ∀ pre ev post, evs = pre ++ ev :: post →
        ((isErrorCallback ev = true ∨ firstPageFails p (tr ++ pre) ev) →
          (AppFilesDirectoriesRecurseList fuel p familyId path cb tr).1 = some none) ∧
        (isFalseCallback ev = true →
          (∀ node tr1, AppFileInfoByPath fuel p familyId path tr =
            (some (Except.ok node), tr1) → node.IsFolder = true) →
          (AppFilesDirectoriesRecurseList fuel p familyId path cb tr).1 = some none) ∧
        (isErrorCallback ev = true → post = []) := by
  obtain ⟨evs1, h1, h2⟩ := AppFileInfoByPath_events fuel p familyId path tr
  obtain ⟨evs1b, h1b, hf⟩ := AppFileInfoByPath_fails fuel p familyId path tr
  have hsame : evs1b = evs1 := List.append_cancel_left (h1b.symm.trans h1)
  subst hsame
  clear h1b
  unfold AppFilesDirectoriesRecurseList
  rcases hr : AppFileInfoByPath fuel p familyId path tr with ⟨res, tr1⟩
  rw [hr] at h1 hf
  simp only at h1 hf
  subst h1
  match res, hf with
  | none, hf =>
    have hw : WalkFails p cb tr none evs1b :=
      WalkFails.fails_of_requests _ _ h2 (hf.mono (fun _ _ h => by cases h.2))
    refine ⟨evs1b, rfl, hw.2, fun pre ev post hs => ⟨fun hb => ?_, fun hb _ => ?_, fun hb => ?_⟩⟩
    · have := (hw.1 pre ev post hs (hb.elim (fun h => Or.inr (Or.inl h))
        (fun h => Or.inr (Or.inr h)))).1
      simp at this
    · have := (hw.1 pre ev post hs (Or.inl hb)).1
      simp at this
    · have := (hw.1 pre ev post hs (Or.inr (Or.inl hb))).1
      simp at this
  | some (Except.error er), hf =>
    have hf2 : ListingFails p tr (fun err post => post = [] ∧ err = er) evs1b :=
      hf.mono (fun _ _ h => ⟨h.1, by have := h.2; simp at this; exact this.symm⟩)
    cases cb with
    | none =>
      have hw : WalkFails p none tr (some false) evs1b := by
        simpa using (WalkFails.fails_failed h2 hf2 [] (by simp) (by simp) rfl :
          WalkFails p none tr (some false) (evs1b ++ []))
      exact ⟨evs1b, rfl, hw.2, fun pre ev post hs => ⟨fun _ => rfl, fun _ _ => rfl, fun hb =>
        (hw.1 pre ev post hs (Or.inr (Or.inl hb))).2 (isCallback_of_isErrorCallback hb)⟩⟩
    | some f =>
      have hw : WalkFails p (some f) tr (some false)
          (evs1b ++ [Event.callback 0 path none (some er)
            (f (tr ++ evs1b) 0 path none (some er))]) :=
        WalkFails.fails_failed h2 hf2 [_] (by simp) (by simp [isCallback]) ⟨_, _, _, rfl⟩
      exact ⟨_, by simp only [List.append_assoc], hw.2, fun pre ev post hs =>
        ⟨fun _ => rfl, fun _ _ => rfl, fun hb =>
          (hw.1 pre ev post hs (Or.inr (Or.inl hb))).2 (isCallback_of_isErrorCallback hb)⟩⟩
  | some (Except.ok targetFileInfo), hf =>
    have hfn : ListingFails p tr (fun _ _ => False) evs1b := hf.mono (fun _ _ h => by cases h.2)
    simp only
    split_ifs with hfolder
    · have hnf : ¬ (∀ node tr1, (some (Except.ok targetFileInfo), tr ++ evs1b) =
          ((some (Except.ok node) : Option (Except ApiError AppFileEntity)), tr1) →
          node.IsFolder = true) := by
        intro h
        have := h targetFileInfo (tr ++ evs1b) rfl
        rw [this] at hfolder
        simp at hfolder
      have hw : WalkFails p cb tr (some true) evs1b := WalkFails.fails_of_requests _ _ h2 hfn
      cases cb with
      | none =>
        refine ⟨evs1b, rfl, hw.2, fun pre ev post hs => ⟨fun hb => ?_,
          fun _ hn => absurd hn hnf, fun hb => ?_⟩⟩
        · have := (hw.1 pre ev post hs (hb.elim (fun h => Or.inr (Or.inl h))
            (fun h => Or.inr (Or.inr h)))).1
          simp at this
        · have := (hw.1 pre ev post hs (Or.inr (Or.inl hb))).1
          simp at this
      | some f =>
        refine ⟨evs1b ++ [Event.callback 0 path (some targetFileInfo) none
            (f (tr ++ evs1b) 0 path (some targetFileInfo) none)],
          by simp only [List.append_assoc], ?_, fun pre ev post hs => ?_⟩
        · intro pre q post err hs hq herr
          rcases append_eq_split hs with ⟨post1, h, -⟩ | ⟨pre2, -, h⟩
          · exact (hfn pre q post1 err h hq herr).elim
          · have := (singleton_eq_split h).2.1
            cases this
        have hcases : (∃ post1, evs1b = pre ++ ev :: post1) ∨
            (ev = Event.callback 0 path (some targetFileInfo) none
              (f (tr ++ evs1b) 0 path (some targetFileInfo) none) ∧ post = []) := by
          rcases append_eq_split hs with ⟨post1, h, -⟩ | ⟨pre2, -, h⟩
          · exact Or.inl ⟨post1, h⟩
          · exact Or.inr ⟨(singleton_eq_split h).2.1, (singleton_eq_split h).2.2⟩
        refine ⟨fun hb => ?_, fun _ hn => absurd hn hnf, fun hb => ?_⟩
        · rcases hcases with ⟨post1, h⟩ | ⟨hev, -⟩
          · have := (hw.1 pre ev post1 h (hb.elim (fun h => Or.inr (Or.inl h))
              (fun h => Or.inr (Or.inr h)))).1
            simp at this
          · subst hev
            rcases hb with h | h
            · simp [isErrorCallback] at h
            · have := firstPageFails_not_callback h
              simp [isCallback] at this
        · rcases hcases with ⟨post1, h⟩ | ⟨-, hpost⟩
          · have := (hw.1 pre ev post1 h (Or.inr (Or.inl hb))).1
            simp at this
          · exact hpost
    · obtain ⟨evs2, h3, h4⟩ := appRecurseList_ends p familyId cb fuel targetFileInfo 1 []
        (tr ++ evs1b)
      rcases hwk : appRecurseList p familyId cb fuel targetFileInfo 1 [] (tr ++ evs1b)
        with ⟨ok, fld, tr2⟩
      rw [hwk] at h3 h4
      simp only at h3 h4
      subst h3
      have hw : WalkFails p cb tr ok (evs1b ++ evs2) := WalkFails.fails_append_requests h2 hfn h4
      match ok, hw with
      | none, hw =>
        refine ⟨evs1b ++ evs2, by simp only [List.append_assoc], hw.2, fun pre ev post hs =>
          ⟨fun hb => ?_, fun hb _ => ?_, fun hb => ?_⟩⟩
        · have := (hw.1 pre ev post hs (hb.elim (fun h => Or.inr (Or.inl h))
            (fun h => Or.inr (Or.inr h)))).1
          simp at this
        · have := (hw.1 pre ev post hs (Or.inl hb)).1
          simp at this
        · have := (hw.1 pre ev post hs (Or.inr (Or.inl hb))).1
          simp at this
      | some false, hw =>
        exact ⟨evs1b ++ evs2, by simp only [List.append_assoc], hw.2, fun pre ev post hs =>
          ⟨fun _ => rfl, fun _ _ => rfl, fun hb =>
            (hw.1 pre ev post hs (Or.inr (Or.inl hb))).2 (isCallback_of_isErrorCallback hb)⟩⟩
      | some true, hw =>
        refine ⟨evs1b ++ evs2, by simp only [List.append_assoc], hw.2, fun pre ev post hs =>
          ⟨fun hb => ?_, fun hb _ => ?_, fun hb => ?_⟩⟩
        · have := (hw.1 pre ev post hs (hb.elim (fun h => Or.inr (Or.inl h))
            (fun h => Or.inr (Or.inr h)))).1
          simp at this
        · have := (hw.1 pre ev post hs (Or.inl hb)).1
          simp at this
        · have := (hw.1 pre ev post hs (Or.inr (Or.inl hb))).1
          simp at this

/-! ## C12 and C13: the result of a cancelled or failed walk -/

/-- C12 fails as stated for a start path that is a file: in the two-file
store, a walk from `/a.txt` whose callback returns `false` at its only
invocation returns the one-element list holding the file, not nil. -/
theorem AppFilesDirectoriesRecurseList_file_start_not_nil :
    AppFilesDirectoriesRecurseList 0 twoFilesClient 0 "/a.txt" (some cancelAlways) [] =
      (some (some [fileAResolved]),
       [Event.listFiles (searchPathOf 0 NewAppFileEntityForRootDir),
        Event.callback 0 "/a.txt" (some fileAResolved) none false]) ∧
    (AppFilesDirectoriesRecurseList 0 twoFilesClient 0 "/a.txt" (some cancelAlways) []).1 ≠
      some none := by
  decide

/-- C12, amended: in every walk (any transport, callback, start path, history
and fuel), if the run holds a listing that fails (the request for its first
page fails), or the start path does not resolve to a file and the run holds a
callback call that returned `false`, the walk returns nil, whatever came
before that event (`pre`). -/
theorem AppFilesDirectoriesRecurseList_nil_on_failure (fuel : Nat) (p : PanClient)
    (familyId : Int) (path : String) (cb : Option HandleAppFileDirectoryFunc)
    (tr pre post : Trace) (ev : Event)
    (h : (AppFilesDirectoriesRecurseList fuel p familyId path cb tr).2 =
      tr ++ (pre ++ ev :: post))
    (hbad : firstPageFails p (tr ++ pre) ev ∨
      (isFalseCallback ev = true ∧
        ∀ node tr1, AppFileInfoByPath fuel p familyId path tr =
          (some (Except.ok node), tr1) → node.IsFolder = true)) :
    (AppFilesDirectoriesRecurseList fuel p familyId path cb tr).1 = some none := by
  obtain ⟨evs, h1, -, hall⟩ := AppFilesDirectoriesRecurseList_ends fuel p familyId path cb tr
  rw [h1] at h
  have hs := List.append_cancel_left h
  rcases hbad with hb | ⟨hb, hfolder⟩
  · exact (hall pre ev post hs).1 (Or.inr hb)
  · exact (hall pre ev post hs).2.1 hb hfolder

/-- Witness of C12: the walk of the two-file store from the root, cancelled at
`a.txt`, returns nil; so does the walk of the store whose folder `docs` cannot
be listed. -/
theorem AppFilesDirectoriesRecurseList_nil_on_failure_witness :
    ((AppFilesDirectoriesRecurseList 2 twoFilesClient 0 "/" (some cancelAlways) []).2 =
      [] ++ ([Event.listFiles (internalParamOf (flpOf 0 NewAppFileEntityForRootDir)),
              Event.getFolderInfo { FileId := "-11" }] ++
        Event.callback 1 "//a.txt" (some fileAWalked) none false :: []) ∧
     (AppFilesDirectoriesRecurseList 2 twoFilesClient 0 "/" (some cancelAlways) []).1 =
       some none) ∧
    ((AppFilesDirectoriesRecurseList 3 brokenDocsClient 0 "/" (some continueAlways) []).2 =
      [] ++ ([Event.listFiles (internalParamOf (flpOf 0 NewAppFileEntityForRootDir)),
              Event.getFolderInfo { FileId := "-11" }] ++
        Event.listFiles (internalParamOf (flpOf 0 docsWalked)) ::
          [Event.callback 2 "//docs" none
            (some (NewApiError ApiCode.ApiCodeFileNotFoundCode "文件不存在")) true]) ∧
     (AppFilesDirectoriesRecurseList 3 brokenDocsClient 0 "/" (some continueAlways) []).1 =
       some none) :=
  ⟨⟨by decide,
    AppFilesDirectoriesRecurseList_nil_on_failure 2 twoFilesClient 0 "/" (some cancelAlways)
      []
      [Event.listFiles (internalParamOf (flpOf 0 NewAppFileEntityForRootDir)),
       Event.getFolderInfo { FileId := "-11" }]
      [] (Event.callback 1 "//a.txt" (some fileAWalked) none false) (by decide)
      (Or.inr ⟨rfl, fun node tr1 hres => by
        have e : AppFileInfoByPath 2 twoFilesClient 0 "/" [] =
            (some (Except.ok NewAppFileEntityForRootDir), []) := by decide
        rw [e] at hres
        simp only [Prod.mk.injEq, Option.some.injEq, Except.ok.injEq] at hres
        rw [← hres.1]
        rfl⟩)⟩,
   ⟨by decide,
    AppFilesDirectoriesRecurseList_nil_on_failure 3 brokenDocsClient 0 "/" (some continueAlways)
      []
      [Event.listFiles (internalParamOf (flpOf 0 NewAppFileEntityForRootDir)),
       Event.getFolderInfo { FileId := "-11" }]
      [Event.callback 2 "//docs" none
        (some (NewApiError ApiCode.ApiCodeFileNotFoundCode "文件不存在")) true]
      (Event.listFiles (internalParamOf (flpOf 0 docsWalked))) (by decide)
      (Or.inl ⟨internalParamOf (flpOf 0 docsWalked), rfl, by decide,
        NewApiError ApiCode.ApiCodeFileNotFoundCode "文件不存在", by decide⟩)⟩⟩

/-- C13: when the listing of the folder `folderInfo` fails with `err` in
`appRecurseList` at depth `depth`, the callback is called once, with `(depth,
folderInfo.Path, nil, err)`, right after the requests of the listing; whatever
it returns, `appRecurseList` returns `false` there, the list of visited nodes
unchanged.  And in every walk with that callback, a listing that fails (the
request for its first page fails, with `e`) is followed by exactly one event,
a call of the callback without a node and with the error `e`: no further
request or callback follows, and the walk returns nil. -/
theorem appRecurseList_reports_listing_failure (p : PanClient) (familyId : Int)
    (f : HandleAppFileDirectoryFunc) (fuel : Nat) (folderInfo : AppFileEntity) (depth : Int)
    (fld : List AppFileEntity) (tr tr1 : Trace) (err : ApiError)
    (h : AppGetAllFileList (fuel + 1) p (flpOf familyId folderInfo) tr =
      (some (Except.error err), tr1)) :
    appRecurseList p familyId (some f) (fuel + 1) folderInfo depth fld tr =
      (some false, fld,
       tr1 ++ [Event.callback depth folderInfo.Path none (some err)
         (f tr1 depth folderInfo.Path none (some err))]) ∧
    ∀ (fuel0 : Nat) (path : String) (tr0 pre post : Trace) (q : AppFileListParam)
      (e : ApiError),
      (AppFilesDirectoriesRecurseList fuel0 p familyId path (some f) tr0).2 =
        tr0 ++ (pre ++ Event.listFiles q :: post) →
      q.PageNum = 1 →
      (AppFileList p q (tr0 ++ pre)).1 = Except.error e →
      (∃ d s ret, post = [Event.callback d s none (some e) ret]) ∧
      (AppFilesDirectoriesRecurseList fuel0 p familyId path (some f) tr0).1 = some none := by
  constructor
  · unfold appRecurseList
    rw [h]
  · intro fuel0 path tr0 pre post q e hrun hq herr
    obtain ⟨evs, h1, hl, hall⟩ :=
      AppFilesDirectoriesRecurseList_ends fuel0 p familyId path (some f) tr0
    rw [h1] at hrun
    have hs := List.append_cancel_left hrun
    exact ⟨hl pre q post e hs hq herr,
      (hall pre _ post hs).1 (Or.inr ⟨q, rfl, hq, e, herr⟩)⟩

/-- Witness of C13: in the store whose folder `docs` cannot be listed, the walk
below `docs` (depth 2) reports the failure once, to a callback that answers
`false`, and returns `false`. -/
theorem appRecurseList_reports_listing_failure_witness :
    AppGetAllFileList 2 brokenDocsClient (flpOf 0 docsWalked) [] =
      (some (Except.error (NewApiError ApiCode.ApiCodeFileNotFoundCode "文件不存在")),
       [Event.listFiles (internalParamOf (flpOf 0 docsWalked))]) ∧
    appRecurseList brokenDocsClient 0 (some cancelAlways) 2 docsWalked 2 [docsWalked] [] =
      (some false, [docsWalked],
       [Event.listFiles (internalParamOf (flpOf 0 docsWalked))] ++
         [Event.callback 2 "//docs" none
           (some (NewApiError ApiCode.ApiCodeFileNotFoundCode "文件不存在")) false]) :=
  ⟨by decide,
   (appRecurseList_reports_listing_failure brokenDocsClient 0 cancelAlways 1 docsWalked 2
     [docsWalked] [] _ _ (by decide)).1⟩

/-! ## Directory creation: the steps of `Mkdir` and `MkdirRecursive` -/

theorem Mkdir_trace (p : WebClient) (parent name : String) (tr : WebTrace) :
    (Mkdir p parent name tr).2 =
      tr ++ [WebEvent.createFolder (if parent = "" then "-11" else parent) name] := by
  unfold Mkdir
  simp only
  repeat' split
  all_goals rfl

/-- The failure `Mkdir` returns together with a decoded result is the one for a
response that decodes with `isNew` false, and only that one. -/
theorem Mkdir_failed_iff (p : WebClient) (parent name : String) (tr : WebTrace)
    (item : MkdirResult) (e : ApiError) :
    (Mkdir p parent name tr).1 = Except.error (some item, e) ↔
      (p.createFolder tr (if parent = "" then "-11" else parent) name =
          Except.ok (Except.ok item) ∧
        item.IsNew = false ∧ e = NewFailedApiError ("文件夹已存在: " ++ name)) := by
  unfold Mkdir
  simp only
  rcases hresp : p.createFolder tr (if parent = "" then "-11" else parent) name
    with err | (err | it)
  · simp
  · simp
  · cases hnew : it.IsNew
    · simp only [hnew, Bool.not_false, if_true, Except.error.injEq, Prod.mk.injEq,
        Option.some.injEq, Except.ok.injEq]
      constructor
      · rintro ⟨h1, h2⟩
        subst h1
        exact ⟨rfl, hnew, h2.symm⟩
      · rintro ⟨h1, -, h3⟩
        exact ⟨h1, h3.symm⟩
    · simp only [hnew, Bool.not_true, Except.ok.injEq]
      constructor
      · intro h
        simp at h
      · rintro ⟨h1, h2, -⟩
        subst h1
        rw [hnew] at h2
        cases h2

/-- A successful `Mkdir`: the response decoded with `isNew` true, and is the
result. -/
theorem Mkdir_ok (p : WebClient) (parent name : String) (tr tr2 : WebTrace)
    (rs : MkdirResult) (h : Mkdir p parent name tr = (Except.ok rs, tr2)) :
    p.createFolder tr (if parent = "" then "-11" else parent) name =
        Except.ok (Except.ok rs) ∧
      rs.IsNew = true ∧
      tr2 = tr ++ [WebEvent.createFolder (if parent = "" then "-11" else parent) name] := by
  have ht := Mkdir_trace p parent name tr
  rw [h] at ht
  refine ⟨?_, ?_, ht⟩
  all_goals
    unfold Mkdir at h
    simp only at h
    rcases hresp : p.createFolder tr (if parent = "" then "-11" else parent) name
      with err | (err | it)
    · rw [hresp] at h; simp at h
    · rw [hresp] at h; simp at h
    · rw [hresp] at h
      cases hnew : it.IsNew
      · simp [hnew] at h
      · simp [hnew] at h
        obtain ⟨h1, -⟩ := h
        subst h1
        first | rfl | exact hnew

theorem MkdirRecursive_root_done (p : WebClient) (ps : List String) (steps : Nat)
    (fp : String) (index : Nat) (tr : WebTrace) (h : index = 0 ∧ ps.length = 1) :
    MkdirRecursive p ps (steps + 1) "" fp index tr =
      (some ({ FileId := "-11", IsNew := false }, none), tr) := by
  unfold MkdirRecursive
  rw [if_pos rfl, if_pos h]
  rfl

theorem MkdirRecursive_root_hop (p : WebClient) (ps : List String) (steps : Nat)
    (fp : String) (index : Nat) (tr : WebTrace) (h : ¬ (index = 0 ∧ ps.length = 1)) :
    MkdirRecursive p ps (steps + 1) "" fp index tr =
      MkdirRecursive p ps steps "-11" "" (index + 1) tr := by
  rw [MkdirRecursive, if_pos rfl, if_neg h]
  rfl

theorem MkdirRecursive_done (p : WebClient) (ps : List String) (steps : Nat)
    (parent fp : String) (index : Nat) (tr : WebTrace) (hpar : parent ≠ "")
    (h : ps.length ≤ index) :
    MkdirRecursive p ps (steps + 1) parent fp index tr =
      (some ({ FileId := parent, IsNew := false }, none), tr) := by
  rw [MkdirRecursive, if_neg hpar, if_pos h]

theorem MkdirRecursive_list_error (p : WebClient) (ps : List String) (steps : Nat)
    (parent fp : String) (index : Nat) (tr : WebTrace) (err : ApiError) (hpar : parent ≠ "")
    (h : ¬ ps.length ≤ index) (hlist : p.FileList tr parent = Except.error err) :
    MkdirRecursive p ps (steps + 1) parent fp index tr =
      (some ({ FileId := "", IsNew := false }, some err),
       tr ++ [WebEvent.fileList parent]) := by
  rw [MkdirRecursive, if_neg hpar, if_neg h, hlist]

theorem MkdirRecursive_hit (p : WebClient) (ps : List String) (steps : Nat)
    (parent fp : String) (index : Nat) (tr : WebTrace) (data : List FileEntity)
    (fe : FileEntity) (hpar : parent ≠ "") (h : ¬ ps.length ≤ index)
    (hlist : p.FileList tr parent = Except.ok data)
    (hfind : data.find? (fun fileEntity => fileEntity.FileName == ps.getD index "") = some fe) :
    MkdirRecursive p ps (steps + 1) parent fp index tr =
      MkdirRecursive p ps steps fe.FileId (fp ++ "/" ++ ps.getD index "") (index + 1)
        (tr ++ [WebEvent.fileList parent]) := by
  rw [MkdirRecursive, if_neg hpar, if_neg h, hlist]
  simp only [hfind]

theorem MkdirRecursive_invalid (p : WebClient) (ps : List String) (steps : Nat)
    (parent fp : String) (index : Nat) (tr : WebTrace) (data : List FileEntity)
    (hpar : parent ≠ "") (h : ¬ ps.length ≤ index)
    (hlist : p.FileList tr parent = Except.ok data)
    (hfind : data.find? (fun fileEntity => fileEntity.FileName == ps.getD index "") = none)
    (hvalid : p.CheckFileNameValid (ps.getD index "") = false) :
    MkdirRecursive p ps (steps + 1) parent fp index tr =
      (some ({ FileId := "", IsNew := false },
         some (NewFailedApiError ("文件夹名不能包含特殊字符：" ++ p.FileNameSpecialChars))),
       tr ++ [WebEvent.fileList parent]) := by
  rw [MkdirRecursive, if_neg hpar, if_neg h, hlist]
  simp only [hfind, hvalid, Bool.not_false, if_true]

theorem MkdirRecursive_mkdir_error (p : WebClient) (ps : List String) (steps : Nat)
    (parent fp : String) (index : Nat) (tr tr2 : WebTrace) (data : List FileEntity)
    (item : Option MkdirResult) (err : ApiError)
    (hpar : parent ≠ "") (h : ¬ ps.length ≤ index)
    (hlist : p.FileList tr parent = Except.ok data)
    (hfind : data.find? (fun fileEntity => fileEntity.FileName == ps.getD index "") = none)
    (hvalid : p.CheckFileNameValid (ps.getD index "") = true)
    (hmk : Mkdir p parent (ps.getD index "") (tr ++ [WebEvent.fileList parent]) =
      (Except.error (item, err), tr2)) :
    MkdirRecursive p ps (steps + 1) parent fp index tr =
      (some ({ FileId := "", IsNew := false }, some err), tr2) := by
  rw [MkdirRecursive, if_neg hpar, if_neg h, hlist]
  simp only [hfind, hvalid, Bool.not_true, hmk]
  rfl

theorem MkdirRecursive_created_last (p : WebClient) (ps : List String) (steps : Nat)
    (parent fp : String) (index : Nat) (tr tr2 : WebTrace) (data : List FileEntity)
    (rs : MkdirResult)
    (hpar : parent ≠ "") (h : ¬ ps.length ≤ index)
    (hlist : p.FileList tr parent = Except.ok data)
    (hfind : data.find? (fun fileEntity => fileEntity.FileName == ps.getD index "") = none)
    (hvalid : p.CheckFileNameValid (ps.getD index "") = true)
    (hmk : Mkdir p parent (ps.getD index "") (tr ++ [WebEvent.fileList parent]) =
      (Except.ok rs, tr2))
    (hlast : ps.length ≤ index + 1) :
    MkdirRecursive p ps (steps + 1) parent fp index tr = (some (rs, none), tr2) := by
  rw [MkdirRecursive, if_neg hpar, if_neg h, hlist]
  simp only [hfind, hvalid, Bool.not_true, hmk]
  rw [if_neg (by simp), if_pos hlast]

theorem MkdirRecursive_created_more (p : WebClient) (ps : List String) (steps : Nat)
    (parent fp : String) (index : Nat) (tr tr2 : WebTrace) (data : List FileEntity)
    (rs : MkdirResult)
    (hpar : parent ≠ "") (h : ¬ ps.length ≤ index)
    (hlist : p.FileList tr parent = Except.ok data)
    (hfind : data.find? (fun fileEntity => fileEntity.FileName == ps.getD index "") = none)
    (hvalid : p.CheckFileNameValid (ps.getD index "") = true)
    (hmk : Mkdir p parent (ps.getD index "") (tr ++ [WebEvent.fileList parent]) =
      (Except.ok rs, tr2))
    (hmore : ¬ ps.length ≤ index + 1) :
    MkdirRecursive p ps (steps + 1) parent fp index tr =
      MkdirRecursive p ps steps rs.FileId (fp ++ "/" ++ ps.getD index "") (index + 1) tr2 := by
  rw [MkdirRecursive, if_neg hpar, if_neg h, hlist]
  simp only [hfind, hvalid, Bool.not_true, hmk]
  rw [if_neg (by simp), if_neg hmore]

/-- A run of `MkdirRecursive` appends its requests to the history. -/
theorem MkdirRecursive_trace (p : WebClient) (ps : List String) :
    ∀ (steps : Nat) (parent fp : String) (index : Nat) (tr : WebTrace),
      ∃ evs, (MkdirRecursive p ps steps parent fp index tr).2 = tr ++ evs := by
  intro steps
  induction steps with
  | zero => intro parent fp index tr; exact ⟨[], by simp [MkdirRecursive]⟩
  | succ steps ih =>
    intro parent fp index tr
    by_cases hpar : parent = ""
    · subst hpar
      by_cases h01 : index = 0 ∧ ps.length = 1
      · rw [MkdirRecursive_root_done p ps steps fp index tr h01]
        exact ⟨[], by simp⟩
      · rw [MkdirRecursive_root_hop p ps steps fp index tr h01]
        exact ih _ _ _ _
    · by_cases hlen : ps.length ≤ index
      · rw [MkdirRecursive_done p ps steps parent fp index tr hpar hlen]
        exact ⟨[], by simp⟩
      · cases hlist : p.FileList tr parent with
        | error err =>
          rw [MkdirRecursive_list_error p ps steps parent fp index tr err hpar hlen hlist]
          exact ⟨_, rfl⟩
        | ok data =>
          cases hfind : data.find? (fun fileEntity => fileEntity.FileName == ps.getD index "") with
          | some fe =>
            rw [MkdirRecursive_hit p ps steps parent fp index tr data fe hpar hlen hlist hfind]
            obtain ⟨evs, he⟩ := ih fe.FileId (fp ++ "/" ++ ps.getD index "") (index + 1)
              (tr ++ [WebEvent.fileList parent])
            exact ⟨WebEvent.fileList parent :: evs, by rw [he]; simp⟩
          | none =>
            cases hvalid : p.CheckFileNameValid (ps.getD index "") with
            | false =>
              rw [MkdirRecursive_invalid p ps steps parent fp index tr data hpar hlen hlist
                hfind hvalid]
              exact ⟨_, rfl⟩
            | true =>
              have htr := Mkdir_trace p parent (ps.getD index "")
                (tr ++ [WebEvent.fileList parent])
              rw [if_neg hpar] at htr
              rcases hmk : Mkdir p parent (ps.getD index "") (tr ++ [WebEvent.fileList parent])
                with ⟨res, tr2⟩
              rw [hmk] at htr
              simp only at htr
              subst htr
              cases res with
              | error ie =>
                rw [MkdirRecursive_mkdir_error p ps steps parent fp index tr _ data ie.1 ie.2
                  hpar hlen hlist hfind hvalid hmk]
                exact ⟨[WebEvent.fileList parent,
                  WebEvent.createFolder parent (ps.getD index "")], by simp⟩
              | ok rs =>
                by_cases hlast : ps.length ≤ index + 1
                · rw [MkdirRecursive_created_last p ps steps parent fp index tr _ data rs
                    hpar hlen hlist hfind hvalid hmk hlast]
                  exact ⟨[WebEvent.fileList parent,
                    WebEvent.createFolder parent (ps.getD index "")], by simp⟩
                · rw [MkdirRecursive_created_more p ps steps parent fp index tr _ data rs
                    hpar hlen hlist hfind hvalid hmk hlast]
                  obtain ⟨evs, he⟩ := ih rs.FileId (fp ++ "/" ++ ps.getD index "") (index + 1)
                    (tr ++ [WebEvent.fileList parent] ++
                      [WebEvent.createFolder parent (ps.getD index "")])
                  exact ⟨WebEvent.fileList parent ::
                    WebEvent.createFolder parent (ps.getD index "") :: evs, by rw [he]; simp⟩

theorem childId_some {p : WebClient} {h : WebTrace} {parent name fid : String}
    (hc : childId p h parent name = some fid) :
    ∃ data fe, p.FileList h parent = Except.ok data ∧
      data.find? (fun fileEntity => fileEntity.FileName == name) = some fe ∧
      fe.FileId = fid := by
  unfold childId at hc
  cases hlist : p.FileList h parent with
  | error err => rw [hlist] at hc; simp at hc
  | ok data =>
    rw [hlist] at hc
    simp only [Option.map_eq_some'] at hc
    obtain ⟨fe, h1, h2⟩ := hc
    exact ⟨data, fe, rfl, h1, h2⟩

theorem childId_of_find {p : WebClient} {h : WebTrace} {parent name : String}
    {data : List FileEntity} {fe : FileEntity}
    (hlist : p.FileList h parent = Except.ok data)
    (hfind : data.find? (fun fileEntity => fileEntity.FileName == name) = some fe) :
    childId p h parent name = some fe.FileId := by
  unfold childId
  rw [hlist]
  simp [hfind]

/-- The second run: after a successful run that ended at `h1`, a run from the
same state at any later history succeeds with one more step of fuel, returns
the same id and sends listings only. -/
theorem MkdirRecursive_again (p : WebClient) (ps : List String)
    (hkeep : KeepsEntries p) (hrefl : ReflectsCreates p)
    (hid : ∀ (h : WebTrace) (parent name : String) (res : MkdirResult),
      p.createFolder h parent name = Except.ok (Except.ok res) → res.FileId ≠ "") :
    ∀ (steps : Nat) (parent fp : String) (index : Nat) (h0 h1 : WebTrace) (r1 : MkdirResult),
      MkdirRecursive p ps steps parent fp index h0 = (some (r1, none), h1) →
      ∀ hx : WebTrace, ∃ evs,
        MkdirRecursive p ps (steps + 1) parent fp index (h1 ++ hx) =
          (some ({ FileId := r1.FileId, IsNew := false }, none), h1 ++ hx ++ evs) ∧
        ∀ ev ∈ evs, isCreateFolder ev = false := by
  intro steps
  induction steps with
  | zero =>
    intro parent fp index h0 h1 r1 hfirst
    simp [MkdirRecursive] at hfirst
  | succ steps ih =>
    intro parent fp index h0 h1 r1 hfirst hx
    by_cases hpar : parent = ""
    · subst hpar
      by_cases h01 : index = 0 ∧ ps.length = 1
      · rw [MkdirRecursive_root_done p ps steps fp index h0 h01] at hfirst
        simp only [Prod.mk.injEq, Option.some.injEq, and_true] at hfirst
        obtain ⟨hr, hh⟩ := hfirst
        subst hr hh
        rw [MkdirRecursive_root_done p ps (steps + 1) fp index _ h01]
        exact ⟨[], by simp, by simp⟩
      · rw [MkdirRecursive_root_hop p ps steps fp index h0 h01] at hfirst
        rw [MkdirRecursive_root_hop p ps (steps + 1) fp index _ h01]
        exact ih _ _ _ _ _ _ hfirst hx
    · by_cases hlen : ps.length ≤ index
      · rw [MkdirRecursive_done p ps steps parent fp index h0 hpar hlen] at hfirst
        simp only [Prod.mk.injEq, Option.some.injEq, and_true] at hfirst
        obtain ⟨hr, hh⟩ := hfirst
        subst hr hh
        rw [MkdirRecursive_done p ps (steps + 1) parent fp index _ hpar hlen]
        exact ⟨[], by simp, by simp⟩
      · cases hlist : p.FileList h0 parent with
        | error err =>
          rw [MkdirRecursive_list_error p ps steps parent fp index h0 err hpar hlen hlist]
            at hfirst
          simp at hfirst
        | ok data =>
          cases hfind : data.find? (fun fileEntity => fileEntity.FileName == ps.getD index "") with
          | some fe =>
            rw [MkdirRecursive_hit p ps steps parent fp index h0 data fe hpar hlen hlist hfind]
              at hfirst
            obtain ⟨evs1, he1⟩ := MkdirRecursive_trace p ps steps fe.FileId
              (fp ++ "/" ++ ps.getD index "") (index + 1) (h0 ++ [WebEvent.fileList parent])
            rw [hfirst] at he1
            simp only at he1
            have hc := hkeep h0 ([WebEvent.fileList parent] ++ evs1 ++ hx) parent
              (ps.getD index "") fe.FileId (childId_of_find hlist hfind)
            have hh : h0 ++ ([WebEvent.fileList parent] ++ evs1 ++ hx) = h1 ++ hx := by
              rw [he1]; simp only [List.append_assoc]
            rw [hh] at hc
            obtain ⟨data2, fe2, hlist2, hfind2, hfid⟩ := childId_some hc
            rw [MkdirRecursive_hit p ps (steps + 1) parent fp index _ data2 fe2 hpar hlen
              hlist2 hfind2, hfid]
            obtain ⟨evs, h3, h4⟩ := ih _ _ _ _ _ _ hfirst (hx ++ [WebEvent.fileList parent])
            refine ⟨WebEvent.fileList parent :: evs, ?_, ?_⟩
            · simp only [← List.append_assoc] at h3 ⊢
              rw [h3]
              simp
            · intro ev hev
              rcases List.mem_cons.mp hev with h | h
              · subst h; rfl
              · exact h4 ev h
          | none =>
            cases hvalid : p.CheckFileNameValid (ps.getD index "") with
            | false =>
              rw [MkdirRecursive_invalid p ps steps parent fp index h0 data hpar hlen hlist
                hfind hvalid] at hfirst
              simp at hfirst
            | true =>
              rcases hmk : Mkdir p parent (ps.getD index "") (h0 ++ [WebEvent.fileList parent])
                with ⟨res, tr2⟩
              cases res with
              | error ie =>
                rw [MkdirRecursive_mkdir_error p ps steps parent fp index h0 _ data ie.1 ie.2
                  hpar hlen hlist hfind hvalid hmk] at hfirst
                simp at hfirst
              | ok rs =>
                obtain ⟨hresp, hnew, htr2⟩ := Mkdir_ok p parent _ _ _ rs hmk
                rw [if_neg hpar] at hresp htr2
                have hrs : rs.FileId ≠ "" := hid _ _ _ _ hresp
                by_cases hlast : ps.length ≤ index + 1
                · rw [MkdirRecursive_created_last p ps steps parent fp index h0 _ data rs
                    hpar hlen hlist hfind hvalid hmk hlast] at hfirst
                  simp only [Prod.mk.injEq, Option.some.injEq, and_true] at hfirst
                  obtain ⟨hr, hh⟩ := hfirst
                  subst hr
                  have hc := hrefl (h0 ++ [WebEvent.fileList parent]) hx parent
                    (ps.getD index "") rs hresp hnew
                  have hh2 : h0 ++ [WebEvent.fileList parent] ++
                      WebEvent.createFolder parent (ps.getD index "") :: hx = h1 ++ hx := by
                    rw [← hh, htr2]; simp
                  rw [hh2] at hc
                  obtain ⟨data2, fe2, hlist2, hfind2, hfid⟩ := childId_some hc
                  rw [MkdirRecursive_hit p ps (steps + 1) parent fp index _ data2 fe2 hpar hlen
                    hlist2 hfind2, hfid,
                    MkdirRecursive_done p ps steps rs.FileId _ (index + 1) _ hrs hlast]
                  exact ⟨[WebEvent.fileList parent], rfl, by simp [isCreateFolder]⟩
                · rw [MkdirRecursive_created_more p ps steps parent fp index h0 _ data rs
                    hpar hlen hlist hfind hvalid hmk hlast] at hfirst
                  obtain ⟨evs1, he1⟩ := MkdirRecursive_trace p ps steps rs.FileId
                    (fp ++ "/" ++ ps.getD index "") (index + 1) tr2
                  rw [hfirst] at he1
                  simp only at he1
                  have hc := hrefl (h0 ++ [WebEvent.fileList parent]) (evs1 ++ hx) parent
                    (ps.getD index "") rs hresp hnew
                  have hh2 : h0 ++ [WebEvent.fileList parent] ++
                      WebEvent.createFolder parent (ps.getD index "") :: (evs1 ++ hx) =
                      h1 ++ hx := by
                    rw [he1, htr2]; simp
                  rw [hh2] at hc
                  obtain ⟨data2, fe2, hlist2, hfind2, hfid⟩ := childId_some hc
                  rw [MkdirRecursive_hit p ps (steps + 1) parent fp index _ data2 fe2 hpar hlen
                    hlist2 hfind2, hfid]
                  obtain ⟨evs, h3, h4⟩ := ih _ _ _ _ _ _ hfirst
                    (hx ++ [WebEvent.fileList parent])
                  refine ⟨WebEvent.fileList parent :: evs, ?_, ?_⟩
                  · simp only [← List.append_assoc] at h3 ⊢
                    rw [h3]
                    simp
                  · intro ev hev
                    rcases List.mem_cons.mp hev with h | h
                    · subst h; rfl
                    · exact h4 ev h

/-! ## The sample store -/

theorem storeChildren_append (h hx : WebTrace) (parent : String) :
    storeChildren (h ++ hx) parent = storeChildren h parent ++ storeChildren hx parent := by
  unfold storeChildren
  rw [List.filterMap_append]

theorem storeChildren_cons_create (hx : WebTrace) (parent name : String) :
    storeChildren (WebEvent.createFolder parent name :: hx) parent =
      { FileId := parent ++ "/" ++ name, FileName := name } :: storeChildren hx parent := by
  unfold storeChildren
  simp [List.filterMap_cons]

theorem storeChildren_id (parent : String) :
    ∀ (h : WebTrace) (fe : FileEntity), fe ∈ storeChildren h parent →
      fe.FileId = parent ++ "/" ++ fe.FileName := by
  intro h
  induction h with
  | nil => intro fe hfe; simp [storeChildren] at hfe
  | cons ev h ih =>
    intro fe hfe
    cases ev with
    | fileList fid =>
      have : storeChildren (WebEvent.fileList fid :: h) parent = storeChildren h parent := by
        simp [storeChildren, List.filterMap_cons]
      rw [this] at hfe
      exact ih fe hfe
    | createFolder par name =>
      by_cases hp : par = parent
      · subst hp
        rw [storeChildren_cons_create] at hfe
        rcases List.mem_cons.mp hfe with h1 | h1
        · subst h1; rfl
        · exact ih fe h1
      · have : storeChildren (WebEvent.createFolder par name :: h) parent =
            storeChildren h parent := by
          simp [storeChildren, List.filterMap_cons, hp]
        rw [this] at hfe
        exact ih fe hfe

theorem slash_name_ne_empty (parent name : String) : parent ++ "/" ++ name ≠ "" := by
  intro h
  have := congrArg String.length h
  simp only [String.length_append] at this
  have h1 : "/".length = 1 := rfl
  have h0 : "".length = 0 := rfl
  omega

theorem childId_storeClient (h : WebTrace) (parent name : String) :
    childId storeClient h parent name =
      ((storeChildren h parent).find? (fun fileEntity => fileEntity.FileName == name)).map
        (fun fe => fe.FileId) := rfl

theorem storeClient_keeps : KeepsEntries storeClient := by
  intro h hx parent name fid hc
  rw [childId_storeClient] at hc ⊢
  simp only [Option.map_eq_some'] at hc ⊢
  obtain ⟨fe, h1, h2⟩ := hc
  refine ⟨fe, ?_, h2⟩
  rw [storeChildren_append, List.find?_append, h1]
  rfl

theorem storeClient_reflects : ReflectsCreates storeClient := by
  intro h hx parent name res hresp _
  have hres : res.FileId = parent ++ "/" ++ name := by
    simp only [storeClient, Except.ok.injEq] at hresp
    rw [← hresp]
  rw [childId_storeClient, hres]
  simp only [Option.map_eq_some']
  cases hfind : (storeChildren (h ++ WebEvent.createFolder parent name :: hx) parent).find?
      (fun fileEntity => fileEntity.FileName == name) with
  | none =>
    rw [List.find?_eq_none] at hfind
    have hmem : ({ FileId := parent ++ "/" ++ name, FileName := name } : FileEntity) ∈
        storeChildren (h ++ WebEvent.createFolder parent name :: hx) parent := by
      rw [storeChildren_append, storeChildren_cons_create]
      simp
    have := hfind _ hmem
    simp at this
  | some fe =>
    refine ⟨fe, rfl, ?_⟩
    have hmem := List.mem_of_find?_eq_some hfind
    have hname := List.find?_some hfind
    simp only [beq_iff_eq] at hname
    rw [storeChildren_id parent _ fe hmem, hname]

theorem storeClient_ids : NonEmptyIds storeClient := by
  constructor
  · intro h parent data fe hlist hfe
    simp only [storeClient, Except.ok.injEq] at hlist
    subst hlist
    rw [storeChildren_id parent _ fe hfe]
    exact slash_name_ne_empty _ _
  · intro h parent name res hresp
    simp only [storeClient, Except.ok.injEq] at hresp
    rw [← hresp]
    exact slash_name_ne_empty _ _

/-! ## C17: running `MkdirRecursive` twice -/

/-- C17: over a store that keeps its entries, whose listings reflect every
earlier successful create and whose ids are not empty, for every path `ps`: if
a first call of `MkdirRecursive` from the root with index 0 succeeds with the
result `r1`, ending at the history `h1`, then a second call with the same path
at any later history returns (with one more step of fuel than the first
needed), succeeds, returns the same `FileId`, and the requests it adds to the
history hold no create-folder request. -/
theorem MkdirRecursive_idempotent (p : WebClient) (ps : List String) (steps : Nat)
    (h0 h1 hx : WebTrace) (r1 : MkdirResult)
    (hkeep : KeepsEntries p) (hrefl : ReflectsCreates p) (hids : NonEmptyIds p)
    (hfirst : MkdirRecursive p ps steps "" "" 0 h0 = (some (r1, none), h1)) :
    ∃ evs,
      MkdirRecursive p ps (steps + 1) "" "" 0 (h1 ++ hx) =
        (some ({ FileId := r1.FileId, IsNew := false }, none), h1 ++ hx ++ evs) ∧
      ∀ ev ∈ evs, isCreateFolder ev = false :=
  MkdirRecursive_again p ps hkeep hrefl hids.2 steps "" "" 0 h0 h1 r1 hfirst hx

/-- Witness of C17: in the sample store, the first call for `/a/b` creates `a`
and `b`; the second call lists the root and `a` and returns the id of `b`. -/
theorem MkdirRecursive_idempotent_witness :
    MkdirRecursive storeClient ["", "a", "b"] 4 "" "" 0 [] =
      (some ({ FileId := "-11/a/b", IsNew := true }, none),
       [WebEvent.fileList "-11", WebEvent.createFolder "-11" "a",
        WebEvent.fileList "-11/a", WebEvent.createFolder "-11/a" "b"]) ∧
    ∃ evs,
      MkdirRecursive storeClient ["", "a", "b"] (4 + 1) "" "" 0
          ([WebEvent.fileList "-11", WebEvent.createFolder "-11" "a",
            WebEvent.fileList "-11/a", WebEvent.createFolder "-11/a" "b"] ++ []) =
        (some ({ FileId := "-11/a/b", IsNew := false }, none),
         [WebEvent.fileList "-11", WebEvent.createFolder "-11" "a",
          WebEvent.fileList "-11/a", WebEvent.createFolder "-11/a" "b"] ++ [] ++ evs) ∧
      ∀ ev ∈ evs, isCreateFolder ev = false :=
  ⟨by decide,
   MkdirRecursive_idempotent storeClient ["", "a", "b"] 4 [] _ []
     { FileId := "-11/a/b", IsNew := true } storeClient_keeps storeClient_reflects
     storeClient_ids (by decide)⟩

/-! ## C18: the result of a successful `MkdirRecursive` -/

theorem EndsAtLast.later {p : WebClient} {ps : List String} {h0 h1 : WebTrace}
    {r : MkdirResult} (pre : WebTrace) (h : EndsAtLast p ps (h0 ++ pre) h1 r) :
    EndsAtLast p ps h0 h1 r := by
  obtain ⟨evs, par, h | h⟩ := h
  · exact ⟨pre ++ evs, par, Or.inl ⟨by rw [h.1]; simp only [List.append_assoc],
      by rw [← List.append_assoc]; exact h.2.1, h.2.2⟩⟩
  · exact ⟨pre ++ evs, par, Or.inr ⟨by rw [h.1]; simp only [List.append_assoc],
      by rw [← List.append_assoc]; exact h.2.1, h.2.2⟩⟩

/-- A successful run from a folder with a non-empty id, at a component of the
path, ends at the last component. -/
theorem MkdirRecursive_ends (p : WebClient) (ps : List String) (hids : NonEmptyIds p) :
    ∀ (steps : Nat) (parent fp : String) (index : Nat) (h0 h1 : WebTrace) (r : MkdirResult),
      parent ≠ "" → index < ps.length →
      MkdirRecursive p ps steps parent fp index h0 = (some (r, none), h1) →
      EndsAtLast p ps h0 h1 r := by
  intro steps
  induction steps with
  | zero =>
    intro parent fp index h0 h1 r _ _ hrun
    simp [MkdirRecursive] at hrun
  | succ steps ih =>
    intro parent fp index h0 h1 r hpar hindex hrun
    have hlen : ¬ ps.length ≤ index := by omega
    cases hlist : p.FileList h0 parent with
    | error err =>
      rw [MkdirRecursive_list_error p ps steps parent fp index h0 err hpar hlen hlist] at hrun
      simp at hrun
    | ok data =>
      cases hfind : data.find? (fun fileEntity => fileEntity.FileName == ps.getD index "") with
      | some fe =>
        rw [MkdirRecursive_hit p ps steps parent fp index h0 data fe hpar hlen hlist hfind]
          at hrun
        have hfe : fe.FileId ≠ "" := hids.1 h0 parent data fe hlist (List.mem_of_find?_eq_some hfind)
        by_cases hlast : ps.length ≤ index + 1
        · cases steps with
          | zero => simp [MkdirRecursive] at hrun
          | succ steps =>
            rw [MkdirRecursive_done p ps steps fe.FileId _ (index + 1) _ hfe hlast] at hrun
            simp only [Prod.mk.injEq, Option.some.injEq, and_true] at hrun
            obtain ⟨hr, hh⟩ := hrun
            subst hr hh
            have hi : ps.length - 1 = index := by omega
            refine ⟨[], parent, Or.inr ⟨by simp, ?_, rfl⟩⟩
            rw [hi, List.append_nil]
            exact childId_of_find hlist hfind
        · exact EndsAtLast.later [WebEvent.fileList parent]
            (ih _ _ _ _ _ _ hfe (by omega) hrun)
      | none =>
        cases hvalid : p.CheckFileNameValid (ps.getD index "") with
        | false =>
          rw [MkdirRecursive_invalid p ps steps parent fp index h0 data hpar hlen hlist
            hfind hvalid] at hrun
          simp at hrun
        | true =>
          rcases hmk : Mkdir p parent (ps.getD index "") (h0 ++ [WebEvent.fileList parent])
            with ⟨res, tr2⟩
          cases res with
          | error ie =>
            rw [MkdirRecursive_mkdir_error p ps steps parent fp index h0 _ data ie.1 ie.2
              hpar hlen hlist hfind hvalid hmk] at hrun
            simp at hrun
          | ok rs =>
            obtain ⟨hresp, hnew, htr2⟩ := Mkdir_ok p parent _ _ _ rs hmk
            rw [if_neg hpar] at hresp htr2
            by_cases hlast : ps.length ≤ index + 1
            · rw [MkdirRecursive_created_last p ps steps parent fp index h0 _ data rs
                hpar hlen hlist hfind hvalid hmk hlast] at hrun
              simp only [Prod.mk.injEq, Option.some.injEq, and_true] at hrun
              obtain ⟨hr, hh⟩ := hrun
              subst hr
              have hi : ps.length - 1 = index := by omega
              refine ⟨[WebEvent.fileList parent], parent, Or.inl ⟨?_, ?_, hnew⟩⟩
              · rw [hi, ← hh, htr2]
              · rw [hi]; exact hresp
            · rw [MkdirRecursive_created_more p ps steps parent fp index h0 _ data rs
                hpar hlen hlist hfind hvalid hmk hlast] at hrun
              have hrs : rs.FileId ≠ "" := hids.2 _ _ _ _ hresp
              have := ih _ _ _ _ _ _ hrs (by omega) hrun
              rw [htr2, List.append_assoc] at this
              exact EndsAtLast.later _ this

/-- C18 fails as stated.  Against a transport in which the folder `a`, created
by the run, already lists `b`, the call for `/a/b` succeeds with `IsNew` false
although it issued a create-folder request.  And against a transport that
lists the folder `a` without an id, the call for `/a` returns the id of the
root, not the (empty) id under which `a` is listed. -/
theorem MkdirRecursive_isNew_after_create :
    (MkdirRecursive raceClient ["", "a", "b"] 4 "" "" 0 [] =
      (some ({ FileId := "x", IsNew := false }, none),
       [WebEvent.fileList "-11", WebEvent.createFolder "-11" "a", WebEvent.fileList "n1"]) ∧
     WebEvent.createFolder "-11" "a" ∈
       (MkdirRecursive raceClient ["", "a", "b"] 4 "" "" 0 []).2) ∧
    (MkdirRecursive emptyIdClient ["", "a"] 4 "" "" 0 [] =
      (some ({ FileId := "-11", IsNew := false }, none), [WebEvent.fileList "-11"]) ∧
     childId emptyIdClient [] "-11" "a" = some "") := by
  decide

/-- C18, amended: against any transport whose ids are not empty, for every
path with at least one component, a successful call of `MkdirRecursive` from
the root with index 0 ends at the last component: either its last request is
the create-folder request for that component, the result is the answer to it
and `IsNew` is true; or its last request is a listing in which that component
is found, `FileId` is the id of the entry found and `IsNew` is false.  So
`IsNew` is true exactly when the last request of the call is a create-folder
request. -/
theorem MkdirRecursive_result (p : WebClient) (ps : List String) (steps : Nat)
    (h0 h1 : WebTrace) (r : MkdirResult) (hids : NonEmptyIds p) (hlen : 2 ≤ ps.length)
    (hrun : MkdirRecursive p ps steps "" "" 0 h0 = (some (r, none), h1)) :
    EndsAtLast p ps h0 h1 r ∧
    (r.IsNew = true ↔ ∃ evs par name, h1 = h0 ++ evs ++ [WebEvent.createFolder par name]) := by
  have hends : EndsAtLast p ps h0 h1 r := by
    cases steps with
    | zero => simp [MkdirRecursive] at hrun
    | succ steps =>
      rw [MkdirRecursive_root_hop p ps steps "" 0 h0 (by omega)] at hrun
      exact MkdirRecursive_ends p ps hids steps "-11" "" 1 h0 h1 r (by decide) (by omega) hrun
  refine ⟨hends, ?_, ?_⟩
  · intro hnew
    obtain ⟨evs, par, h | h⟩ := hends
    · exact ⟨evs, par, _, h.1⟩
    · rw [h.2.2] at hnew
      cases hnew
  · rintro ⟨evs, par, name, hh⟩
    obtain ⟨evs2, par2, h | h⟩ := hends
    · exact h.2.2
    · have := h.1.symm.trans hh
      have := List.append_inj_right' this rfl
      simp at this

/-- Witness of C18: in the sample store the call for `/a/b` ends with the
create-folder request for `b` and returns its answer. -/
theorem MkdirRecursive_result_witness :
    MkdirRecursive storeClient ["", "a", "b"] 4 "" "" 0 [] =
      (some ({ FileId := "-11/a/b", IsNew := true }, none),
       [WebEvent.fileList "-11", WebEvent.createFolder "-11" "a",
        WebEvent.fileList "-11/a", WebEvent.createFolder "-11/a" "b"]) ∧
    (EndsAtLast storeClient ["", "a", "b"] []
        [WebEvent.fileList "-11", WebEvent.createFolder "-11" "a",
         WebEvent.fileList "-11/a", WebEvent.createFolder "-11/a" "b"]
        { FileId := "-11/a/b", IsNew := true } ∧
      ((({ FileId := "-11/a/b", IsNew := true } : MkdirResult).IsNew = true) ↔
        ∃ evs par name,
          [WebEvent.fileList "-11", WebEvent.createFolder "-11" "a",
           WebEvent.fileList "-11/a", WebEvent.createFolder "-11/a" "b"] =
            [] ++ evs ++ [WebEvent.createFolder par name])) :=
  ⟨by decide,
   MkdirRecursive_result storeClient ["", "a", "b"] 4 [] _ _ storeClient_ids (by decide)
     (by decide)⟩

/-! ## C19 and C20: invalid names and folders that exist already -/

theorem find?_none_of_absent {data : List FileEntity} {name : String}
    (habsent : ∀ fe ∈ data, fe.FileName ≠ name) :
    data.find? (fun fileEntity => fileEntity.FileName == name) = none := by
  rw [List.find?_eq_none]
  intro fe hfe
  simpa using habsent fe hfe

/-- C19: when `MkdirRecursive` is at the component `index` of the path, below
the folder `parent`, the listing of `parent` succeeds without an entry of that
name, and the name fails the validity check, the call returns the invalid-name
failure (`NewFailedApiError` of the fixed text followed by the forbidden
characters) with an empty `FileId` and `IsNew` false, whatever fuel is left.
The listing of `parent` is the only request it adds to the history: no
create-folder request for the component, and no request for a deeper
component. -/
theorem MkdirRecursive_invalid_name (p : WebClient) (ps : List String) (steps : Nat)
    (parent fp : String) (index : Nat) (tr : WebTrace) (data : List FileEntity)
    (hpar : parent ≠ "") (hindex : index < ps.length)
    (hlist : p.FileList tr parent = Except.ok data)
    (habsent : ∀ fe ∈ data, fe.FileName ≠ ps.getD index "")
    (hinvalid : p.CheckFileNameValid (ps.getD index "") = false) :
    MkdirRecursive p ps (steps + 1) parent fp index tr =
      (some ({ FileId := "", IsNew := false },
         some (NewFailedApiError ("文件夹名不能包含特殊字符：" ++ p.FileNameSpecialChars))),
       tr ++ [WebEvent.fileList parent]) :=
  MkdirRecursive_invalid p ps steps parent fp index tr data hpar (by omega) hlist
    (find?_none_of_absent habsent) hinvalid

/-- Witness of C19: in the sample store the call for `/a/b?` creates `a`,
lists it, and stops at the invalid name `b?`; the call for the component `b?`
below `a` is the one the theorem describes. -/
theorem MkdirRecursive_invalid_name_witness :
    MkdirRecursive storeClient ["", "a", "b?"] 4 "" "" 0 [] =
      (some ({ FileId := "", IsNew := false },
         some (NewFailedApiError "文件夹名不能包含特殊字符：?")),
       [WebEvent.fileList "-11", WebEvent.createFolder "-11" "a", WebEvent.fileList "-11/a"]) ∧
    MkdirRecursive storeClient ["", "a", "b?"] (1 + 1) "-11/a" "/a" 2
        [WebEvent.fileList "-11", WebEvent.createFolder "-11" "a"] =
      (some ({ FileId := "", IsNew := false },
         some (NewFailedApiError
           ("文件夹名不能包含特殊字符：" ++ storeClient.FileNameSpecialChars))),
       [WebEvent.fileList "-11", WebEvent.createFolder "-11" "a"] ++
         [WebEvent.fileList "-11/a"]) :=
  ⟨by decide,
   MkdirRecursive_invalid_name storeClient ["", "a", "b?"] 1 "-11/a" "/a" 2
     [WebEvent.fileList "-11", WebEvent.createFolder "-11" "a"] [] (by decide) (by decide)
     rfl (by simp) (by decide)⟩

/-- C20 fails as stated: when the create-folder response decodes with `isNew`
false, the failure `Mkdir` returns has the generic code `ApiCodeFailed`, the
code a transport failure of the same request gets as well, not the code
`ApiCodeFileAlreadyExisted`. -/
theorem Mkdir_existing_not_already_existed :
    (Mkdir existsClient "" "a" []).1 =
      Except.error (some { FileId := "x1", IsNew := false },
        { Code := ApiCode.ApiCodeFailed, Err := "文件夹已存在: a" }) ∧
    (Mkdir offlineClient "" "a" []).1 =
      Except.error (none, { Code := ApiCode.ApiCodeFailed, Err := "connection reset" }) ∧
    ApiCode.ApiCodeFailed ≠ ApiCode.ApiCodeFileAlreadyExisted := by
  decide

/-- C20, amended: when `MkdirRecursive` is at a component that is absent from
the listing of `parent` and has a valid name, and the create-folder response
decodes to `item` with `isNew` false, `Mkdir` returns `item` (so the `FileId`
of the response) together with a failure of the generic code `ApiCodeFailed`
whose message is `文件夹已存在: ` followed by the name; it returns a result
together with a failure in that case only; and `MkdirRecursive` returns that
failure, with an empty `FileId` and `IsNew` false, right after the
create-folder request. -/
theorem Mkdir_existing_folder (p : WebClient) (ps : List String) (steps : Nat)
    (parent fp : String) (index : Nat) (tr : WebTrace) (data : List FileEntity)
    (item : MkdirResult)
    (hpar : parent ≠ "") (hindex : index < ps.length)
    (hlist : p.FileList tr parent = Except.ok data)
    (habsent : ∀ fe ∈ data, fe.FileName ≠ ps.getD index "")
    (hvalid : p.CheckFileNameValid (ps.getD index "") = true)
    (hresp : p.createFolder (tr ++ [WebEvent.fileList parent]) parent (ps.getD index "") =
      Except.ok (Except.ok item))
    (hnew : item.IsNew = false) :
    Mkdir p parent (ps.getD index "") (tr ++ [WebEvent.fileList parent]) =
      (Except.error (some item, NewFailedApiError ("文件夹已存在: " ++ ps.getD index "")),
       tr ++ [WebEvent.fileList parent] ++
         [WebEvent.createFolder parent (ps.getD index "")]) ∧
    (NewFailedApiError ("文件夹已存在: " ++ ps.getD index "")).Code = ApiCode.ApiCodeFailed ∧
    (∀ (par name : String) (h : WebTrace) (it : MkdirResult) (e : ApiError),
      (Mkdir p par name h).1 = Except.error (some it, e) ↔
        (p.createFolder h (if par = "" then "-11" else par) name =
            Except.ok (Except.ok it) ∧
          it.IsNew = false ∧ e = NewFailedApiError ("文件夹已存在: " ++ name))) ∧
    MkdirRecursive p ps (steps + 1) parent fp index tr =
      (some ({ FileId := "", IsNew := false },
         some (NewFailedApiError ("文件夹已存在: " ++ ps.getD index ""))),
       tr ++ [WebEvent.fileList parent] ++
         [WebEvent.createFolder parent (ps.getD index "")]) := by
  have hmk : Mkdir p parent (ps.getD index "") (tr ++ [WebEvent.fileList parent]) =
      (Except.error (some item, NewFailedApiError ("文件夹已存在: " ++ ps.getD index "")),
       tr ++ [WebEvent.fileList parent] ++
         [WebEvent.createFolder parent (ps.getD index "")]) := by
    have h1 := (Mkdir_failed_iff p parent (ps.getD index "") (tr ++ [WebEvent.fileList parent])
      item (NewFailedApiError ("文件夹已存在: " ++ ps.getD index ""))).2
      ⟨by rw [if_neg hpar]; exact hresp, hnew, rfl⟩
    have h2 := Mkdir_trace p parent (ps.getD index "") (tr ++ [WebEvent.fileList parent])
    rw [if_neg hpar] at h2
    exact Prod.ext h1 h2
  exact ⟨hmk, rfl, fun par name h it e => Mkdir_failed_iff p par name h it e,
    MkdirRecursive_mkdir_error p ps steps parent fp index tr _ data (some item) _ hpar
      (by omega) hlist (find?_none_of_absent habsent) hvalid hmk⟩

/-- Witness of C20: creating `/a` against the transport that answers `isNew`
false. -/
theorem Mkdir_existing_folder_witness :
    existsClient.createFolder ([] ++ [WebEvent.fileList "-11"]) "-11" "a" =
      Except.ok (Except.ok { FileId := "x1", IsNew := false }) ∧
    MkdirRecursive existsClient ["", "a"] (0 + 1) "-11" "" 1 [] =
      (some ({ FileId := "", IsNew := false },
         some (NewFailedApiError ("文件夹已存在: " ++ "a"))),
       [] ++ [WebEvent.fileList "-11"] ++ [WebEvent.createFolder "-11" "a"]) :=
  ⟨rfl,
   (Mkdir_existing_folder existsClient ["", "a"] 0 "-11" "" 1 [] []
     { FileId := "x1", IsNew := false } (by decide) (by decide) rfl (by simp) rfl rfl
     rfl).2.2.2⟩

/-! ## C25: the parent id of the listed entries -/

/-- C25: for every successful call of `AppGetAllFileList` (any transport,
history, fuel and realm), every item of the returned list has `ParentId` equal
to the folder id `param.FileId` the caller supplied, whatever the server
reported and whether or not path construction is asked for or succeeds. -/
theorem AppGetAllFileList_parent_id (fuel : Nat) (p : PanClient) (param : AppFileListParam)
    (tr tr1 : Trace) (r : AppFileListResult)
    (h : AppGetAllFileList fuel p param tr = (some (Except.ok r), tr1)) :
    ∀ fi ∈ r.FileList, fi.ParentId = param.FileId := by
  unfold AppGetAllFileList at h
  simp only at h
  rcases hfirst : AppFileList p (internalParamOf param) tr with ⟨res, tr0⟩
  rw [hfirst] at h
  cases res with
  | error err => simp at h
  | ok fileResult =>
    simp only at h
    generalize (if fileResult.Count > intOfUint (internalParamOf param).PageSize then
          morePages p (internalParamOf param)
            (pageCountOf fileResult.Count (internalParamOf param).PageSize - 1).toNat 2
            fileResult.FileList tr0
        else (fileResult.FileList, tr0)) = more at h
    by_cases hc : param.ConstructPath = true
    · rw [if_pos hc] at h
      rcases hq : AppFilePathById fuel p param.FamilyId param.FileId more.2 with ⟨res, tr3⟩
      rw [hq] at h
      match res, h with
      | none, h => simp at h
      | some (Except.ok parentFullPath), h =>
        simp only [Prod.mk.injEq, Option.some.injEq, Except.ok.injEq] at h
        intro fi hfi
        rw [← h.1] at hfi
        simp only [List.mem_map] at hfi
        obtain ⟨a, -, rfl⟩ := hfi
        rfl
      | some (Except.error _), h =>
        simp only [Prod.mk.injEq, Option.some.injEq, Except.ok.injEq] at h
        intro fi hfi
        rw [← h.1] at hfi
        simp only [List.mem_map] at hfi
        obtain ⟨a, -, rfl⟩ := hfi
        rfl
    · rw [if_neg hc] at h
      simp only [Prod.mk.injEq, Option.some.injEq, Except.ok.injEq] at h
      intro fi hfi
      rw [← h.1] at hfi
      simp only [List.mem_map] at hfi
      obtain ⟨a, -, rfl⟩ := hfi
      rfl

/-- Witness of C25: in the shared realm the root id `-11` goes out as the empty
id and the server reports the parent `srv`; the entry comes back with
`ParentId` `-11`, path construction asked for and failing. -/
theorem AppGetAllFileList_parent_id_witness :
    AppGetAllFileList 1 familyClient
        { NewAppFileListParam with FamilyId := 7, ConstructPath := true } [] =
      (some (Except.ok
        { Count := 1,
          FileList := [{ FileId := "a1", FileName := "a.txt", ParentId := "-11" }] }),
       [Event.listFiles { NewAppFileListParam with FamilyId := 7, FileId := "" },
        Event.getFolderInfo { FamilyId := 7, FileId := "-11" }]) ∧
    ∀ fi ∈ ([{ FileId := "a1", FileName := "a.txt", ParentId := "-11" }] : List AppFileEntity),
      fi.ParentId = "-11" :=
  ⟨by decide,
   AppGetAllFileList_parent_id 1 familyClient
     { NewAppFileListParam with FamilyId := 7, ConstructPath := true } []
     [Event.listFiles { NewAppFileListParam with FamilyId := 7, FileId := "" },
      Event.getFolderInfo { FamilyId := 7, FileId := "-11" }]
     { Count := 1, FileList := [{ FileId := "a1", FileName := "a.txt", ParentId := "-11" }] }
     (by decide)⟩

/-! ## C26 and C27: failure and termination of `AppFilePathById` -/

theorem AppGetBasicFileInfo_sent (p : PanClient) (param : AppGetFileInfoParam) (tr : Trace)
    (h : ¬ (0 < param.FamilyId ∧ param.FileId = "")) :
    (AppGetBasicFileInfo p param tr).2 = tr ++ [Event.getFolderInfo param] := by
  unfold AppGetBasicFileInfo
  rw [if_neg h]
  simp only
  repeat' split
  all_goals rfl

theorem AppGetBasicFileInfo_unsent (p : PanClient) (param : AppGetFileInfoParam) (tr : Trace)
    (h : 0 < param.FamilyId ∧ param.FileId = "") :
    AppGetBasicFileInfo p param tr = (Except.error (NewFailedApiError "FileId为空"), tr) := by
  unfold AppGetBasicFileInfo
  rw [if_pos h]

/-- The kind of a failed metadata fetch: `NotFound` exactly when the server
answered the error code `FileNotFound`. -/
theorem AppGetBasicFileInfo_error_kind (p : PanClient) (param : AppGetFileInfoParam)
    (tr : Trace) (e : ApiError) (hsent : ¬ (0 < param.FamilyId ∧ param.FileId = ""))
    (h : (AppGetBasicFileInfo p param tr).1 = Except.error e) :
    e.Code = ApiCode.ApiCodeFileNotFoundCode ↔
      ∃ body, p.getFolderInfo tr param = Except.ok body ∧ body.code = "FileNotFound" := by
  unfold AppGetBasicFileInfo at h
  rw [if_neg hsent] at h
  simp only at h
  cases hresp : p.getFolderInfo tr param with
  | error err1 =>
    rw [hresp] at h
    simp only [Except.error.injEq] at h
    subst h
    simp [NewApiErrorWithError, NewApiError]
  | ok body =>
    rw [hresp] at h
    simp only at h
    by_cases hcode : body.code ≠ ""
    · rw [if_pos hcode] at h
      by_cases hnf : body.code = "FileNotFound"
      · rw [if_pos hnf] at h
        simp only [Except.error.injEq] at h
        subst h
        simp [NewApiError, hnf]
      · rw [if_neg hnf] at h
        simp only [Except.error.injEq] at h
        subst h
        simp [NewFailedApiError, NewApiError, hnf]
    · rw [if_neg hcode] at h
      have hempty : body.code = "" := by
        by_contra hne
        exact hcode hne
      cases hdec : body.decoded with
      | error err =>
        rw [hdec] at h
        simp only [Except.error.injEq] at h
        subst h
        simp [NewApiErrorWithError, NewApiError, hempty]
      | ok item =>
        rw [hdec] at h
        simp only at h
        split_ifs at h

/-- The loop of `AppFilePathById` ends at the first metadata fetch that fails
and returns its error. -/
theorem AppFilePathByIdLoop_fails (p : PanClient) (familyId : Int) :
    ∀ (fuel : Nat) (fileId fullPath : String) (tr : Trace),
      ∃ evs, (AppFilePathByIdLoop p familyId fuel fileId fullPath tr).2 = tr ++ evs ∧
        ∀ pre q post, evs = pre ++ Event.getFolderInfo q :: post →
          ¬ (0 < q.FamilyId ∧ q.FileId = "") ∧
          ∀ e, (AppGetBasicFileInfo p q (tr ++ pre)).1 = Except.error e →
            post = [] ∧
            (AppFilePathByIdLoop p familyId fuel fileId fullPath tr).1 =
              some (Except.error e) := by
  intro fuel
  induction fuel with
  | zero =>
    intro fileId fullPath tr
    refine ⟨[], by simp [AppFilePathByIdLoop], ?_⟩
    intro pre q post hs
    cases pre <;> simp at hs
  | succ fuel ih =>
    intro fileId fullPath tr
    by_cases hsent : 0 < familyId ∧ fileId = ""
    · have hun := AppGetBasicFileInfo_unsent p { FamilyId := familyId, FileId := fileId } tr hsent
      unfold AppFilePathByIdLoop
      rw [hun]
      refine ⟨[], by simp, ?_⟩
      intro pre q post hs
      cases pre <;> simp at hs
    · have hs1 := AppGetBasicFileInfo_sent p { FamilyId := familyId, FileId := fileId } tr hsent
      unfold AppFilePathByIdLoop
      rcases hr : AppGetBasicFileInfo p { FamilyId := familyId, FileId := fileId } tr
        with ⟨res, tr1⟩
      rw [hr] at hs1
      simp only at hs1
      subst hs1
      have hfirst : ∀ (out : Option (Except ApiError String)),
          (∀ e, res = Except.error e → out = some (Except.error e)) →
          ∀ pre q post,
            [Event.getFolderInfo { FamilyId := familyId, FileId := fileId }] =
              pre ++ Event.getFolderInfo q :: post →
            ¬ (0 < q.FamilyId ∧ q.FileId = "") ∧
            ∀ e, (AppGetBasicFileInfo p q (tr ++ pre)).1 = Except.error e →
              post = [] ∧ out = some (Except.error e) := by
        intro out hout pre q post hs
        obtain ⟨hpre, hq, hpost⟩ := singleton_eq_split hs
        simp only [Event.getFolderInfo.injEq] at hq
        subst hq hpre
        refine ⟨hsent, fun e he => ⟨hpost, hout e ?_⟩⟩
        rw [List.append_nil, hr] at he
        exact he
      cases res with
      | error err =>
        exact ⟨_, rfl, hfirst _ (fun e he => by cases he; rfl)⟩
      | ok fi =>
        simp only
        by_cases hp : fi.Path ≠ ""
        · rw [if_pos hp]
          exact ⟨_, rfl, hfirst _ (fun e he => by cases he)⟩
        · rw [if_neg hp]
          by_cases hd : (startsWithDash fi.FileId || startsWithDash fi.ParentId) = true
          · rw [if_pos hd]
            exact ⟨_, rfl, hfirst _ (fun e he => by cases he)⟩
          · rw [if_neg hd]
            obtain ⟨evs2, h3, h4⟩ := ih fi.ParentId
              (if fullPath = "" then fi.FileName else fi.FileName ++ "/" ++ fullPath)
              (tr ++ [Event.getFolderInfo { FamilyId := familyId, FileId := fileId }])
            refine ⟨Event.getFolderInfo { FamilyId := familyId, FileId := fileId } :: evs2,
              by rw [h3]; simp, ?_⟩
            intro pre q post hs
            cases pre with
            | nil =>
              simp only [List.nil_append, List.cons.injEq, Event.getFolderInfo.injEq] at hs
              obtain ⟨hq, -⟩ := hs
              subst hq
              refine ⟨hsent, fun e he => ?_⟩
              rw [List.append_nil, hr] at he
              cases he
            | cons x pre =>
              simp only [List.cons_append, List.cons.injEq] at hs
              obtain ⟨hx, hs2⟩ := hs
              subst hx
              have := h4 pre q post hs2
              simp only [List.append_assoc, List.singleton_append] at this
              exact this

/-- C26 fails as stated: when the metadata fetch fails in transport, is refused
with a server error code other than `FileNotFound`, or does not decode,
`AppFilePathById` returns an error of the generic kind `ApiCodeFailed`, not of
the kind `ApiCodeFileNotFoundCode`. -/
theorem AppFilePathById_failure_not_always_not_found :
    (AppFilePathById 3 noMetadataClient 0 "f1" []).1 =
      some (Except.error { Code := ApiCode.ApiCodeFailed, Err := "connection reset" }) ∧
    (AppFilePathById 3 familyClient 0 "f1" []).1 =
      some (Except.error { Code := ApiCode.ApiCodeFailed, Err := "请求出错" }) ∧
    (AppFilePathById 3 garbledClient 0 "f1" []).1 =
      some (Except.error { Code := ApiCode.ApiCodeFailed, Err := "EOF" }) ∧
    ApiCode.ApiCodeFailed ≠ ApiCode.ApiCodeFileNotFoundCode := by
  decide

/-- C26, amended: whenever a metadata fetch performed by `AppFilePathById`
fails, whether the first or an intermediate one, it is the last request of the
run and `AppFilePathById` returns the empty path together with the error of
that fetch, unchanged: an error of kind `NotFound`
(`ApiCodeFileNotFoundCode`) exactly when the server answered the error code
`FileNotFound`. -/
theorem AppFilePathById_returns_fetch_error (fuel : Nat) (p : PanClient) (familyId : Int)
    (fileId : String) (tr pre post : Trace) (q : AppGetFileInfoParam) (e : ApiError)
    (h : (AppFilePathById fuel p familyId fileId tr).2 =
      tr ++ (pre ++ Event.getFolderInfo q :: post))
    (hfail : (AppGetBasicFileInfo p q (tr ++ pre)).1 = Except.error e) :
    post = [] ∧
    (AppFilePathById fuel p familyId fileId tr).1 = some (Except.error e) ∧
    (e.Code = ApiCode.ApiCodeFileNotFoundCode ↔
      ∃ body, p.getFolderInfo (tr ++ pre) q = Except.ok body ∧ body.code = "FileNotFound") := by
  obtain ⟨evs, h1, h2⟩ := AppFilePathByIdLoop_fails p familyId fuel fileId "" tr
  unfold AppFilePathById at h ⊢
  rw [h1] at h
  obtain ⟨hsent, h3⟩ := h2 pre q post (List.append_cancel_left h)
  obtain ⟨hpost, hres⟩ := h3 e hfail
  exact ⟨hpost, hres, AppGetBasicFileInfo_error_kind p q (tr ++ pre) e hsent hfail⟩

/-- Witness of C26: in the sample tree with the record of `docs` missing on the
server, the lookup from `report.pdf` fails at its second fetch, with the kind
`NotFound`. -/
theorem AppFilePathById_returns_fetch_error_witness :
    ((AppFilePathById 3 reportOnlyClient 0 "f2" []).2 =
        [] ++ ([Event.getFolderInfo { FileId := "f2" }] ++
          Event.getFolderInfo { FileId := "f1" } :: []) ∧
      (AppGetBasicFileInfo reportOnlyClient { FileId := "f1" }
        ([] ++ [Event.getFolderInfo { FileId := "f2" }])).1 =
        Except.error (NewApiError ApiCode.ApiCodeFileNotFoundCode "文件不存在")) ∧
    (([] : Trace) = [] ∧
      (AppFilePathById 3 reportOnlyClient 0 "f2" []).1 =
        some (Except.error (NewApiError ApiCode.ApiCodeFileNotFoundCode "文件不存在")) ∧
      ((NewApiError ApiCode.ApiCodeFileNotFoundCode "文件不存在").Code =
          ApiCode.ApiCodeFileNotFoundCode ↔
        ∃ body, reportOnlyClient.getFolderInfo ([] ++ [Event.getFolderInfo { FileId := "f2" }])
            { FileId := "f1" } = Except.ok body ∧ body.code = "FileNotFound")) :=
  ⟨⟨by decide, by decide⟩,
   AppFilePathById_returns_fetch_error 3 reportOnlyClient 0 "f2" []
     [Event.getFolderInfo { FileId := "f2" }] [] { FileId := "f1" }
     (NewApiError ApiCode.ApiCodeFileNotFoundCode "文件不存在") (by decide) (by decide)⟩

theorem AppGetBasicFileInfo_ok_sent (p : PanClient) (param : AppGetFileInfoParam)
    (tr tr1 : Trace) (fi : AppGetFileInfoResult)
    (h : AppGetBasicFileInfo p param tr = (Except.ok fi, tr1)) :
    tr1 = tr ++ [Event.getFolderInfo param] := by
  by_cases hsent : 0 < param.FamilyId ∧ param.FileId = ""
  · rw [AppGetBasicFileInfo_unsent p param tr hsent] at h
    simp at h
  · have := AppGetBasicFileInfo_sent p param tr hsent
    rw [h] at this
    exact this

/-- One round of the loop of `AppFilePathById` on a record that ends it. -/
theorem AppFilePathByIdLoop_last (p : PanClient) (familyId : Int) (fuel : Nat)
    (fileId fullPath : String) (tr tr1 : Trace) (fi : AppGetFileInfoResult)
    (hfetch : AppGetBasicFileInfo p { FamilyId := familyId, FileId := fileId } tr =
      (Except.ok fi, tr1))
    (hend : endsPathLoop fi = true) :
    ∃ path, AppFilePathByIdLoop p familyId (fuel + 1) fileId fullPath tr =
      (some (Except.ok path), tr1) := by
  unfold AppFilePathByIdLoop
  rw [hfetch]
  simp only
  by_cases hp : fi.Path ≠ ""
  · rw [if_pos hp]; exact ⟨_, rfl⟩
  · rw [if_neg hp]
    have hd : (startsWithDash fi.FileId || startsWithDash fi.ParentId) = true := by
      unfold endsPathLoop at hend
      simp only [hp, decide_False, Bool.false_or] at hend
      exact hend
    rw [if_pos hd]
    exact ⟨_, rfl⟩

/-- One round of the loop of `AppFilePathById` on a record that does not end
it. -/
theorem AppFilePathByIdLoop_next (p : PanClient) (familyId : Int) (fuel : Nat)
    (fileId fullPath : String) (tr tr1 : Trace) (fi : AppGetFileInfoResult)
    (hfetch : AppGetBasicFileInfo p { FamilyId := familyId, FileId := fileId } tr =
      (Except.ok fi, tr1))
    (hend : endsPathLoop fi = false) :
    AppFilePathByIdLoop p familyId (fuel + 1) fileId fullPath tr =
      AppFilePathByIdLoop p familyId fuel fi.ParentId
        (if fullPath = "" then fi.FileName else fi.FileName ++ "/" ++ fullPath) tr1 := by
  unfold endsPathLoop at hend
  simp only [Bool.or_eq_false_iff, decide_eq_false_iff_not, Decidable.not_not] at hend
  obtain ⟨⟨hp, h1⟩, h2⟩ := hend
  rw [AppFilePathByIdLoop, hfetch]
  simp only
  rw [if_neg (by simpa using hp), if_neg (by simp [h1, h2])]

/-- The loop of `AppFilePathById` ends within `d + 1` fetches when a record
that ends it is `d` steps away. -/
theorem AppFilePathByIdLoop_ends (p : PanClient) (familyId : Int) :
    ∀ (d fuel : Nat) (fileId fullPath : String) (tr : Trace),
      reachesEnd p familyId d fileId tr = true → d + 1 ≤ fuel →
      ∃ path evs,
        AppFilePathByIdLoop p familyId fuel fileId fullPath tr =
          (some (Except.ok path), tr ++ evs) ∧
        evs.length ≤ d + 1 ∧ ∀ ev ∈ evs, ∃ q, ev = Event.getFolderInfo q := by
  intro d
  induction d with
  | zero =>
    intro fuel fileId fullPath tr hreach hfuel
    obtain ⟨fuel, rfl⟩ : ∃ k, fuel = k + 1 := ⟨fuel - 1, by omega⟩
    unfold reachesEnd at hreach
    rcases hfetch : AppGetBasicFileInfo p { FamilyId := familyId, FileId := fileId } tr
      with ⟨res, tr1⟩
    rw [hfetch] at hreach
    cases res with
    | error err => simp at hreach
    | ok fi =>
      simp only at hreach
      have htr := AppGetBasicFileInfo_ok_sent p _ tr tr1 fi hfetch
      obtain ⟨path, hp⟩ := AppFilePathByIdLoop_last p familyId fuel fileId fullPath tr tr1 fi
        hfetch hreach
      exact ⟨path, [Event.getFolderInfo { FamilyId := familyId, FileId := fileId }],
        by rw [hp, htr], by simp, fun ev hev => ⟨_, List.mem_singleton.mp hev⟩⟩
  | succ d ih =>
    intro fuel fileId fullPath tr hreach hfuel
    obtain ⟨fuel, rfl⟩ : ∃ k, fuel = k + 1 := ⟨fuel - 1, by omega⟩
    unfold reachesEnd at hreach
    rcases hfetch : AppGetBasicFileInfo p { FamilyId := familyId, FileId := fileId } tr
      with ⟨res, tr1⟩
    rw [hfetch] at hreach
    cases res with
    | error err => simp at hreach
    | ok fi =>
      simp only at hreach
      have htr := AppGetBasicFileInfo_ok_sent p _ tr tr1 fi hfetch
      cases hend : endsPathLoop fi with
      | true =>
        obtain ⟨path, hp⟩ := AppFilePathByIdLoop_last p familyId fuel fileId fullPath tr tr1 fi
          hfetch hend
        exact ⟨path, [Event.getFolderInfo { FamilyId := familyId, FileId := fileId }],
          by rw [hp, htr], by simp, fun ev hev => ⟨_, List.mem_singleton.mp hev⟩⟩
      | false =>
        rw [hend, Bool.false_or] at hreach
        rw [AppFilePathByIdLoop_next p familyId fuel fileId fullPath tr tr1 fi hfetch hend]
        obtain ⟨path, evs, h1, h2, h3⟩ := ih fuel fi.ParentId
          (if fullPath = "" then fi.FileName else fi.FileName ++ "/" ++ fullPath) tr1 hreach
          (by omega)
        refine ⟨path, Event.getFolderInfo { FamilyId := familyId, FileId := fileId } :: evs,
          by rw [h1, htr]; simp, by simp; omega, ?_⟩
        intro ev hev
        rcases List.mem_cons.mp hev with h | h
        · exact ⟨_, h⟩
        · exact h3 ev h

/-- In a tree below the sentinel, a record that ends the loop is reached within
the rank of the node. -/
theorem reachesEnd_of_tree (p : PanClient) (familyId : Int) (rank : String → Nat)
    (nodes : String → Prop) (htree : TreeBelowSentinel p familyId rank nodes) :
    ∀ (n : Nat) (fileId : String) (tr : Trace), nodes fileId → rank fileId ≤ n →
      reachesEnd p familyId n fileId tr = true := by
  intro n
  induction n with
  | zero =>
    intro fileId tr hnode hrank
    obtain ⟨fi, tr1, hfetch, hcase⟩ := htree fileId tr hnode
    unfold reachesEnd
    rw [hfetch]
    rcases hcase with h | ⟨h, -⟩
    · exact h
    · omega
  | succ n ih =>
    intro fileId tr hnode hrank
    obtain ⟨fi, tr1, hfetch, hcase⟩ := htree fileId tr hnode
    unfold reachesEnd
    rw [hfetch]
    simp only [Bool.or_eq_true]
    rcases hcase with h | ⟨h, hpar⟩
    · exact Or.inl h
    · exact Or.inr (ih fi.ParentId tr1 hpar (by omega))

theorem docsClient_tree : TreeBelowSentinel docsClient 0 docsRank docsNodes := by
  intro fileId tr hnode
  rcases hnode with h | h
  · subst h
    exact ⟨{ FileId := "f1", FileName := "docs", ParentId := "-11" },
      tr ++ [Event.getFolderInfo { FileId := "f1" }], rfl, Or.inl (by decide)⟩
  · subst h
    exact ⟨{ FileId := "f2", FileName := "report.pdf", ParentId := "f1" },
      tr ++ [Event.getFolderInfo { FileId := "f2" }], rfl,
      Or.inr ⟨by decide, Or.inl rfl⟩⟩

/-- C27: if every metadata fetch succeeds and, following `ParentId` from the
given id, a record that carries a server path or whose id or parent id begins
with `-` is reached within `d` steps, then with fuel for `d + 1` rounds
`AppFilePathById` returns a path, having sent at most `d + 1` requests, all of
them metadata fetches.  In particular, when the metadata of a set of nodes
form a tree below the sentinel, measured by `rank` (the depth of a node), the
lookup of every node `id` of the tree ends, within `rank id + 1` fetches. -/
theorem AppFilePathById_terminates (p : PanClient) (familyId : Int) (d fuel : Nat)
    (fileId : String) (tr : Trace)
    (hreach : reachesEnd p familyId d fileId tr = true) (hfuel : d + 1 ≤ fuel) :
    (∃ path evs,
      AppFilePathById fuel p familyId fileId tr = (some (Except.ok path), tr ++ evs) ∧
      evs.length ≤ d + 1 ∧ ∀ ev ∈ evs, ∃ q, ev = Event.getFolderInfo q) ∧
    ∀ (rank : String → Nat) (nodes : String → Prop),
      TreeBelowSentinel p familyId rank nodes →
      ∀ (id : String) (hist : Trace), nodes id →
        ∃ path evs,
          AppFilePathById (rank id + 1) p familyId id hist =
            (some (Except.ok path), hist ++ evs) ∧
          evs.length ≤ rank id + 1 := by
  constructor
  · exact AppFilePathByIdLoop_ends p familyId d fuel fileId "" tr hreach hfuel
  · intro rank nodes htree id hist hnode
    obtain ⟨path, evs, h1, h2, -⟩ := AppFilePathByIdLoop_ends p familyId (rank id)
      (rank id + 1) id "" hist
      (reachesEnd_of_tree p familyId rank nodes htree (rank id) id hist hnode (le_refl _))
      (le_refl _)
    exact ⟨path, evs, h1, h2⟩

/-- Witness of C27: in the sample tree, `report.pdf` is one step below `docs`,
whose parent is the sentinel: the lookup ends after two fetches. -/
theorem AppFilePathById_terminates_witness :
    (reachesEnd docsClient 0 1 "f2" [] = true ∧ 1 + 1 ≤ 2) ∧
    ((∃ path evs,
      AppFilePathById 2 docsClient 0 "f2" [] = (some (Except.ok path), [] ++ evs) ∧
      evs.length ≤ 1 + 1 ∧ ∀ ev ∈ evs, ∃ q, ev = Event.getFolderInfo q) ∧
     ∃ path evs,
       AppFilePathById (docsRank "f2" + 1) docsClient 0 "f2" [] =
         (some (Except.ok path), [] ++ evs) ∧
       evs.length ≤ docsRank "f2" + 1) :=
  ⟨⟨by decide, by decide⟩,
   (AppFilePathById_terminates docsClient 0 1 2 "f2" [] (by decide) (by decide)).1,
   (AppFilePathById_terminates docsClient 0 1 2 "f2" [] (by decide) (by decide)).2
     docsRank docsNodes docsClient_tree "f2" [] (Or.inr rfl)⟩

/-! ## Upload session: decimal rendering -/

theorem digitValue_digitChar (d : Nat) (h : d < 10) : digitValue (digitChar d) = d := by
  interval_cases d <;> rfl

theorem decimalDigits_acc :
    ∀ (fuel n : Nat) (acc : List Char),
      decimalDigits fuel n acc = decimalDigits fuel n [] ++ acc := by
  intro fuel
  induction fuel with
  | zero => intro n acc; simp [decimalDigits]
  | succ fuel ih =>
    intro n acc
    unfold decimalDigits
    by_cases h : n < 10
    · simp [h]
    · rw [if_neg h, if_neg h, ih (n / 10) (digitChar (n % 10) :: acc),
        ih (n / 10) [digitChar (n % 10)]]
      simp

theorem decimalValue_snoc (xs : List Char) (c : Char) :
    decimalValue (xs ++ [c]) = 10 * decimalValue xs + digitValue c := by
  simp [decimalValue, List.foldl_append]

/-- The digits `decimalDigits` writes stand for the number written. -/
theorem decimalValue_decimalDigits :
    ∀ (fuel n : Nat), n < 10 ^ fuel → decimalValue (decimalDigits fuel n []) = n := by
  intro fuel
  induction fuel with
  | zero =>
    intro n h
    simp only [pow_zero, Nat.lt_one_iff] at h
    subst h
    rfl
  | succ fuel ih =>
    intro n h
    unfold decimalDigits
    by_cases h10 : n < 10
    · rw [if_pos h10]
      have := decimalValue_snoc [] (digitChar n)
      simp only [List.nil_append] at this
      rw [this, digitValue_digitChar n h10]
      simp [decimalValue]
    · rw [if_neg h10, decimalDigits_acc, decimalValue_snoc,
        ih (n / 10) (by rw [pow_succ] at h; exact Nat.div_lt_of_lt_mul (by omega)),
        digitValue_digitChar _ (Nat.mod_lt _ (by norm_num))]
      omega

theorem lt_ten_pow_succ (n : Nat) : n < 10 ^ (n + 1) :=
  lt_of_lt_of_le (Nat.lt_pow_self (by norm_num) n) (Nat.pow_le_pow_right (by norm_num) (by omega))

/-- The decimal rendering of a non-negative number stands for that number. -/
theorem decimalValue_FormatInt (i : Int) (h : 0 ≤ i) :
    decimalValue (FormatInt i).data = i.toNat := by
  unfold FormatInt
  rw [if_neg (by omega)]
  exact decimalValue_decimalDigits _ _ (lt_ten_pow_succ _)

theorem FormatInt_injective (a b : Int) (ha : 0 ≤ a) (hb : 0 ≤ b)
    (h : FormatInt a = FormatInt b) : a = b := by
  have h1 := decimalValue_FormatInt a ha
  have h2 := decimalValue_FormatInt b hb
  rw [h] at h1
  have : a.toNat = b.toNat := h1.symm.trans h2
  omega

theorem range_value_injective (o a b : Int) (ha : 0 ≤ a) (hb : 0 ≤ b)
    (h : "bytes=" ++ FormatInt o ++ "-" ++ FormatInt a =
      "bytes=" ++ FormatInt o ++ "-" ++ FormatInt b) : a = b := by
  apply FormatInt_injective a b ha hb
  have hd := congrArg String.data h
  simp only [String.data_append] at hd
  exact String.ext (List.append_cancel_left hd)

/-! ## C21: the range header -/

/-- C21: for every upload range with `Offset ≥ 0` and `Len ≥ 0`,
`AppUploadFileData` sends one request, whose header `Edrive-UploadFileRange` is
exactly `bytes=` followed by the decimal digits of `Offset`, a minus sign and
the decimal digits of `Len`: the number after the minus sign is `Len` itself,
and no other number (such as `Offset + Len` or `Offset + Len - 1`, when they
differ from `Len`) gives the value sent. -/
theorem AppUploadFileData_range_header (p : UploadClient)
    (uploadUrl uploadFileId xRequestId : String) (fileRange : AppFileUploadRange)
    (uploadFunc : UploadFunc) (tr : UploadTrace)
    (ho : 0 ≤ fileRange.Offset) (hl : 0 ≤ fileRange.Len) :
    ∃ req,
      (AppUploadFileData p uploadUrl uploadFileId xRequestId fileRange uploadFunc tr).2 =
        tr ++ [req] ∧
      fieldOf req.headers "Edrive-UploadFileRange" =
        some ("bytes=" ++ FormatInt fileRange.Offset ++ "-" ++ FormatInt fileRange.Len) ∧
      decimalValue (FormatInt fileRange.Offset).data = fileRange.Offset.toNat ∧
      decimalValue (FormatInt fileRange.Len).data = fileRange.Len.toNat ∧
      ∀ x : Int, 0 ≤ x →
        fieldOf req.headers "Edrive-UploadFileRange" =
          some ("bytes=" ++ FormatInt fileRange.Offset ++ "-" ++ FormatInt x) →
        x = fileRange.Len := by
  have hfield : fieldOf
      (uploadDataRequest p uploadUrl uploadFileId xRequestId fileRange tr).headers
      "Edrive-UploadFileRange" =
      some ("bytes=" ++ FormatInt fileRange.Offset ++ "-" ++ FormatInt fileRange.Len) := by
    simp [fieldOf, uploadDataRequest, List.find?]
  refine ⟨uploadDataRequest p uploadUrl uploadFileId xRequestId fileRange tr, ?_, hfield,
    decimalValue_FormatInt _ ho, decimalValue_FormatInt _ hl, ?_⟩
  · unfold AppUploadFileData
    simp only
    repeat' split
    all_goals rfl
  · intro x hx h
    rw [hfield] at h
    simp only [Option.some.injEq] at h
    exact range_value_injective fileRange.Offset x fileRange.Len hx hl h.symm

/-- Witness of C21: the range of offset 400 and length 600 is sent as
`bytes=400-600`. -/
theorem AppUploadFileData_range_header_witness :
    ("bytes=" ++ FormatInt 400 ++ "-" ++ FormatInt 600 = "bytes=400-600") ∧
    ∃ req,
      (AppUploadFileData sampleUploadClient "https://up.example" "u1" "r"
          { Offset := 400, Len := 600 } offsetRefused []).2 = [] ++ [req] ∧
      fieldOf req.headers "Edrive-UploadFileRange" =
        some ("bytes=" ++ FormatInt (400 : Int) ++ "-" ++ FormatInt (600 : Int)) ∧
      decimalValue (FormatInt (400 : Int)).data = (400 : Int).toNat ∧
      decimalValue (FormatInt (600 : Int)).data = (600 : Int).toNat ∧
      ∀ x : Int, 0 ≤ x →
        fieldOf req.headers "Edrive-UploadFileRange" =
          some ("bytes=" ++ FormatInt (400 : Int) ++ "-" ++ FormatInt x) →
        x = 600 :=
  ⟨by decide,
   AppUploadFileData_range_header sampleUploadClient "https://up.example" "u1" "r"
     { Offset := 400, Len := 600 } offsetRefused [] (by decide) (by decide)⟩

/-! ## C22: the request id of a session -/

theorem AppCreateUploadFile_trace (p : UploadClient) (param : AppCreateUploadFileParam)
    (tr : UploadTrace) :
    (AppCreateUploadFile p param tr).2 = tr ++ [createRequest p param tr] := by
  unfold AppCreateUploadFile
  simp only
  repeat' split
  all_goals rfl

theorem AppCreateUploadFile_id (p : UploadClient) (param : AppCreateUploadFileParam)
    (tr tr1 : UploadTrace) (item : AppCreateUploadFileResult)
    (h : AppCreateUploadFile p param tr = (Except.ok item, tr1)) :
    item.XRequestId = p.XRequestId tr := by
  unfold AppCreateUploadFile at h
  simp only at h
  cases hresp : p.Fetch tr (createRequest p param tr) with
  | error err => rw [hresp] at h; simp at h
  | ok body =>
    rw [hresp] at h
    simp only at h
    cases hc : body.commonErr with
    | some apiErr => rw [hc] at h; simp at h
    | none =>
      rw [hc] at h
      simp only at h
      cases hd : body.createResult with
      | error err => rw [hd] at h; simp at h
      | ok it =>
        rw [hd] at h
        simp only [Prod.mk.injEq, Except.ok.injEq] at h
        rw [← h.1]

theorem AppUploadFileData_trace (p : UploadClient)
    (uploadUrl uploadFileId xRequestId : String) (fileRange : AppFileUploadRange)
    (uploadFunc : UploadFunc) (tr : UploadTrace) :
    (AppUploadFileData p uploadUrl uploadFileId xRequestId fileRange uploadFunc tr).2 =
      tr ++ [uploadDataRequest p uploadUrl uploadFileId xRequestId fileRange tr] := by
  unfold AppUploadFileData
  simp only
  repeat' split
  all_goals rfl

theorem AppUploadFileCommitOverwrite_trace (p : UploadClient)
    (uploadCommitUrl uploadFileId xRequestId : String) (overwrite : Bool) (tr : UploadTrace) :
    (AppUploadFileCommitOverwrite p uploadCommitUrl uploadFileId xRequestId overwrite tr).2 =
      tr ++ [commitRequest p uploadCommitUrl uploadFileId xRequestId overwrite tr] := by
  unfold AppUploadFileCommitOverwrite
  simp only
  repeat' split
  all_goals rfl

theorem AppGetUploadFileStatus_trace (p : UploadClient) (uploadFileId : String)
    (tr : UploadTrace) :
    (AppGetUploadFileStatus p uploadFileId tr).2 = tr ++ [statusRequest p uploadFileId tr] := by
  unfold AppGetUploadFileStatus
  simp only
  repeat' split
  all_goals rfl

/-- C22 fails as stated for the status query: in the sample environment, whose
request ids differ from call to call, the session created first carries the id
`r`, and the status query that follows sends the id `r+`, a fresh one. -/
theorem AppGetUploadFileStatus_fresh_request_id :
    AppCreateUploadFile sampleUploadClient {} [] =
      (Except.ok { XRequestId := "r" }, [createRequest sampleUploadClient {} []]) ∧
    (AppGetUploadFileStatus sampleUploadClient "" [createRequest sampleUploadClient {} []]).2 =
      [createRequest sampleUploadClient {} [],
       statusRequest sampleUploadClient "" [createRequest sampleUploadClient {} []]] ∧
    fieldOf (statusRequest sampleUploadClient "" [createRequest sampleUploadClient {} []]).headers
      "X-Request-ID" = some "r+" ∧
    "r+" ≠ "r" := by
  decide

/-- C22, amended: when `AppCreateUploadFile` succeeds, the id in the result's
`XRequestId` is the one its request carried as `X-Request-ID`; the transfer
(`AppUploadFileData`) and the commit (`AppUploadFileCommitOverwrite`) send in
that header the request id they are given, so the session's id when the caller
passes it on; the status query (`AppGetUploadFileStatus`) takes no request id
and sends a freshly drawn one. -/
theorem upload_session_request_id (p : UploadClient) (param : AppCreateUploadFileParam)
    (tr tr1 : UploadTrace) (item : AppCreateUploadFileResult)
    (hcreate : AppCreateUploadFile p param tr = (Except.ok item, tr1)) :
    (∃ req, tr1 = tr ++ [req] ∧ fieldOf req.headers "X-Request-ID" = some item.XRequestId) ∧
    (∀ (uploadUrl : String) (fileRange : AppFileUploadRange) (uploadFunc : UploadFunc)
        (h : UploadTrace),
      ∃ req,
        (AppUploadFileData p uploadUrl item.UploadFileId item.XRequestId fileRange
          uploadFunc h).2 = h ++ [req] ∧
        fieldOf req.headers "X-Request-ID" = some item.XRequestId) ∧
    (∀ (uploadCommitUrl : String) (overwrite : Bool) (h : UploadTrace),
      ∃ req,
        (AppUploadFileCommitOverwrite p uploadCommitUrl item.UploadFileId item.XRequestId
          overwrite h).2 = h ++ [req] ∧
        fieldOf req.headers "X-Request-ID" = some item.XRequestId) ∧
    (∀ h : UploadTrace,
      ∃ req,
        (AppGetUploadFileStatus p item.UploadFileId h).2 = h ++ [req] ∧
        fieldOf req.headers "X-Request-ID" = some (p.XRequestId h)) := by
  have hid := AppCreateUploadFile_id p param tr tr1 item hcreate
  have htr := AppCreateUploadFile_trace p param tr
  rw [hcreate] at htr
  refine ⟨⟨createRequest p param tr, htr, ?_⟩, ?_, ?_, ?_⟩
  · rw [hid]
    simp [fieldOf, createRequest, List.find?]
  · intro uploadUrl fileRange uploadFunc h
    exact ⟨_, AppUploadFileData_trace p uploadUrl _ _ fileRange uploadFunc h,
      by simp [fieldOf, uploadDataRequest, List.find?]⟩
  · intro uploadCommitUrl overwrite h
    exact ⟨_, AppUploadFileCommitOverwrite_trace p uploadCommitUrl _ _ overwrite h,
      by simp [fieldOf, commitRequest, List.find?]⟩
  · intro h
    exact ⟨_, AppGetUploadFileStatus_trace p _ h,
      by simp [fieldOf, statusRequest, List.find?]⟩

/-- Witness of C22: the session created first in the sample environment. -/
theorem upload_session_request_id_witness :
    (∃ req, [createRequest sampleUploadClient {} []] = [] ++ [req] ∧
      fieldOf req.headers "X-Request-ID" =
        some ({ XRequestId := "r" } : AppCreateUploadFileResult).XRequestId) ∧
    ∃ req,
      (AppGetUploadFileStatus sampleUploadClient
        ({ XRequestId := "r" } : AppCreateUploadFileResult).UploadFileId
        [createRequest sampleUploadClient {} []]).2 =
        [createRequest sampleUploadClient {} []] ++ [req] ∧
      fieldOf req.headers "X-Request-ID" =
        some (sampleUploadClient.XRequestId [createRequest sampleUploadClient {} []]) :=
  ⟨(upload_session_request_id sampleUploadClient {} []
      [createRequest sampleUploadClient {} []] { XRequestId := "r" } (by decide)).1,
   (upload_session_request_id sampleUploadClient {} []
      [createRequest sampleUploadClient {} []] { XRequestId := "r" } (by decide)).2.2.2
      [createRequest sampleUploadClient {} []]⟩

/-! ## C23: the commit and its policy -/

/-- C23: for all arguments, `AppUploadFileCommit` is
`AppUploadFileCommitOverwrite` with the flag `false`; the one request a commit
sends carries in its form the field `opertype` with the value `5` exactly when
`overwrite` is true and with the value `1` exactly when it is false; and the
method, the address, the headers and every other form field are the same for
both values of the flag. -/
theorem AppUploadFileCommit_policy (p : UploadClient)
    (uploadCommitUrl uploadFileId xRequestId : String) (overwrite : Bool) (tr : UploadTrace) :
    AppUploadFileCommit p uploadCommitUrl uploadFileId xRequestId tr =
      AppUploadFileCommitOverwrite p uploadCommitUrl uploadFileId xRequestId false tr ∧
    (AppUploadFileCommitOverwrite p uploadCommitUrl uploadFileId xRequestId overwrite tr).2 =
      tr ++ [commitRequest p uploadCommitUrl uploadFileId xRequestId overwrite tr] ∧
    ((commitRequest p uploadCommitUrl uploadFileId xRequestId overwrite tr).formData.bind
        (fun form => fieldOf form "opertype") = some "5" ↔ overwrite = true) ∧
    ((commitRequest p uploadCommitUrl uploadFileId xRequestId overwrite tr).formData.bind
        (fun form => fieldOf form "opertype") = some "1" ↔ overwrite = false) ∧
    (commitRequest p uploadCommitUrl uploadFileId xRequestId true tr).httpMethod =
      (commitRequest p uploadCommitUrl uploadFileId xRequestId false tr).httpMethod ∧
    (commitRequest p uploadCommitUrl uploadFileId xRequestId true tr).fullUrl =
      (commitRequest p uploadCommitUrl uploadFileId xRequestId false tr).fullUrl ∧
    (commitRequest p uploadCommitUrl uploadFileId xRequestId true tr).headers =
      (commitRequest p uploadCommitUrl uploadFileId xRequestId false tr).headers ∧
    (commitRequest p uploadCommitUrl uploadFileId xRequestId true tr).formData.map
        (fun form => form.filter (fun kv => kv.1 != "opertype")) =
      (commitRequest p uploadCommitUrl uploadFileId xRequestId false tr).formData.map
        (fun form => form.filter (fun kv => kv.1 != "opertype")) := by
  refine ⟨rfl, AppUploadFileCommitOverwrite_trace p _ _ _ overwrite tr, ?_, ?_, rfl, rfl, rfl,
    ?_⟩
  · cases overwrite <;> simp [commitRequest, fieldOf, List.find?]
  · cases overwrite <;> simp [commitRequest, fieldOf, List.find?]
  · simp [commitRequest, List.filter]

/-! ## C24: the outcome of a transfer -/

/-- C24: `AppUploadFileData` fails with the kind `OffsetMismatch`
(`ApiCodeUploadOffsetVerifyFailed`) exactly when the upload function returned
a response without an error and the body decodes as an error envelope with the
code `UploadOffsetVerifyFailed`; it fails with the translation of a transport
error exactly when the upload function returned an error, and then with that
error; in every other case (no response, a body that does not decode, an
envelope with an empty or any other code) it returns nil. -/
theorem AppUploadFileData_outcome (p : UploadClient)
    (uploadUrl uploadFileId xRequestId : String) (fileRange : AppFileUploadRange)
    (uploadFunc : UploadFunc) (tr : UploadTrace) :
    ((∃ e, (AppUploadFileData p uploadUrl uploadFileId xRequestId fileRange uploadFunc tr).1 =
          some e ∧ e.Code = ApiCode.ApiCodeUploadOffsetVerifyFailed) ↔
      ∃ er, uploadFunc tr "PUT" (uploadUrl ++ "?" ++ p.PcClientInfoSuffixParam tr)
          (uploadDataRequest p uploadUrl uploadFileId xRequestId fileRange tr).headers =
          Except.ok (some (Except.ok er)) ∧ er.Code = "UploadOffsetVerifyFailed") ∧
    ((∃ err, (AppUploadFileData p uploadUrl uploadFileId xRequestId fileRange uploadFunc tr).1 =
          some (NewApiErrorWithError err)) ↔
      ∃ err, uploadFunc tr "PUT" (uploadUrl ++ "?" ++ p.PcClientInfoSuffixParam tr)
          (uploadDataRequest p uploadUrl uploadFileId xRequestId fileRange tr).headers =
          Except.error err) ∧
    (∀ err, uploadFunc tr "PUT" (uploadUrl ++ "?" ++ p.PcClientInfoSuffixParam tr)
          (uploadDataRequest p uploadUrl uploadFileId xRequestId fileRange tr).headers =
          Except.error err →
      (AppUploadFileData p uploadUrl uploadFileId xRequestId fileRange uploadFunc tr).1 =
        some (NewApiErrorWithError err)) ∧
    ((AppUploadFileData p uploadUrl uploadFileId xRequestId fileRange uploadFunc tr).1 = none ↔
      (¬ ∃ er, uploadFunc tr "PUT" (uploadUrl ++ "?" ++ p.PcClientInfoSuffixParam tr)
          (uploadDataRequest p uploadUrl uploadFileId xRequestId fileRange tr).headers =
          Except.ok (some (Except.ok er)) ∧ er.Code = "UploadOffsetVerifyFailed") ∧
      ¬ ∃ err, uploadFunc tr "PUT" (uploadUrl ++ "?" ++ p.PcClientInfoSuffixParam tr)
          (uploadDataRequest p uploadUrl uploadFileId xRequestId fileRange tr).headers =
          Except.error err) := by
  have hm : (uploadDataRequest p uploadUrl uploadFileId xRequestId fileRange tr).httpMethod =
      "PUT" := rfl
  have hu : (uploadDataRequest p uploadUrl uploadFileId xRequestId fileRange tr).fullUrl =
      uploadUrl ++ "?" ++ p.PcClientInfoSuffixParam tr := rfl
  unfold AppUploadFileData
  simp only [hm, hu]
  rcases hans : uploadFunc tr "PUT" (uploadUrl ++ "?" ++ p.PcClientInfoSuffixParam tr)
      (uploadDataRequest p uploadUrl uploadFileId xRequestId fileRange tr).headers
    with err | (_ | (derr | er))
  · simp [NewApiErrorWithError, NewApiError]
  · simp
  · simp
  · by_cases hcode : er.Code = "UploadOffsetVerifyFailed"
    · have hne : er.Code ≠ "" := by rw [hcode]; decide
      simp [hcode, NewApiErrorWithError, NewApiError]
    · by_cases hne : er.Code ≠ ""
      · simp [hcode, hne]
      · simp [hcode, hne]

/-- Witness of C24: a refused offset, another server error code, and a
transport failure. -/
theorem AppUploadFileData_outcome_witness :
    (AppUploadFileData sampleUploadClient "https://up.example" "u1" "r"
        { Offset := 400, Len := 600 } offsetRefused []).1 =
      some (NewApiError ApiCode.ApiCodeUploadOffsetVerifyFailed "上传文件数据偏移值校验失败") ∧
    (AppUploadFileData sampleUploadClient "https://up.example" "u1" "r"
        { Offset := 400, Len := 600 } otherCodeAnswered []).1 = none ∧
    (AppUploadFileData sampleUploadClient "https://up.example" "u1" "r"
        { Offset := 400, Len := 600 } uploadBroken []).1 =
      some (NewApiErrorWithError "broken pipe") :=
  ⟨by decide, by decide,
   (AppUploadFileData_outcome sampleUploadClient "https://up.example" "u1" "r"
     { Offset := 400, Len := 600 } uploadBroken []).2.2.1 "broken pipe" rfl⟩

end Cloudpan
